import Mathlib

/-! # uwurl-test-server: sitemap generation and static serving

A shallow embedding of `main.go`.

* Go `string` values are modelled by `String` (the valid-UTF-8 strings).
* `time.Now()` is an input of `generateSitemaps` (one reading per call site).
* The iteration order of a Go `map` is an input (`RangeOrder`).
* The filesystem is an explicit state (`FS`) threaded through the `os` calls.
* `encoding/xml`, `path/filepath`, `os` and `net/http` are library code; the
  fragments the program uses are modelled here from their documented behaviour.
* The filesystem has directories and regular files only: no permissions,
  symbolic links, quotas or other processes, and paths are resolved lexically
  from the working directory.
* Reading the written text back uses the small XML reader defined below
  (`parseXML`), which decodes the five predefined entities and the numeric
  character references the encoder emits.
-/

namespace Uwurl

/-! ## Data model (`main.go`, lines 15-49) -/

/-- Go `xml.Name`. -/
structure Name where
  Space : String := ""
  Local : String := ""
  deriving DecidableEq, Repr

/-- Go `Sitemap`: `Loc` is tagged `xml:"loc"`, `LastMod` is tagged
`xml:"lastmod"`. -/
structure Sitemap where
  Loc : String := ""
  LastMod : String := ""
  deriving DecidableEq, Repr

/-- Go `SitemapIndex`: `XMLName` is tagged `xml:"sitemapindex"`, `XMLNS` is
tagged `xml:"xmlns,attr"`, `Sitemaps` is tagged `xml:"sitemap"`. -/
structure SitemapIndex where
  XMLName : Name := {}
  XMLNS : String := ""
  Sitemaps : List Sitemap := []
  deriving DecidableEq, Repr

/-- Go `XHTMLLink`: three attributes `rel`, `hreflang`, `href`. -/
structure XHTMLLink where
  Rel : String := ""
  Hreflang : String := ""
  Href : String := ""
  deriving DecidableEq, Repr

/-- Go `URL`: `loc`, then `lastmod`, `changefreq`, `priority` (all three
`omitempty`), then the `xhtml:link` slice. -/
structure URL where
  Loc : String := ""
  LastMod : String := ""
  ChangeFreq : String := ""
  Priority : String := ""
  XHTMLLinks : List XHTMLLink := []
  deriving DecidableEq, Repr

/-- Go `URLSet`: `XMLName` is tagged `xml:"urlset"`, `XMLNS` is the attribute
`xmlns`, the five further namespace attributes are `omitempty`, `URLs` is
tagged `xml:"url"`. -/
structure URLSet where
  XMLName : Name := {}
  XMLNS : String := ""
  XMLNSNews : String := ""
  XMLNSXhtml : String := ""
  XMLNSMobile : String := ""
  XMLNSImage : String := ""
  XMLNSVideo : String := ""
  URLs : List URL := []
  deriving DecidableEq, Repr

/-- The values of the `map[string]map[string]interface{}` table: the two
dynamic types that the program stores in it. -/
inductive Document where
  | index (d : SitemapIndex)
  | urlset (d : URLSet)
  deriving DecidableEq, Repr

/-! ## `encoding/xml`: the printer behind `Encoder.Encode` -/

/-- Go `xml.isInCharacterRange`: the `Char` production of the XML
recommendation. -/
def isInCharacterRange (r : Char) : Bool :=
  r.toNat == 0x09 || r.toNat == 0x0A || r.toNat == 0x0D ||
  (0x20 ≤ r.toNat && r.toNat ≤ 0xD7FF) ||
  (0xE000 ≤ r.toNat && r.toNat ≤ 0xFFFD) ||
  (0x10000 ≤ r.toNat && r.toNat ≤ 0x10FFFF)

/-- The replacement character U+FFFD (`escFFFD`). -/
def runeFFFD : Char := Char.ofNat 0xFFFD

/-- One iteration of the loop of `printer.EscapeString`: what is written for
the rune `r`. -/
def escapeRune (r : Char) : List Char :=
  if r = '"' then "&#34;".data
  else if r = '\'' then "&#39;".data
  else if r = '&' then "&amp;".data
  else if r = '<' then "&lt;".data
  else if r = '>' then "&gt;".data
  else if r = '\t' then "&#x9;".data
  else if r = '\n' then "&#xA;".data
  else if r = '\r' then "&#xD;".data
  else if !isInCharacterRange r then [runeFFFD]
  else [r]

/-- The text `printer.EscapeString` writes for the runes `s`. -/
def escapeRunes : List Char → List Char
  | [] => []
  | r :: rs => escapeRune r ++ escapeRunes rs

/-- The text `printer.EscapeString` writes for the string `s`. -/
def escapeText (s : String) : String := String.mk (escapeRunes s.data)

/-- Go `xml.Attr`. -/
structure Attr where
  Name : Name
  Value : String
  deriving DecidableEq, Repr

/-- Go `xml.StartElement`. -/
structure StartElement where
  Name : Name
  Attr : List Attr := []
  deriving DecidableEq, Repr

/-- Go `xml.printer`, the fields that `Encode` with `Indent` uses. `w` is the
text written so far; the field named prefix in Go is `pre`. -/
structure printer where
  w : String := ""
  indent : String := ""
  pre : String := ""
  depth : Int := 0
  indentedIn : Bool := false
  putNewline : Bool := false
  tags : List Name := []
  deriving DecidableEq, Repr

namespace printer

/-- Go `p.WriteString`. -/
def WriteString (p : printer) (s : String) : printer := { p with w := p.w ++ s }

/-- Go `p.EscapeString`. -/
def EscapeString (p : printer) (s : String) : printer := { p with w := p.w ++ escapeText s }

/-- The loop `for i := 0; i < p.depth; i++ { p.WriteString(p.indent) }`. -/
def indentTimes (indent : String) : Nat → String
  | 0 => ""
  | n + 1 => indent ++ indentTimes indent n

/-- Go `printer.writeIndent`. -/
def writeIndent (p : printer) (depthDelta : Int) : printer :=
  if p.pre.length = 0 ∧ p.indent.length = 0 then p
  else
    let p1 := if depthDelta < 0 then { p with depth := p.depth - 1 } else p
    if depthDelta < 0 ∧ p.indentedIn then { p1 with indentedIn := false }
    else
      let p2 := if depthDelta < 0 then { p1 with indentedIn := false } else p1
      let p3 := if p2.putNewline then p2.WriteString "\n" else { p2 with putNewline := true }
      let p4 := if p3.pre.length > 0 then p3.WriteString p3.pre else p3
      let p5 := if p4.indent.length > 0 then p4.WriteString (indentTimes p4.indent p4.depth.toNat) else p4
      if depthDelta > 0 then { p5 with depth := p5.depth + 1, indentedIn := true } else p5

/-- The attribute loop of `printer.writeStart`. No attribute of this program
has a name space, so `createAttrPrefix` is never reached: such an attribute
is reported as an error here. -/
def writeAttrs (p : printer) : List Attr → Except String printer
  | [] => .ok p
  | attr :: rest =>
    if attr.Name.Local = "" then writeAttrs p rest
    else if attr.Name.Space ≠ "" then .error "xml: attribute name space not modelled"
    else
      writeAttrs ((((p.WriteString " ").WriteString attr.Name.Local).WriteString "=\"").EscapeString
        attr.Value |>.WriteString "\"") rest

/-- Go `printer.writeStart`. -/
def writeStart (p : printer) (start : StartElement) : Except String printer :=
  if start.Name.Local = "" then .error "xml: start tag with no name"
  else
    let p1 := { p with tags := p.tags ++ [start.Name] }
    let p2 := p1.writeIndent 1
    let p3 := (p2.WriteString "<").WriteString start.Name.Local
    let p4 := if start.Name.Space ≠ "" then
        ((p3.WriteString " xmlns=\"").EscapeString start.Name.Space).WriteString "\""
      else p3
    match writeAttrs p4 start.Attr with
    | .error e => .error e
    | .ok p5 => .ok (p5.WriteString ">")

/-- Go `printer.writeEnd`. -/
def writeEnd (p : printer) (name : Name) : Except String printer :=
  if name.Local = "" then .error "xml: end tag with no name"
  else
    match p.tags.getLast? with
    | none => .error ("xml: end tag </" ++ name.Local ++ "> without start tag")
    | some top =>
      if top.Local = "" then .error ("xml: end tag </" ++ name.Local ++ "> without start tag")
      else if top ≠ name then
        .error ("xml: end tag </" ++ name.Local ++ "> does not match start tag <" ++ top.Local ++ ">")
      else
        let p1 := { p with tags := p.tags.dropLast }
        let p2 := p1.writeIndent (-1)
        .ok ((((p2.WriteString "<").WriteString "/").WriteString name.Local).WriteString ">")

end printer

/-- The parsed struct tag of a field (`fieldInfo`): the name and the
`omitempty` flag; whether the field is an attribute decides which of
`marshalAttr` and `marshalValue` it goes through. -/
structure fieldInfo where
  name : String
  omitEmpty : Bool := false
  deriving DecidableEq, Repr

/-- The attribute loop of `marshalValue` for one string field, with
`marshalAttr`: an `omitempty` field with the empty value is skipped. -/
def marshalAttr (start : StartElement) (finfo : fieldInfo) (val : String) : StartElement :=
  if finfo.omitEmpty ∧ val.length = 0 then start
  else { start with Attr := start.Attr ++ [{ Name := { Local := finfo.name }, Value := val }] }

/-- Go `marshalValue` at a field of kind `string`: nothing for an `omitempty`
field that is empty, otherwise start tag, escaped text, end tag. -/
def marshalString (p : printer) (finfo : fieldInfo) (val : String) : Except String printer :=
  if finfo.omitEmpty ∧ val.length = 0 then .ok p
  else
    let start : StartElement := { Name := { Local := finfo.name } }
    match p.writeStart start with
    | .error e => .error e
    | .ok p1 => (p1.EscapeString val).writeEnd start.Name

/-- Go `marshalValue` at a slice: the elements one after the other, with no
enclosing tag; the first error stops the loop. -/
def marshalSlice {α : Type} (f : printer → α → Except String printer) :
    printer → List α → Except String printer
  | p, [] => .ok p
  | p, x :: xs =>
    match f p x with
    | .error e => .error e
    | .ok p1 => marshalSlice f p1 xs

/-- Go `marshalValue` at a `Sitemap` (no `XMLName`: the element is named by the
field, `sitemap`); `marshalStruct` writes `loc` and `lastmod`. -/
def marshalSitemap (p : printer) (v : Sitemap) : Except String printer :=
  let start : StartElement := { Name := { Local := "sitemap" } }
  match p.writeStart start with
  | .error e => .error e
  | .ok p1 =>
    match marshalString p1 { name := "loc" } v.Loc with
    | .error e => .error e
    | .ok p2 =>
      match marshalString p2 { name := "lastmod" } v.LastMod with
      | .error e => .error e
      | .ok p3 => p3.writeEnd start.Name

/-- Go `marshalValue` at a `SitemapIndex`: the tag of `XMLName` names the
element, whatever the field holds. -/
def marshalSitemapIndex (p : printer) (v : SitemapIndex) : Except String printer :=
  let start : StartElement := { Name := { Local := "sitemapindex" } }
  let start := marshalAttr start { name := "xmlns" } v.XMLNS
  match p.writeStart start with
  | .error e => .error e
  | .ok p1 =>
    match marshalSlice marshalSitemap p1 v.Sitemaps with
    | .error e => .error e
    | .ok p2 => p2.writeEnd start.Name

/-- Go `marshalValue` at an `XHTMLLink`: three attributes, no content. -/
def marshalXHTMLLink (p : printer) (v : XHTMLLink) : Except String printer :=
  let start : StartElement := { Name := { Local := "xhtml:link" } }
  let start := marshalAttr start { name := "rel" } v.Rel
  let start := marshalAttr start { name := "hreflang" } v.Hreflang
  let start := marshalAttr start { name := "href" } v.Href
  match p.writeStart start with
  | .error e => .error e
  | .ok p1 => p1.writeEnd start.Name

/-- Go `marshalValue` at a `URL`. -/
def marshalURL (p : printer) (v : URL) : Except String printer :=
  let start : StartElement := { Name := { Local := "url" } }
  match p.writeStart start with
  | .error e => .error e
  | .ok p1 =>
    match marshalString p1 { name := "loc" } v.Loc with
    | .error e => .error e
    | .ok p2 =>
      match marshalString p2 { name := "lastmod", omitEmpty := true } v.LastMod with
      | .error e => .error e
      | .ok p3 =>
        match marshalString p3 { name := "changefreq", omitEmpty := true } v.ChangeFreq with
        | .error e => .error e
        | .ok p4 =>
          match marshalString p4 { name := "priority", omitEmpty := true } v.Priority with
          | .error e => .error e
          | .ok p5 =>
            match marshalSlice marshalXHTMLLink p5 v.XHTMLLinks with
            | .error e => .error e
            | .ok p6 => p6.writeEnd start.Name

/-- Go `marshalValue` at a `URLSet`. -/
def marshalURLSet (p : printer) (v : URLSet) : Except String printer :=
  let start : StartElement := { Name := { Local := "urlset" } }
  let start := marshalAttr start { name := "xmlns" } v.XMLNS
  let start := marshalAttr start { name := "xmlns:news", omitEmpty := true } v.XMLNSNews
  let start := marshalAttr start { name := "xmlns:xhtml", omitEmpty := true } v.XMLNSXhtml
  let start := marshalAttr start { name := "xmlns:mobile", omitEmpty := true } v.XMLNSMobile
  let start := marshalAttr start { name := "xmlns:image", omitEmpty := true } v.XMLNSImage
  let start := marshalAttr start { name := "xmlns:video", omitEmpty := true } v.XMLNSVideo
  match p.writeStart start with
  | .error e => .error e
  | .ok p1 =>
    match marshalSlice marshalURL p1 v.URLs with
    | .error e => .error e
    | .ok p2 => p2.writeEnd start.Name

/-- Go `marshalValue` at the `interface{}` content: drill into the interface
and marshal the dynamic type. -/
def marshalValue (p : printer) : Document → Except String printer
  | .index d => marshalSitemapIndex p d
  | .urlset d => marshalURLSet p d

/-- The encoder of `writeXMLFile`: `xml.NewEncoder(file)`, then
`encoder.Indent("", "  ")`, then `encoder.Encode(content)`. The result is the
text flushed to the file, or the marshalling error. -/
def Encode (content : Document) : Except String String :=
  let p : printer := { indent := "  ", pre := "" }
  match marshalValue p content with
  | .error e => .error e
  | .ok p1 => .ok p1.w

/-! ## Reading XML back

A reader for the fragment of XML 1.0 that `encoding/xml` writes for these
types: elements, attributes, character data and character or predefined entity
references. Comments, processing instructions, `CDATA` sections and document
type declarations are refused. The reader is a character-by-character state
machine (`Lexer`) that produces tokens, followed by a stack machine
(`Builder`) that checks nesting and builds the element tree. -/

/-- A token of the reader. -/
inductive Token where
  | start (name : String) (attrs : List (String × String))
  | stop (name : String)
  | text (s : String)
  deriving DecidableEq, Repr

/-- White space of the XML recommendation (production `S`). -/
def isSpace (c : Char) : Bool := c = ' ' || c = '\t' || c = '\n' || c = '\r'

/-- First character of a name: a letter, `_`, `:` or a character above ASCII. -/
def isNameStart (c : Char) : Bool :=
  c.isAlpha || c = '_' || c = ':' || (0x80 ≤ c.toNat && isInCharacterRange c)

/-- Further character of a name: also a digit, `-` or `.`. -/
def isNameChar (c : Char) : Bool := isNameStart c || c.isDigit || c = '-' || c = '.'

/-- Value of a hexadecimal digit. -/
def hexDigit (c : Char) : Option Nat :=
  if '0' ≤ c ∧ c ≤ '9' then some (c.toNat - '0'.toNat)
  else if 'a' ≤ c ∧ c ≤ 'f' then some (c.toNat - 'a'.toNat + 10)
  else if 'A' ≤ c ∧ c ≤ 'F' then some (c.toNat - 'A'.toNat + 10)
  else none

/-- Value of a decimal digit. -/
def decDigit (c : Char) : Option Nat :=
  if '0' ≤ c ∧ c ≤ '9' then some (c.toNat - '0'.toNat) else none

/-- Number written by `ds` in the given base, `none` when `ds` is empty or has
a character that is not a digit. -/
def parseNumber (digit : Char → Option Nat) (base : Nat) (ds : List Char) : Option Nat :=
  if ds = [] then none
  else ds.foldl (fun acc c => match acc, digit c with
    | some n, some d => some (n * base + d)
    | _, _ => none) (some 0)

/-- The character an entity reference `&name;` stands for: the five predefined
entities and the decimal and hexadecimal character references; the character
must be an XML character. -/
def decodeEntity (name : List Char) : Option Char :=
  match name with
  | ['l', 't'] => some '<'
  | ['g', 't'] => some '>'
  | ['a', 'm', 'p'] => some '&'
  | ['a', 'p', 'o', 's'] => some '\''
  | ['q', 'u', 'o', 't'] => some '"'
  | '#' :: 'x' :: ds =>
    match parseNumber hexDigit 16 ds with
    | some n => if isInCharacterRange (Char.ofNat n) ∧ n ≤ 0x10FFFF then some (Char.ofNat n) else none
    | none => none
  | '#' :: ds =>
    match parseNumber decDigit 10 ds with
    | some n => if isInCharacterRange (Char.ofNat n) ∧ n ≤ 0x10FFFF then some (Char.ofNat n) else none
    | none => none
  | _ => none

/-- Where the lexer stands. -/
inductive Mode where
  | content
  | tagOpen
  | startName
  | inTag
  | attrName
  | attrEq
  | attrQuote
  | attrValue (q : Char)
  | entity (inAttr : Option Char)
  | selfClose
  | endName
  | endSpace
  | failed
  deriving DecidableEq, Repr

/-- State of the lexer: the tokens produced (latest first), the characters of
the piece being read (latest first), and the open start tag. -/
structure Lexer where
  mode : Mode := .content
  toks : List Token := []
  buf : List Char := []
  ent : List Char := []
  name : String := ""
  attrs : List (String × String) := []
  aname : String := ""
  deriving DecidableEq, Repr

namespace Lexer

/-- The string of a buffer that holds its characters latest first. -/
def str (buf : List Char) : String := String.mk buf.reverse

/-- The tokens with the pending character data added, if there is any. -/
def flushText (l : Lexer) : List Token :=
  if l.buf = [] then l.toks else .text (str l.buf) :: l.toks

/-- One character of input. -/
def step (l : Lexer) (c : Char) : Lexer :=
  match l.mode with
  | .content =>
    if c = '<' then { l with mode := .tagOpen, toks := l.flushText, buf := [] }
    else if c = '&' then { l with mode := .entity none, ent := [] }
    else if isInCharacterRange c then { l with buf := c :: l.buf }
    else { l with mode := .failed }
  | .tagOpen =>
    if c = '/' then { l with mode := .endName, buf := [] }
    else if isNameStart c then { l with mode := .startName, buf := [c] }
    else { l with mode := .failed }
  | .startName =>
    if isNameChar c then { l with buf := c :: l.buf }
    else if isSpace c then { l with mode := .inTag, name := str l.buf, attrs := [], buf := [] }
    else if c = '>' then { l with mode := .content, toks := .start (str l.buf) [] :: l.toks, buf := [] }
    else if c = '/' then { l with mode := .selfClose, name := str l.buf, attrs := [], buf := [] }
    else { l with mode := .failed }
  | .inTag =>
    if isSpace c then l
    else if c = '>' then
      { l with mode := .content, toks := .start l.name l.attrs :: l.toks, buf := [],
               name := "", attrs := [], aname := "" }
    else if c = '/' then { l with mode := .selfClose }
    else if isNameStart c then { l with mode := .attrName, buf := [c] }
    else { l with mode := .failed }
  | .attrName =>
    if isNameChar c then { l with buf := c :: l.buf }
    else if c = '=' then { l with mode := .attrQuote, aname := str l.buf, buf := [] }
    else if isSpace c then { l with mode := .attrEq, aname := str l.buf, buf := [] }
    else { l with mode := .failed }
  | .attrEq =>
    if isSpace c then l
    else if c = '=' then { l with mode := .attrQuote }
    else { l with mode := .failed }
  | .attrQuote =>
    if isSpace c then l
    else if c = '"' ∨ c = '\'' then { l with mode := .attrValue c, buf := [] }
    else { l with mode := .failed }
  | .attrValue q =>
    if c = q then { l with mode := .inTag, attrs := l.attrs ++ [(l.aname, str l.buf)], buf := [] }
    else if c = '<' then { l with mode := .failed }
    else if c = '&' then { l with mode := .entity (some q), ent := [] }
    else if isInCharacterRange c then { l with buf := c :: l.buf }
    else { l with mode := .failed }
  | .entity back =>
    if c = ';' then
      match decodeEntity l.ent.reverse with
      | some r =>
        { l with mode := (match back with | none => .content | some q => .attrValue q),
                 buf := r :: l.buf, ent := [] }
      | none => { l with mode := .failed }
    else if isNameChar c ∨ c = '#' then { l with ent := c :: l.ent }
    else { l with mode := .failed }
  | .selfClose =>
    if c = '>' then
      { l with mode := .content, toks := .stop l.name :: .start l.name l.attrs :: l.toks, buf := [],
               name := "", attrs := [], aname := "" }
    else { l with mode := .failed }
  | .endName =>
    if isNameChar c then { l with buf := c :: l.buf }
    else if c = '>' then { l with mode := .content, toks := .stop (str l.buf) :: l.toks, buf := [] }
    else if isSpace c then { l with mode := .endSpace, name := str l.buf, buf := [] }
    else { l with mode := .failed }
  | .endSpace =>
    if isSpace c then l
    else if c = '>' then
      { l with mode := .content, toks := .stop l.name :: l.toks, buf := [], name := "" }
    else { l with mode := .failed }
  | .failed => l

/-- The lexer run over a piece of input. -/
def run (l : Lexer) (cs : List Char) : Lexer := cs.foldl step l

end Lexer

/-- The tokens of a document, `none` when the text is not in the fragment or
ends inside a tag or an entity reference. -/
def tokenize (s : String) : Option (List Token) :=
  let l := Lexer.run {} s.data
  if l.mode = .content then some l.flushText.reverse else none

/-- A node of the element tree. -/
inductive XNode where
  | text (s : String)
  | elem (name : String) (attrs : List (String × String)) (children : List XNode)
  deriving Repr

/-- An element that is still open. -/
structure Frame where
  name : String
  attrs : List (String × String)
  kids : List XNode := []

/-- State of the tree builder: the open elements, innermost first, and the
root element once it is closed. -/
structure Builder where
  stack : List Frame := []
  root : Option XNode := none
  failed : Bool := false

namespace Builder

/-- One token: character data joins the innermost open element (outside the
root only white space may stand); a start tag opens an element, provided no
root has been closed yet and its attribute names are pairwise different; an
end tag must name the innermost open element and closes it. -/
def step (b : Builder) (t : Token) : Builder :=
  if b.failed then b
  else
    match t with
    | .text s =>
      match b.stack with
      | [] => if s.data.all isSpace then b else { b with failed := true }
      | f :: rest => { b with stack := { f with kids := f.kids ++ [.text s] } :: rest }
    | .start n attrs =>
      if (b.stack.isEmpty ∧ b.root.isSome) ∨ ¬ (attrs.map Prod.fst).Nodup then { b with failed := true }
      else { b with stack := { name := n, attrs := attrs } :: b.stack }
    | .stop n =>
      match b.stack with
      | [] => { b with failed := true }
      | f :: rest =>
        if f.name ≠ n then { b with failed := true }
        else
          match rest with
          | [] => { b with stack := [], root := some (.elem f.name f.attrs f.kids) }
          | g :: rest1 =>
            { b with stack := { g with kids := g.kids ++ [.elem f.name f.attrs f.kids] } :: rest1 }

/-- The builder run over a list of tokens. -/
def run (b : Builder) (ts : List Token) : Builder := ts.foldl step b

end Builder

/-- The element tree of a document: `none` unless the text is well formed
(in the fragment read here), with exactly one root element. -/
def parseXML (s : String) : Option XNode :=
  match tokenize s with
  | none => none
  | some ts =>
    let b := Builder.run {} ts
    if b.failed ∨ b.stack.length ≠ 0 then none else b.root

namespace XNode

/-- Name of an element, `none` for character data. -/
def tag? : XNode → Option String
  | .elem n _ _ => some n
  | .text _ => none

/-- Child nodes of an element. -/
def children : XNode → List XNode
  | .elem _ _ c => c
  | .text _ => []

/-- Child elements of an element: the children that are not character data. -/
def elems (n : XNode) : List XNode := n.children.filter (fun c => c.tag?.isSome)

/-- Child elements with the given name. -/
def elemsNamed (n : XNode) (name : String) : List XNode :=
  n.children.filter (fun c => c.tag? = some name)

/-- Character data directly inside an element, concatenated. -/
def textOf (n : XNode) : String :=
  String.join (n.children.filterMap (fun c => match c with
    | .text s => some s
    | .elem _ _ _ => none))

end XNode

/-- The `loc` values of a sitemap-index document: for each `sitemap` child of
the root, the character data of its `loc` children. -/
def sitemapLocs (root : XNode) : List String :=
  (root.elemsNamed "sitemap").flatMap (fun u => (u.elemsNamed "loc").map XNode.textOf)


/-! ## `fmt`, `time` -/

/-- Go `fmt.Sprintf` for the verbs the program uses, `%s` and `%v`, applied to
operands that are already rendered as strings (a `string`, or the `Error()`
text of an `error`). A verb without operand is rendered the way `fmt` does. -/
def sprintfRunes : List Char → List String → List Char
  | [], _ => []
  | '%' :: 's' :: rest, a :: args => a.data ++ sprintfRunes rest args
  | '%' :: 'v' :: rest, a :: args => a.data ++ sprintfRunes rest args
  | '%' :: 's' :: rest, [] => "%!s(MISSING)".data ++ sprintfRunes rest []
  | '%' :: 'v' :: rest, [] => "%!v(MISSING)".data ++ sprintfRunes rest []
  | c :: rest, args => c :: sprintfRunes rest args

/-- Go `fmt.Sprintf(format, args...)`. -/
def Sprintf (format : String) (args : List String) : String :=
  String.mk (sprintfRunes format.data args)

/-- A reading of `time.Now()`: the calendar date is all the program uses. -/
structure Time where
  year : Nat
  month : Nat
  day : Nat
  deriving DecidableEq, Repr

/-- The decimal digits of `n`, at least `width` of them (`appendInt` of package
`time`, for a value that is not negative). -/
def appendInt (n width : Nat) : String :=
  let s := toString n
  String.mk (List.replicate (width - s.length) '0') ++ s

/-- Go `t.Format("2006-01-02")`. -/
def Time.Format (t : Time) : String :=
  appendInt t.year 4 ++ "-" ++ appendInt t.month 2 ++ "-" ++ appendInt t.day 2

/-! ## `path/filepath` (Unix) -/

/-- The pieces of a path between its separators (`a//b` has an empty piece). -/
def splitSlash : List Char → List (List Char)
  | [] => [[]]
  | c :: cs =>
    if c = '/' then [] :: splitSlash cs
    else
      match splitSlash cs with
      | [] => [[c]]
      | h :: t => (c :: h) :: t

/-- The pieces of a path as strings. -/
def components (path : String) : List String := (splitSlash path.data).map String.mk

/-- Whether a path starts at the root. -/
def isRooted (path : String) : Bool := path.data.head? = some '/'

/-- The pieces joined with the separator. -/
def joinSlash : List String → String
  | [] => ""
  | [x] => x
  | x :: y :: rest => x ++ "/" ++ joinSlash (y :: rest)

/-- One piece in the lexical processing of `filepath.Clean`; `stack` holds the
pieces kept so far, the latest first. Empty pieces and `.` are dropped; `..`
removes the piece before it, is dropped at the root, and is kept at the start
of a path that is not rooted. -/
def cleanStep (rooted : Bool) (stack : List String) (piece : String) : List String :=
  if piece = "" ∨ piece = "." then stack
  else if piece = ".." then
    match stack with
    | [] => if rooted then [] else [".."]
    | top :: rest => if top = ".." then ".." :: stack else rest
  else piece :: stack

/-- The pieces of a path that `filepath.Clean` keeps, the latest first. -/
def cleanStack (path : String) : List String :=
  (components path).foldl (cleanStep (isRooted path)) []

/-- Go `filepath.Clean`: the shortest path equivalent to `path` by purely
lexical processing; the empty result is written `.`. -/
def Clean (path : String) : String :=
  let body := joinSlash (cleanStack path).reverse
  if isRooted path then "/" ++ body
  else if (cleanStack path).isEmpty then "."
  else body

/-- Go `filepath.Join`: leading empty elements are ignored, the rest is joined
with the separator and cleaned; the result is empty when all elements are. -/
def Join : List String → String
  | [] => ""
  | e :: rest => if e = "" then Join rest else Clean (joinSlash (e :: rest))

/-- The part of a path up to and including its last separator, nothing when
there is no separator. -/
def dirPrefix : List Char → List Char
  | [] => []
  | c :: cs =>
    if '/' ∈ cs then c :: dirPrefix cs
    else if c = '/' then [c]
    else []

/-- Go `filepath.Dir`: all but the last element of a path, cleaned. -/
def Dir (path : String) : String := Clean (String.mk (dirPrefix path.data))

/-! ## `os`: the filesystem -/

/-- What a path names: a directory, or a regular file and its content. -/
inductive Node where
  | dir
  | file (content : String)
  deriving DecidableEq, Repr

/-- A filesystem state: what stands at each location. A location is the list
of names that leads to it, innermost first; a rooted path ends in the name
`/`, the other paths start from the working directory. Symbolic links,
permissions and quotas are not modelled, and the process is alone. -/
abbrev FS := List String → Option Node

/-- The error numbers that the modelled calls report. -/
inductive Errno where
  | ENOENT
  | ENOTDIR
  | EEXIST
  | EISDIR
  deriving DecidableEq, Repr

/-- Go `syscall.Errno.Error`. -/
def Errno.Error : Errno → String
  | .ENOENT => "no such file or directory"
  | .ENOTDIR => "not a directory"
  | .EEXIST => "file exists"
  | .EISDIR => "is a directory"

/-- Go `os.PathError`. -/
structure PathError where
  Op : String
  Path : String
  Err : Errno
  deriving DecidableEq, Repr

/-- Go `(*PathError).Error`. -/
def PathError.Error (e : PathError) : String := e.Op ++ " " ++ e.Path ++ ": " ++ e.Err.Error

/-- The location a path string names: the pieces that are neither empty nor
`.`, innermost first, after `/` for a rooted path. -/
def pathKey (path : String) : List String :=
  ((components path).filter (fun c => c ≠ "" ∧ c ≠ ".")).reverse ++ (if isRooted path then ["/"] else [])

/-- A path string for a location (the inverse of `pathKey` on clean paths). -/
def keyPath (key : List String) : String :=
  match key.reverse with
  | [] => "."
  | "/" :: rest => "/" ++ joinSlash rest
  | names => joinSlash names

/-- The names that are a directory wherever they stand: the root and `..`. -/
def isFixedDir (name : String) : Bool := name = "/" || name = ".."

namespace FS

/-- The filesystem with `node` at `key`. -/
def set (fs : FS) (key : List String) (node : Node) : FS :=
  fun k => if k = key then some node else fs k

/-- Path resolution (`stat`): every name on the way must be a directory. The
working directory (the empty location) is a directory. -/
def stat (fs : FS) : List String → Except Errno Node
  | [] => .ok .dir
  | c :: parent =>
    match stat fs parent with
    | .error e => .error e
    | .ok (.file _) => .error .ENOTDIR
    | .ok .dir =>
      if isFixedDir c then .ok .dir
      else
        match fs (c :: parent) with
        | some n => .ok n
        | none => .error .ENOENT

/-- The system call `mkdir`: the parent must be a directory and the name must
be free. -/
def mkdir (fs : FS) : List String → Except Errno FS
  | [] => .error .EEXIST
  | c :: parent =>
    match stat fs parent with
    | .error e => .error e
    | .ok (.file _) => .error .ENOTDIR
    | .ok .dir =>
      if isFixedDir c then .error .EEXIST
      else
        match fs (c :: parent) with
        | some _ => .error .EEXIST
        | none => .ok (fs.set (c :: parent) .dir)

/-- The system call `open` with `O_RDWR|O_CREATE|O_TRUNC`: the parent must be
a directory and the name must not be a directory; the file is created or
emptied. -/
def openTrunc (fs : FS) : List String → Except Errno FS
  | [] => .error .EISDIR
  | c :: parent =>
    match stat fs parent with
    | .error e => .error e
    | .ok (.file _) => .error .ENOTDIR
    | .ok .dir =>
      if isFixedDir c then .error .EISDIR
      else
        match fs (c :: parent) with
        | some .dir => .error .EISDIR
        | _ => .ok (fs.set (c :: parent) (.file ""))

/-- The system call `write` on an open file: the data is appended. -/
def write (fs : FS) (key : List String) (data : String) : FS :=
  match fs key with
  | some (.file old) => fs.set key (.file (old ++ data))
  | _ => fs

/-- The content of the regular file that a path names, if it names one. -/
def readFile (fs : FS) (path : String) : Option String :=
  match stat fs (pathKey path) with
  | .ok (.file content) => some content
  | _ => none

end FS

/-- Go `os.MkdirAll` on a location. Fast path: a directory is a success and a
file an error. Slow path: the parent first, then `mkdir`; when `mkdir` fails
and the directory is there all the same, that is a success. -/
def mkdirAllKey : List String → FS → FS × Option PathError
  | [], fs => (fs, none)
  | c :: parent, fs =>
    match fs.stat (c :: parent) with
    | .ok .dir => (fs, none)
    | .ok (.file _) => (fs, some ⟨"mkdir", keyPath (c :: parent), .ENOTDIR⟩)
    | .error _ =>
      match mkdirAllKey parent fs with
      | (fs1, some e) => (fs1, some e)
      | (fs1, none) =>
        match fs1.mkdir (c :: parent) with
        | .ok fs2 => (fs2, none)
        | .error e =>
          match fs1.stat (c :: parent) with
          | .ok .dir => (fs1, none)
          | _ => (fs1, some ⟨"mkdir", keyPath (c :: parent), e⟩)

/-- Go `os.MkdirAll(path, os.ModePerm)`. -/
def MkdirAll (path : String) (fs : FS) : FS × Option PathError :=
  if path = "" then (fs, some ⟨"mkdir", path, .ENOENT⟩) else mkdirAllKey (pathKey path) fs

/-- Go `os.Create(name)`: the new state, and the location of the open file or
the error. -/
def Create (name : String) (fs : FS) : FS × Except PathError (List String) :=
  if name = "" then (fs, .error ⟨"open", name, .ENOENT⟩)
  else
    match fs.openTrunc (pathKey name) with
    | .ok fs1 => (fs1, .ok (pathKey name))
    | .error e => (fs, .error ⟨"open", name, e⟩)

/-- Go `writeXMLFile` (lines 132-145): create the file, encode the content
into it with two-space indentation; the result is the `Error()` text of the
error returned, if any. -/
def writeXMLFile (filePath : String) (content : Document) (fs : FS) : FS × Option String :=
  match Create filePath fs with
  | (fs1, .error err) => (fs1, some err.Error)
  | (fs1, .ok file) =>
    match Encode content with
    | .error err => (fs1, some err)
    | .ok text => (fs1.write file text, none)

/-! ## `generateSitemaps` (lines 84-129) -/

/-- The order in which a `range` loop visits a Go map is not specified: it is
an input. `outer` chooses the order of the domains, `inner` the order of the
files of each domain. -/
structure RangeOrder where
  outer : Nat := 0
  inner : String → Nat := fun _ => 0

/-- The entries of a map in the order chosen by `seed`: one of the
permutations of the entries, and each of them for some seed. -/
def rangeMap {α : Type} (seed : Nat) (m : List α) : List α :=
  m.permutations'.getD (seed % m.permutations'.length) m

/-- The literal table `sitemapData` (lines 85-106). `tIndex` and `tSet` are the
two readings of `time.Now()`. -/
def sitemapData (host : String) (tIndex tSet : Time) : List (String × List (String × Document)) :=
  [("crunchyroll",
    [("sitemap.xml", .index {
        XMLNS := "http://www.sitemaps.org/schemas/sitemap/0.9",
        Sitemaps := [
          { Loc := Sprintf "http://%s/sitemaps/crunchyroll/series/S.xml" [host],
            LastMod := tIndex.Format }] }),
     ("series/S.xml", .urlset {
        XMLNS := "http://www.sitemaps.org/schemas/sitemap/0.9",
        XMLNSXhtml := "http://www.w3.org/1999/xhtml",
        URLs := [
          { Loc := Sprintf "http://%s/pages/crunchyroll/series/spy_x_family.html" [host],
            LastMod := tSet.Format,
            ChangeFreq := "daily" }] })])]

/-- The document stored in the table under `domain` and `filename`. -/
def lookupDocument (data : List (String × List (String × Document))) (domain filename : String) :
    Option Document :=
  match data.lookup domain with
  | none => none
  | some files => files.lookup filename

/-- The inner loop (lines 111-125) over the files of one domain, in the order
given: the first error ends the function. -/
def filesLoop (domainDir : String) : List (String × Document) → FS → FS × Option String
  | [], fs => (fs, none)
  | (filename, content) :: rest, fs =>
    let filePath := Join [domainDir, filename]
    let parentDir := Dir filePath
    match MkdirAll parentDir fs with
    | (fs1, some err) =>
      (fs1, some (Sprintf "failed to create directory %s: %v" [parentDir, err.Error]))
    | (fs1, none) =>
      match writeXMLFile filePath content fs1 with
      | (fs2, some err) => (fs2, some (Sprintf "failed to write file %s: %v" [filePath, err]))
      | (fs2, none) => filesLoop domainDir rest fs2

/-- The outer loop (lines 109-126) over the domains, in the order given. -/
def domainsLoop (outputDir : String) (ord : RangeOrder) :
    List (String × List (String × Document)) → FS → FS × Option String
  | [], fs => (fs, none)
  | (domain, files) :: rest, fs =>
    let domainDir := Join [outputDir, domain]
    match filesLoop domainDir (rangeMap (ord.inner domain) files) fs with
    | (fs1, some err) => (fs1, some err)
    | (fs1, none) => domainsLoop outputDir ord rest fs1

/-- Go `generateSitemaps(outputDir, host)`: the filesystem it leaves and the
`Error()` text of the error it returns (`none` for `nil`). -/
def generateSitemaps (outputDir host : String) (tIndex tSet : Time) (ord : RangeOrder) (fs : FS) :
    FS × Option String :=
  domainsLoop outputDir ord (rangeMap ord.outer (sitemapData host tIndex tSet)) fs

/-- One visit of the loops: the file path, its parent directory and the
content. -/
structure Visit where
  filePath : String
  parentDir : String
  content : Document
  deriving DecidableEq, Repr

/-- The visits of `generateSitemaps` in order, were no error to stop it. -/
def visits (outputDir host : String) (tIndex tSet : Time) (ord : RangeOrder) : List Visit :=
  (rangeMap ord.outer (sitemapData host tIndex tSet)).flatMap (fun d =>
    (rangeMap (ord.inner d.1) d.2).map (fun f =>
      { filePath := Join [Join [outputDir, d.1], f.1],
        parentDir := Dir (Join [Join [outputDir, d.1], f.1]),
        content := f.2 }))

/-- The body of the inner loop for one visit. -/
def visitStep (v : Visit) (fs : FS) : FS × Option String :=
  match MkdirAll v.parentDir fs with
  | (fs1, some err) =>
    (fs1, some (Sprintf "failed to create directory %s: %v" [v.parentDir, err.Error]))
  | (fs1, none) =>
    match writeXMLFile v.filePath v.content fs1 with
    | (fs2, some err) => (fs2, some (Sprintf "failed to write file %s: %v" [v.filePath, err]))
    | (fs2, none) => (fs2, none)

/-- A list of visits run one after the other until the first error
(the two loops of `generateSitemaps`, flattened). -/
def runVisits : List Visit → FS → FS × Option String
  | [], fs => (fs, none)
  | v :: rest, fs =>
    match visitStep v fs with
    | (fs1, some err) => (fs1, some err)
    | (fs1, none) => runVisits rest fs1

/-! ## `net/url`, `net/http` -/

/-- The longest initial piece of `cs` with no character of `stop`, and what
follows it. -/
def spanUntil (stop : List Char) : List Char → List Char × List Char
  | [] => ([], [])
  | c :: cs =>
    if c ∈ stop then ([], c :: cs)
    else ((spanUntil stop cs).1.cons c, (spanUntil stop cs).2)

/-- The five components of a URI reference (RFC 3986, section 3 and
appendix B). -/
structure URLParts where
  scheme : Option String
  authority : Option String
  path : String
  query : Option String
  fragment : Option String
  deriving DecidableEq, Repr

/-- The components of a URI reference, split as in RFC 3986, appendix B. -/
def splitURL (s : String) : URLParts :=
  let (sch, r0) := spanUntil [':', '/', '?', '#'] s.data
  let (scheme, r1) :=
    match r0 with
    | ':' :: r => if sch.isEmpty then (none, s.data) else (some (String.mk sch), r)
    | _ => (none, s.data)
  let (authority, r2) :=
    match r1 with
    | '/' :: '/' :: r => (some (String.mk (spanUntil ['/', '?', '#'] r).1), (spanUntil ['/', '?', '#'] r).2)
    | _ => (none, r1)
  let (path, r3) := spanUntil ['?', '#'] r2
  let (query, r4) :=
    match r3 with
    | '?' :: r => (some (String.mk (spanUntil ['#'] r).1), (spanUntil ['#'] r).2)
    | _ => (none, r3)
  let fragment :=
    match r4 with
    | '#' :: r => some (String.mk r)
    | _ => none
  { scheme := scheme, authority := authority, path := String.mk path, query := query,
    fragment := fragment }

/-- A handler registered with `mux.Handle(pattern, http.StripPrefix(strip,
http.FileServer(http.Dir(root))))`. -/
structure Route where
  pattern : String
  strip : String
  root : String
  deriving DecidableEq, Repr

/-- Whether a `ServeMux` pattern matches a request path: a pattern that ends in
a slash matches every path it is the start of, another pattern the path equal
to it. -/
def patternMatches (pattern path : String) : Bool :=
  if pattern.data.getLast? = some '/' then pattern.data.isPrefixOf path.data else pattern = path

/-- The handler `ServeMux` chooses: among the matching patterns the longest. -/
def muxHandler (routes : List Route) (path : String) : Option Route :=
  (routes.filter (fun r => patternMatches r.pattern path)).foldl
    (fun best r => match best with
      | none => some r
      | some b => if b.pattern.length < r.pattern.length then some r else some b) none

/-- Go `http.StripPrefix`: the path without the given start, `none` (a 404
reply) when the path does not start so. -/
def StripPrefix (pre path : String) : Option String :=
  if pre.data.isPrefixOf path.data then some (String.mk (path.data.drop pre.data.length)) else none

/-- The file that `http.FileServer(http.Dir(root))` opens for a request path:
the path is made rooted and cleaned, then joined to the root directory. -/
def fileServerPath (root upath : String) : String :=
  let upath := if upath.data.head? = some '/' then upath else "/" ++ upath
  let name := Clean upath
  let rel := String.mk ((Clean ("/" ++ name)).data.drop 1)
  Join [if root = "" then "." else root, if rel = "" then "." else rel]

/-- Go `cleanPath` of `net/http`: the canonical form of a request path, which
keeps a trailing slash. -/
def cleanPath (p : String) : String :=
  if p = "" then "/"
  else
    let p := if p.data.head? = some '/' then p else "/" ++ p
    let np := Clean p
    if p.data.getLast? = some '/' ∧ np ≠ "/" then np ++ "/" else np

/-- The file the server reads for a request path, `none` when the request is
redirected to its canonical path, when no handler takes it, or when the
handler replies 404 before opening a file. -/
def servedFile (routes : List Route) (path : String) : Option String :=
  if cleanPath path ≠ path then none
  else
    match muxHandler routes path with
    | none => none
    | some r =>
      match StripPrefix r.strip path with
      | none => none
      | some rest => some (fileServerPath r.root rest)

/-! ## `main` (lines 51-82) -/

/-- What `main` reads from its environment: the error of `godotenv.Load()`, if
any, and the value of `SERVER_PORT` once the file is loaded. -/
structure Env where
  loadErr : Option String
  SERVER_PORT : String

/-- An observable step of `main`. -/
inductive Event where
  | fatal (msg : String)
  | generated (outputDir host : String) (err : Option String)
  | stdout (text : String)
  | listenAndServe (addr : String) (routes : List Route)
  deriving DecidableEq, Repr

/-- The routes `main` registers (lines 66-72). -/
def muxRoutes : List Route :=
  [{ pattern := "/pages/", strip := "/pages/", root := "pages" },
   { pattern := "/sitemaps/", strip := "/sitemaps/", root := "sitemaps" }]

/-- Go `main`: the filesystem it leaves and its observable steps in order.
`log.Fatal` ends the process; `ListenAndServe` is the last step. -/
def main (env : Env) (tIndex tSet : Time) (ord : RangeOrder) (fs : FS) : FS × List Event :=
  match env.loadErr with
  | some _ => (fs, [.fatal "Error loading .env"])
  | none =>
    let serverPort := env.SERVER_PORT
    let host := "localhost:" ++ serverPort
    match generateSitemaps "sitemaps" host tIndex tSet ord fs with
    | (fs1, some err) =>
      (fs1, [.generated "sitemaps" host (some err),
             .stdout (Sprintf "Failed to generate sitemaps: %v\n" [err])])
    | (fs1, none) =>
      (fs1, [.generated "sitemaps" host none,
             .stdout ("Server running at " ++ serverPort ++ "\n"),
             .listenAndServe (":" ++ serverPort) muxRoutes])

/-! ## Specification side: what the encoder is expected to write

The text of a document is described as a list of pieces, each a run of
character data followed by a tag. The printer is shown to write exactly this
text, and the reader to read it back. -/

/-- What reading back does to a rune that `EscapeString` wrote: a rune outside
the XML character range has been replaced by U+FFFD. -/
def sanitizeRune (c : Char) : Char := if isInCharacterRange c then c else runeFFFD

/-- The string read back from the escaped form of `s`. -/
def sanitize (s : String) : String := String.mk (s.data.map sanitizeRune)

/-- A string all of whose runes are XML characters: escaping loses nothing. -/
def xmlSafe (s : String) : Bool := s.data.all isInCharacterRange

/-- A name the reader accepts. -/
def validName (n : String) : Bool :=
  match n.data with
  | [] => false
  | c :: cs => isNameStart c && cs.all isNameChar

/-- A character that stands for itself in character data. -/
def isPlain (c : Char) : Bool := isInCharacterRange c && c != '<' && c != '&'

/-- Character data as written: verbatim (indentation) or escaped (a value). -/
inductive Chunk where
  | raw (s : String)
  | escaped (s : String)
  deriving DecidableEq, Repr

/-- The characters written for a chunk. -/
def Chunk.render : Chunk → List Char
  | .raw s => s.data
  | .escaped s => escapeRunes s.data

/-- The character data read back from a chunk. -/
def Chunk.value : Chunk → String
  | .raw s => s
  | .escaped s => sanitize s

/-- A verbatim chunk must consist of plain characters. -/
def Chunk.ok : Chunk → Bool
  | .raw s => s.data.all isPlain
  | .escaped _ => true

/-- A start tag with its attributes, or an end tag. -/
inductive Tag where
  | opening (name : String) (attrs : List (String × String))
  | closing (name : String)
  deriving DecidableEq, Repr

/-- The characters `writeStart` writes for a list of attributes. -/
def attrsChars : List (String × String) → List Char
  | [] => []
  | (a, v) :: rest => ' ' :: a.data ++ '=' :: '"' :: escapeRunes v.data ++ '"' :: attrsChars rest

/-- The characters written for a tag. -/
def Tag.render : Tag → List Char
  | .opening n attrs => '<' :: n.data ++ attrsChars attrs ++ ['>']
  | .closing n => '<' :: '/' :: n.data ++ ['>']

/-- The names of a tag are names the reader accepts. -/
def Tag.ok : Tag → Bool
  | .opening n attrs => validName n && attrs.all (fun a => validName a.1)
  | .closing n => validName n

/-- The attributes read back. -/
def sanitizeAttrs (attrs : List (String × String)) : List (String × String) :=
  attrs.map (fun a => (a.1, sanitize a.2))

/-- The token read back from a tag. -/
def Tag.token : Tag → Token
  | .opening n attrs => .start n (sanitizeAttrs attrs)
  | .closing n => .stop n

/-- The text token read back from a chunk: none when the chunk is empty. -/
def Chunk.tokens (c : Chunk) : List Token := if c.value.data = [] then [] else [.text c.value]

/-- A run of character data and the tag after it. -/
abbrev Piece := Chunk × Tag

/-- The characters written for a list of pieces. -/
def renderPieces : List Piece → List Char
  | [] => []
  | p :: ps => p.1.render ++ (p.2.render ++ renderPieces ps)

/-- The tokens read back from a list of pieces. -/
def pieceTokens : List Piece → List Token
  | [] => []
  | p :: ps => p.1.tokens ++ (p.2.token :: pieceTokens ps)

/-- All pieces are readable. -/
def piecesOk (ps : List Piece) : Bool := ps.all (fun p => p.1.ok && p.2.ok)

/-- The text node read back from a chunk: none when the chunk is empty. -/
def Chunk.nodes (c : Chunk) : List XNode := if c.value.data = [] then [] else [.text c.value]

/-- The pieces of an element: the character data before its start tag, the
start tag, the pieces of its content, the character data before its end tag
and the end tag. -/
def element (lead : Chunk) (n : String) (attrs : List (String × String)) (inner : List Piece)
    (last : Chunk) : List Piece :=
  (lead, .opening n attrs) :: (inner ++ [(last, .closing n)])

/-- The tokens `ts`, read inside an open element, add the nodes `nodes` to it
and leave the builder as it was otherwise. -/
def Builds (ts : List Token) (nodes : List XNode) : Prop :=
  ∀ (f : Frame) (rest : List Frame) (root : Option XNode),
    Builder.run ⟨f :: rest, root, false⟩ ts
      = ⟨{ f with kids := f.kids ++ nodes } :: rest, root, false⟩

/-- The pieces of a field of kind `string`: start tag on a line of its own,
escaped value, end tag. -/
def leafPieces (ind n v : String) : List Piece := element (.raw ind) n [] [] (.escaped v)

/-- The pieces of an `omitempty` field of kind `string`. -/
def optLeafPieces (ind n v : String) : List Piece := if v.length = 0 then [] else leafPieces ind n v

/-- An `omitempty` attribute. -/
def optAttr (n v : String) : List (String × String) := if v.length = 0 then [] else [(n, v)]

/-- The pieces of a `Sitemap` inside the root element. -/
def sitemapPieces (s : Sitemap) : List Piece :=
  element (.raw "\n  ") "sitemap" []
    (leafPieces "\n    " "loc" s.Loc ++ leafPieces "\n    " "lastmod" s.LastMod) (.raw "\n  ")

/-- The pieces of a `SitemapIndex` document. -/
def indexPieces (v : SitemapIndex) : List Piece :=
  element (.raw "") "sitemapindex" [("xmlns", v.XMLNS)] (v.Sitemaps.flatMap sitemapPieces)
    (.raw (if v.Sitemaps.isEmpty then "" else "\n"))

/-- The pieces of an `XHTMLLink` inside a `url` element. -/
def linkPieces (l : XHTMLLink) : List Piece :=
  element (.raw "\n    ") "xhtml:link" [("rel", l.Rel), ("hreflang", l.Hreflang), ("href", l.Href)] []
    (.raw "")

/-- The pieces of a `URL` inside the root element. -/
def urlPieces (u : URL) : List Piece :=
  element (.raw "\n  ") "url" []
    (leafPieces "\n    " "loc" u.Loc ++ (optLeafPieces "\n    " "lastmod" u.LastMod
      ++ (optLeafPieces "\n    " "changefreq" u.ChangeFreq
      ++ (optLeafPieces "\n    " "priority" u.Priority ++ u.XHTMLLinks.flatMap linkPieces))))
    (.raw "\n  ")

/-- The attributes of the root of a `URLSet` document. -/
def urlsetAttrs (v : URLSet) : List (String × String) :=
  ("xmlns", v.XMLNS) :: (optAttr "xmlns:news" v.XMLNSNews ++ (optAttr "xmlns:xhtml" v.XMLNSXhtml
    ++ (optAttr "xmlns:mobile" v.XMLNSMobile ++ (optAttr "xmlns:image" v.XMLNSImage
    ++ optAttr "xmlns:video" v.XMLNSVideo))))

/-- The pieces of a `URLSet` document. -/
def urlsetPieces (v : URLSet) : List Piece :=
  element (.raw "") "urlset" (urlsetAttrs v) (v.URLs.flatMap urlPieces)
    (.raw (if v.URLs.isEmpty then "" else "\n"))

/-- The pieces of a document. -/
def documentPieces : Document → List Piece
  | .index v => indexPieces v
  | .urlset v => urlsetPieces v

/-- The text a document is expected to be written as. -/
def documentText (d : Document) : String := String.mk (renderPieces (documentPieces d))

/-- The attribute `Attr` value that `marshalAttr` builds for a name and a
value. -/
def toAttr (a : String × String) : Attr := { Name := { Local := a.1 }, Value := a.2 }

/-! ## Specification side: the element tree a document is expected to read as -/

/-- The nodes of a run of character data: none when it is empty. -/
def textNodes (s : String) : List XNode := if s.data = [] then [] else [.text s]

/-- The element of a field of kind `string`: its only content is the value. -/
def leafNode (n v : String) : XNode := .elem n [] (textNodes (sanitize v))

/-- The nodes of an `omitempty` field of kind `string` inside an element at
depth one: nothing for the empty value, otherwise a new line, four spaces and
the element. -/
def optLeafNodes (n v : String) : List XNode :=
  if v.length = 0 then [] else [.text "\n    ", leafNode n v]

/-- The `sitemap` element of a `Sitemap`: `loc`, then `lastmod`, each on a
line of its own after four spaces; the end tag on a line of its own after two
spaces. -/
def sitemapNode (s : Sitemap) : XNode :=
  .elem "sitemap" []
    [.text "\n    ", leafNode "loc" s.Loc, .text "\n    ", leafNode "lastmod" s.LastMod, .text "\n  "]

/-- The tree of a `SitemapIndex` document: a `sitemap` element per entry, in
order, each on a line of its own after two spaces. -/
def indexTree (v : SitemapIndex) : XNode :=
  .elem "sitemapindex" [("xmlns", sanitize v.XMLNS)]
    (v.Sitemaps.flatMap (fun s => [.text "\n  ", sitemapNode s])
      ++ textNodes (if v.Sitemaps.isEmpty then "" else "\n"))

/-- The `xhtml:link` element of an `XHTMLLink`: three attributes, no content. -/
def linkNode (l : XHTMLLink) : XNode :=
  .elem "xhtml:link"
    [("rel", sanitize l.Rel), ("hreflang", sanitize l.Hreflang), ("href", sanitize l.Href)] []

/-- The `url` element of a `URL`. -/
def urlNode (u : URL) : XNode :=
  .elem "url" []
    ([.text "\n    ", leafNode "loc" u.Loc] ++ (optLeafNodes "lastmod" u.LastMod
      ++ (optLeafNodes "changefreq" u.ChangeFreq ++ (optLeafNodes "priority" u.Priority
      ++ (u.XHTMLLinks.flatMap (fun l => [.text "\n    ", linkNode l]) ++ [.text "\n  "])))))

/-- The tree of a `URLSet` document. -/
def urlsetTree (v : URLSet) : XNode :=
  .elem "urlset" (sanitizeAttrs (urlsetAttrs v))
    (v.URLs.flatMap (fun u => [.text "\n  ", urlNode u])
      ++ textNodes (if v.URLs.isEmpty then "" else "\n"))

/-- The tree of a document. -/
def documentTree : Document → XNode
  | .index v => indexTree v
  | .urlset v => urlsetTree v

/-! ## Specification side: relations between filesystem states -/

/-- The state `fs1` is `fs` with directories added where nothing stood. -/
def Extends (fs fs1 : FS) : Prop := ∀ k, fs1 k = fs k ∨ (fs k = none ∧ fs1 k = some .dir)

/-- A state in which a visit of the given paths cannot fail: its parent
directory is there and its file path names a regular file in a directory. -/
def Ready (parentDir filePath : String) (fs : FS) : Prop :=
  parentDir ≠ "" ∧ filePath ≠ "" ∧ fs.stat (pathKey parentDir) = .ok .dir ∧
    ∃ c p old, pathKey filePath = c :: p ∧ isFixedDir c = false ∧ fs.stat p = .ok .dir ∧
      fs (c :: p) = some (.file old)

/-- A state that holds the file of a visit: the visit cannot fail in it, and
the file has the text of the visit's document. -/
def Holds (v : Visit) (fs : FS) : Prop :=
  Ready v.parentDir v.filePath fs ∧ fs (pathKey v.filePath) = some (.file (documentText v.content))

/-- A path whose last element is `name`: the name alone, or the name after a
separator. -/
def EndsWithName (s name : List Char) : Prop := s = name ∨ ∃ q, s = q ++ '/' :: name

/-- The document stored under `sitemap.xml` (lines 88-93). -/
def indexDocument (host : String) (tIndex : Time) : Document :=
  .index {
    XMLNS := "http://www.sitemaps.org/schemas/sitemap/0.9",
    Sitemaps := [
      { Loc := Sprintf "http://%s/sitemaps/crunchyroll/series/S.xml" [host],
        LastMod := tIndex.Format }] }

/-- The document stored under `series/S.xml` (lines 94-104). -/
def urlsetDocument (host : String) (tSet : Time) : Document :=
  .urlset {
    XMLNS := "http://www.sitemaps.org/schemas/sitemap/0.9",
    XMLNSXhtml := "http://www.w3.org/1999/xhtml",
    URLs := [
      { Loc := Sprintf "http://%s/pages/crunchyroll/series/spy_x_family.html" [host],
        LastMod := tSet.Format,
        ChangeFreq := "daily" }] }

/-- The path the loops compute for a domain and a file name (lines 110-113). -/
def entryPath (outputDir domain filename : String) : String :=
  Join [Join [outputDir, domain], filename]

/-- The visit of `sitemap.xml`. -/
def indexVisit (outputDir host : String) (tIndex : Time) : Visit :=
  { filePath := entryPath outputDir "crunchyroll" "sitemap.xml",
    parentDir := Dir (entryPath outputDir "crunchyroll" "sitemap.xml"),
    content := indexDocument host tIndex }

/-- The visit of `series/S.xml`. -/
def urlsetVisit (outputDir host : String) (tSet : Time) : Visit :=
  { filePath := entryPath outputDir "crunchyroll" "series/S.xml",
    parentDir := Dir (entryPath outputDir "crunchyroll" "series/S.xml"),
    content := urlsetDocument host tSet }

/-- The filesystem with nothing in it but the fixed directories. -/
def emptyFS : FS := fun _ => none

/-- A filesystem in which the name `sitemaps` of the working directory is a
regular file. -/
def fileAtSitemaps : FS := emptyFS.set ["sitemaps"] (.file "not a directory")

/-- The locations a document lists: the `Loc` of each sitemap of an index, of
each URL of a URL set. -/
def Document.locs : Document → List String
  | .index d => d.Sitemaps.map Sitemap.Loc
  | .urlset d => d.URLs.map URL.Loc

/-- A host string without any of the characters that end the authority of a
URL: `/`, `?` and `#`. -/
def noDelims (host : String) : Bool := host.data.all (fun c => c != '/' && c != '?' && c != '#')

/-- Below a `..` of a stack of path pieces there are only `..`. -/
def dotsBelow : List String → Prop
  | [] => True
  | x :: rest => (x = ".." → ∀ y ∈ rest, y = "..") ∧ dotsBelow rest

/-- The stacks `filepath.Clean` builds: every piece is a name or `..`, without
a separator; a rooted stack has no `..`; the `..` of another stack are its
outermost pieces. -/
def CleanInv (rooted : Bool) (stack : List String) : Prop :=
  (∀ e ∈ stack, e ≠ "" ∧ e ≠ "." ∧ '/' ∉ e.data) ∧ (rooted = true → ".." ∉ stack) ∧ dotsBelow stack

section LexerLemmas

open Lexer

theorem run_append (l : Lexer) (a b : List Char) : run l (a ++ b) = run (run l a) b := by
  simp [run, List.foldl_append]

theorem run_cons (l : Lexer) (a : Char) (b : List Char) : run l (a :: b) = run (step l a) b := rfl

theorem run_nil (l : Lexer) : run l [] = l := rfl

theorem sanitizeRune_plain (c : Char) : isInCharacterRange (sanitizeRune c) = true := by
  unfold sanitizeRune
  split
  · assumption
  · decide

theorem run_escapeRune_content (toks : List Token) (buf : List Char) (n : String)
    (a : List (String × String)) (an : String) (c : Char) :
    run ⟨.content, toks, buf, [], n, a, an⟩ (escapeRune c)
      = ⟨.content, toks, sanitizeRune c :: buf, [], n, a, an⟩ := by
  unfold escapeRune
  split
  · subst_vars; rfl
  split
  · subst_vars; rfl
  split
  · subst_vars; rfl
  split
  · subst_vars; rfl
  split
  · subst_vars; rfl
  split
  · subst_vars; rfl
  split
  · subst_vars; rfl
  split
  · subst_vars; rfl
  split
  · rename_i h1 h2 h3 h4 h5 h6 h7 h8 h9
    have h9' : isInCharacterRange c = false := by simpa using h9
    have : isInCharacterRange runeFFFD = true := by decide
    have e1 : runeFFFD ≠ '<' := by decide
    have e2 : runeFFFD ≠ '&' := by decide
    simp [run, step, sanitizeRune, h9', this, e1, e2]
  · rename_i h1 h2 h3 h4 h5 h6 h7 h8 h9
    have h9' : isInCharacterRange c = true := by simpa using h9
    simp [run, step, sanitizeRune, h9', h3, h4]

theorem run_escapeRune_attr (toks : List Token) (buf : List Char) (n : String)
    (a : List (String × String)) (an : String) (c : Char) :
    run ⟨.attrValue '"', toks, buf, [], n, a, an⟩ (escapeRune c)
      = ⟨.attrValue '"', toks, sanitizeRune c :: buf, [], n, a, an⟩ := by
  unfold escapeRune
  split
  · subst_vars; rfl
  split
  · subst_vars; rfl
  split
  · subst_vars; rfl
  split
  · subst_vars; rfl
  split
  · subst_vars; rfl
  split
  · subst_vars; rfl
  split
  · subst_vars; rfl
  split
  · subst_vars; rfl
  split
  · rename_i h1 h2 h3 h4 h5 h6 h7 h8 h9
    have h9' : isInCharacterRange c = false := by simpa using h9
    have : isInCharacterRange runeFFFD = true := by decide
    have e1 : runeFFFD ≠ '<' := by decide
    have e2 : runeFFFD ≠ '&' := by decide
    have e3 : runeFFFD ≠ '"' := by decide
    simp [run, step, sanitizeRune, h9', this, e1, e2, e3]
  · rename_i h1 h2 h3 h4 h5 h6 h7 h8 h9
    have h9' : isInCharacterRange c = true := by simpa using h9
    simp [run, step, sanitizeRune, h9', h3, h4, h1]

theorem run_escapeRunes_content (s : List Char) : ∀ (toks : List Token) (buf : List Char) (n : String)
    (a : List (String × String)) (an : String),
    run ⟨.content, toks, buf, [], n, a, an⟩ (escapeRunes s)
      = ⟨.content, toks, (s.map sanitizeRune).reverse ++ buf, [], n, a, an⟩ := by
  induction s with
  | nil => intros; rfl
  | cons c cs ih =>
    intro toks buf n a an
    simp only [escapeRunes, run_append, run_escapeRune_content, ih, List.map_cons, List.reverse_cons, List.append_assoc, List.singleton_append]

theorem run_escapeRunes_attr (s : List Char) : ∀ (toks : List Token) (buf : List Char) (n : String)
    (a : List (String × String)) (an : String),
    run ⟨.attrValue '"', toks, buf, [], n, a, an⟩ (escapeRunes s)
      = ⟨.attrValue '"', toks, (s.map sanitizeRune).reverse ++ buf, [], n, a, an⟩ := by
  induction s with
  | nil => intros; rfl
  | cons c cs ih =>
    intro toks buf n a an
    simp only [escapeRunes, run_append, run_escapeRune_attr, ih, List.map_cons, List.reverse_cons, List.append_assoc, List.singleton_append]

theorem run_plain (s : List Char) : ∀ (toks : List Token) (buf : List Char) (n : String)
    (a : List (String × String)) (an : String), s.all isPlain = true →
    run ⟨.content, toks, buf, [], n, a, an⟩ s = ⟨.content, toks, s.reverse ++ buf, [], n, a, an⟩ := by
  induction s with
  | nil => intros; rfl
  | cons c cs ih =>
    intro toks buf n a an h
    simp only [List.all_cons, Bool.and_eq_true] at h
    have hc := h.1
    simp only [isPlain, Bool.and_eq_true, bne_iff_ne, ne_eq] at hc
    rw [run_cons]
    have : step ⟨.content, toks, buf, [], n, a, an⟩ c = ⟨.content, toks, c :: buf, [], n, a, an⟩ := by
      simp [step, hc.1.1, hc.1.2, hc.2]
    rw [this, ih _ _ _ _ _ h.2]
    simp

theorem run_chunk (c : Chunk) (h : c.ok = true) (toks : List Token) :
    run ⟨.content, toks, [], [], "", [], ""⟩ c.render
      = ⟨.content, toks, c.value.data.reverse, [], "", [], ""⟩ := by
  cases c with
  | raw s => simpa [Chunk.render, Chunk.value] using run_plain s.data toks [] "" [] "" h
  | escaped s => simpa [Chunk.render, Chunk.value, sanitize] using run_escapeRunes_content s.data toks [] "" [] ""


theorem run_startName (cs : List Char) : ∀ (toks : List Token) (buf : List Char) (n : String)
    (a : List (String × String)) (an : String), cs.all isNameChar = true →
    run ⟨.startName, toks, buf, [], n, a, an⟩ cs = ⟨.startName, toks, cs.reverse ++ buf, [], n, a, an⟩ := by
  induction cs with
  | nil => intros; rfl
  | cons c cs ih =>
    intro toks buf n a an h
    simp only [List.all_cons, Bool.and_eq_true] at h
    rw [run_cons]
    have : step ⟨.startName, toks, buf, [], n, a, an⟩ c = ⟨.startName, toks, c :: buf, [], n, a, an⟩ := by
      simp [step, h.1]
    rw [this, ih _ _ _ _ _ h.2]
    simp

theorem run_endName (cs : List Char) : ∀ (toks : List Token) (buf : List Char) (n : String)
    (a : List (String × String)) (an : String), cs.all isNameChar = true →
    run ⟨.endName, toks, buf, [], n, a, an⟩ cs = ⟨.endName, toks, cs.reverse ++ buf, [], n, a, an⟩ := by
  induction cs with
  | nil => intros; rfl
  | cons c cs ih =>
    intro toks buf n a an h
    simp only [List.all_cons, Bool.and_eq_true] at h
    rw [run_cons]
    have : step ⟨.endName, toks, buf, [], n, a, an⟩ c = ⟨.endName, toks, c :: buf, [], n, a, an⟩ := by
      simp [step, h.1]
    rw [this, ih _ _ _ _ _ h.2]
    simp

theorem run_attrName (cs : List Char) : ∀ (toks : List Token) (buf : List Char) (n : String)
    (a : List (String × String)) (an : String), cs.all isNameChar = true →
    run ⟨.attrName, toks, buf, [], n, a, an⟩ cs = ⟨.attrName, toks, cs.reverse ++ buf, [], n, a, an⟩ := by
  induction cs with
  | nil => intros; rfl
  | cons c cs ih =>
    intro toks buf n a an h
    simp only [List.all_cons, Bool.and_eq_true] at h
    rw [run_cons]
    have : step ⟨.attrName, toks, buf, [], n, a, an⟩ c = ⟨.attrName, toks, c :: buf, [], n, a, an⟩ := by
      simp [step, h.1]
    rw [this, ih _ _ _ _ _ h.2]
    simp

/-- Facts about a valid name: its first character and the others. -/
theorem validName_cases {n : String} (h : validName n = true) :
    ∃ c cs, n.data = c :: cs ∧ isNameStart c = true ∧ cs.all isNameChar = true := by
  unfold validName at h
  split at h
  · simp at h
  · rename_i c cs hd
    simp only [Bool.and_eq_true] at h
    exact ⟨c, cs, hd, h.1, h.2⟩


theorem isSpace_false_of_nameStart {c : Char} (h : isNameStart c = true) : isSpace c = false := by
  cases hs : isSpace c with
  | false => rfl
  | true =>
    simp only [isSpace, Bool.or_eq_true, decide_eq_true_eq] at hs
    rcases hs with ((rfl | rfl) | rfl) | rfl <;> revert h <;> decide

theorem nameStart_ne_gt {c : Char} (h : isNameStart c = true) : c ≠ '>' := by
  rintro rfl; revert h; decide

theorem nameStart_ne_slash {c : Char} (h : isNameStart c = true) : c ≠ '/' := by
  rintro rfl; revert h; decide

theorem str_reverse (cs : List Char) : str cs.reverse = String.mk cs := by
  simp [str]

theorem str_name {n : String} {c : Char} {cs : List Char} (hd : n.data = c :: cs) :
    str (cs.reverse ++ [c]) = n := by
  have : cs.reverse ++ [c] = (c :: cs).reverse := by simp
  rw [this, str_reverse, ← hd]

theorem run_attrs (n : String) (T : List Token) (attrs : List (String × String)) :
    ∀ (acc : List (String × String)) (an : String),
    attrs.all (fun a => validName a.1) = true →
    run ⟨.inTag, T, [], [], n, acc, an⟩ (attrsChars attrs ++ ['>'])
      = ⟨.content, .start n (acc ++ sanitizeAttrs attrs) :: T, [], [], "", [], ""⟩ := by
  induction attrs with
  | nil =>
    intro acc an _
    simp [attrsChars, run, step, sanitizeAttrs, isSpace]
  | cons av rest ih =>
    intro acc an h
    obtain ⟨a, v⟩ := av
    simp only [List.all_cons, Bool.and_eq_true] at h
    obtain ⟨c, cs, hd, hc, hcs⟩ := validName_cases h.1
    have e0 : step ⟨.inTag, T, [], [], n, acc, an⟩ ' ' = ⟨.inTag, T, [], [], n, acc, an⟩ := by
      simp [step, isSpace]
    have e1 : step ⟨.inTag, T, [], [], n, acc, an⟩ c = ⟨.attrName, T, [c], [], n, acc, an⟩ := by
      simp [step, isSpace_false_of_nameStart hc, nameStart_ne_gt hc, nameStart_ne_slash hc, hc]
    have e2 : ∀ buf, step ⟨.attrName, T, buf, [], n, acc, an⟩ '=' = ⟨.attrQuote, T, [], [], n, acc, str buf⟩ := by
      intro buf; simp [step, isNameChar, isNameStart]
    have e3 : ∀ x, step ⟨.attrQuote, T, [], [], n, acc, x⟩ '"' = ⟨.attrValue '"', T, [], [], n, acc, x⟩ := by
      intro x; simp [step, isSpace]
    have e4 : ∀ buf x, step ⟨.attrValue '"', T, buf, [], n, acc, x⟩ '"' = ⟨.inTag, T, [], [], n, acc ++ [(x, str buf)], x⟩ := by
      intro buf x; simp [step]
    have hv : str ((List.map sanitizeRune v.data).reverse) = sanitize v := by simp [str, sanitize]
    have hl : attrsChars ((a, v) :: rest) ++ ['>']
        = ' ' :: c :: (cs ++ ('=' :: '"' :: (escapeRunes v.data ++ ('"' :: (attrsChars rest ++ ['>']))))) := by
      simp [attrsChars, hd]
    rw [hl]
    generalize attrsChars rest ++ ['>'] = tl at ih ⊢
    simp only [run_cons, run_append, e0, e1, run_attrName cs _ _ _ _ _ hcs, e2, e3,
      run_escapeRunes_attr, e4, List.append_nil, str_name hd, hv]
    rw [ih _ _ h.2]
    simp [sanitizeAttrs]

theorem run_opening (n : String) (attrs : List (String × String)) (T : List Token) (buf : List Char)
    (h : (Tag.opening n attrs).ok = true) :
    run ⟨.content, T, buf, [], "", [], ""⟩ (Tag.opening n attrs).render
      = ⟨.content, .start n (sanitizeAttrs attrs) :: (if buf = [] then T else .text (str buf) :: T),
          [], [], "", [], ""⟩ := by
  simp only [Tag.ok, Bool.and_eq_true] at h
  obtain ⟨c, cs, hd, hc, hcs⟩ := validName_cases h.1
  have e0 : step ⟨.content, T, buf, [], "", [], ""⟩ '<'
      = ⟨.tagOpen, (if buf = [] then T else .text (str buf) :: T), [], [], "", [], ""⟩ := by
    simp [step, flushText]
  have e1 : ∀ T, step ⟨.tagOpen, T, [], [], "", [], ""⟩ c = ⟨.startName, T, [c], [], "", [], ""⟩ := by
    intro T; simp [step, nameStart_ne_slash hc, hc]
  cases attrs with
  | nil =>
    have e2 : ∀ T buf, step ⟨.startName, T, buf, [], "", [], ""⟩ '>'
        = ⟨.content, .start (str buf) [] :: T, [], [], "", [], ""⟩ := by
      intro T buf; simp [step, isNameChar, isNameStart, isSpace]
    simp only [Tag.render, hd, attrsChars, List.cons_append, List.append_assoc, run_cons, run_append,
      e0, e1, run_startName cs _ _ _ _ _ hcs, e2, List.nil_append, run_nil, List.append_nil, str_name hd,
      sanitizeAttrs, List.map_nil]
  | cons av rest =>
    obtain ⟨a, v⟩ := av
    have e2 : ∀ T buf, step ⟨.startName, T, buf, [], "", [], ""⟩ ' '
        = ⟨.inTag, T, [], [], str buf, [], ""⟩ := by
      intro T buf; simp [step, isNameChar, isNameStart, isSpace]
    have key := run_attrs n (if buf = [] then T else .text (str buf) :: T) ((a, v) :: rest) [] "" h.2
    have hk : attrsChars ((a, v) :: rest) ++ ['>'] = ' ' :: ((attrsChars ((a, v) :: rest) ++ ['>']).tail) := by
      simp [attrsChars]
    have hsplit : (Tag.opening n ((a, v) :: rest)).render
        = '<' :: c :: (cs ++ (' ' :: ((attrsChars ((a, v) :: rest) ++ ['>']).tail))) := by
      simp [Tag.render, hd, attrsChars]
    rw [hk, run_cons] at key
    have e3 : step ⟨.inTag, (if buf = [] then T else .text (str buf) :: T), [], [], n, [], ""⟩ ' '
        = ⟨.inTag, (if buf = [] then T else .text (str buf) :: T), [], [], n, [], ""⟩ := by
      simp [step, isSpace]
    rw [e3] at key
    rw [hsplit]
    generalize (attrsChars ((a, v) :: rest) ++ ['>']).tail = tl at key ⊢
    simp only [run_cons, run_append, e0, e1, run_startName cs _ _ _ _ _ hcs, e2, List.append_nil,
      str_name hd, key, List.nil_append]

theorem run_closing (n : String) (T : List Token) (buf : List Char)
    (h : (Tag.closing n).ok = true) :
    run ⟨.content, T, buf, [], "", [], ""⟩ (Tag.closing n).render
      = ⟨.content, .stop n :: (if buf = [] then T else .text (str buf) :: T), [], [], "", [], ""⟩ := by
  simp only [Tag.ok] at h
  obtain ⟨c, cs, hd, hc, hcs⟩ := validName_cases h
  have e0 : step ⟨.content, T, buf, [], "", [], ""⟩ '<'
      = ⟨.tagOpen, (if buf = [] then T else .text (str buf) :: T), [], [], "", [], ""⟩ := by
    simp [step, flushText]
  have e1 : ∀ T, step ⟨.tagOpen, T, [], [], "", [], ""⟩ '/' = ⟨.endName, T, [], [], "", [], ""⟩ := by
    intro T; simp [step]
  have e2 : ∀ T buf, step ⟨.endName, T, buf, [], "", [], ""⟩ '>'
      = ⟨.content, .stop (str buf) :: T, [], [], "", [], ""⟩ := by
    intro T buf; simp [step, isNameChar, isNameStart]
  have hall : (c :: cs).all isNameChar = true := by
    simp only [List.all_cons, Bool.and_eq_true]
    exact ⟨by simp [isNameChar, hc], hcs⟩
  have hn : str ((c :: cs).reverse ++ []) = n := by
    rw [List.append_nil, str_reverse, ← hd]
  simp only [Tag.render, hd, run_cons, run_append, e0, e1, run_endName (c :: cs) _ _ _ _ _ hall, e2,
    run_nil, hn]

theorem run_pieces (ps : List Piece) : ∀ (T : List Token), piecesOk ps = true →
    run ⟨.content, T, [], [], "", [], ""⟩ (renderPieces ps)
      = ⟨.content, (pieceTokens ps).reverse ++ T, [], [], "", [], ""⟩ := by
  induction ps with
  | nil => intro T _; rfl
  | cons p ps ih =>
    intro T h
    simp only [piecesOk, List.all_cons, Bool.and_eq_true] at h
    obtain ⟨⟨hc, ht⟩, hps⟩ := h
    have hflush : (if p.1.value.data.reverse = [] then T else Token.text (str p.1.value.data.reverse) :: T)
        = p.1.tokens.reverse ++ T := by
      unfold Chunk.tokens
      by_cases hv : p.1.value.data = []
      · simp [hv]
      · simp [hv, str]
    rcases p with ⟨c, t⟩
    cases t with
    | opening n attrs =>
      simp only [renderPieces, run_append, run_chunk c hc, run_opening n attrs _ _ ht]
      rw [ih _ hps, hflush]
      simp [pieceTokens, Tag.token]
    | closing n =>
      simp only [renderPieces, run_append, run_chunk c hc, run_closing n _ _ ht]
      rw [ih _ hps, hflush]
      simp [pieceTokens, Tag.token]

theorem tokenize_pieces (ps : List Piece) (h : piecesOk ps = true) :
    tokenize (String.mk (renderPieces ps)) = some (pieceTokens ps) := by
  simp [tokenize, run_pieces ps [] h, flushText]


end LexerLemmas

/-! ## The tree builder on the tokens of an element -/

theorem pieceTokens_append (a b : List Piece) : pieceTokens (a ++ b) = pieceTokens a ++ pieceTokens b := by
  induction a with
  | nil => rfl
  | cons p ps ih => simp [pieceTokens, ih]

theorem renderPieces_append (a b : List Piece) : renderPieces (a ++ b) = renderPieces a ++ renderPieces b := by
  induction a with
  | nil => rfl
  | cons p ps ih => simp [renderPieces, ih]

theorem piecesOk_append (a b : List Piece) : piecesOk (a ++ b) = (piecesOk a && piecesOk b) := by
  simp [piecesOk]

theorem builder_run_append (b : Builder) (x y : List Token) :
    Builder.run b (x ++ y) = Builder.run (Builder.run b x) y := by
  simp [Builder.run, List.foldl_append]

theorem Builds.nil : Builds [] [] := by
  intro f rest root
  simp [Builder.run]

theorem Builds.append {a b : List Token} {x y : List XNode} (ha : Builds a x) (hb : Builds b y) :
    Builds (a ++ b) (x ++ y) := by
  intro f rest root
  rw [builder_run_append, ha, hb]
  simp

theorem Builds.text (s : String) : Builds [.text s] [.text s] := by
  intro f rest root
  simp [Builder.run, Builder.step]

theorem Builds.chunk (c : Chunk) : Builds c.tokens c.nodes := by
  unfold Chunk.tokens Chunk.nodes
  split
  · exact Builds.nil
  · exact Builds.text _

theorem Builds.elem {inner : List Token} {kids : List XNode} (n : String) (attrs : List (String × String))
    (hn : (attrs.map Prod.fst).Nodup) (h : Builds inner kids) :
    Builds (.start n attrs :: (inner ++ [.stop n])) [.elem n attrs kids] := by
  intro f rest root
  have e1 : Builder.step ⟨f :: rest, root, false⟩ (.start n attrs)
      = ⟨⟨n, attrs, []⟩ :: f :: rest, root, false⟩ := by
    simp [Builder.step, hn]
  show Builder.run (Builder.step _ _) _ = _
  rw [e1, builder_run_append, h]
  simp [Builder.run, Builder.step]

theorem sanitizeAttrs_fst (attrs : List (String × String)) :
    (sanitizeAttrs attrs).map Prod.fst = attrs.map Prod.fst := by
  simp [sanitizeAttrs]

theorem Builds.ofElement {inner : List Piece} {kids : List XNode} (lead last : Chunk) (n : String)
    (attrs : List (String × String)) (hn : (attrs.map Prod.fst).Nodup)
    (h : Builds (pieceTokens inner) kids) :
    Builds (pieceTokens (element lead n attrs inner last))
      (lead.nodes ++ [.elem n (sanitizeAttrs attrs) (kids ++ last.nodes)]) := by
  have h1 : pieceTokens (element lead n attrs inner last)
      = lead.tokens ++ (.start n (sanitizeAttrs attrs) :: ((pieceTokens inner ++ last.tokens) ++ [.stop n])) := by
    simp [element, pieceTokens, pieceTokens_append, Tag.token]
  rw [h1]
  exact (Builds.chunk lead).append
    (Builds.elem n _ (by rw [sanitizeAttrs_fst]; exact hn) (h.append (Builds.chunk last)))

/-- At the top level: the pieces of one element make the root. -/
theorem build_root {inner : List Piece} {kids : List XNode} (last : Chunk) (n : String)
    (attrs : List (String × String)) (hn : (attrs.map Prod.fst).Nodup)
    (h : Builds (pieceTokens inner) kids) :
    Builder.run {} (pieceTokens (element (.raw "") n attrs inner last))
      = ⟨[], some (.elem n (sanitizeAttrs attrs) (kids ++ last.nodes)), false⟩ := by
  have h1 : pieceTokens (element (.raw "") n attrs inner last)
      = (.start n (sanitizeAttrs attrs) :: ((pieceTokens inner ++ last.tokens) ++ [.stop n])) := by
    simp [element, pieceTokens, pieceTokens_append, Tag.token, Chunk.tokens, Chunk.value]
  have hn' : ((sanitizeAttrs attrs).map Prod.fst).Nodup := by rw [sanitizeAttrs_fst]; exact hn
  have e1 : Builder.step {} (.start n (sanitizeAttrs attrs))
      = ⟨[⟨n, sanitizeAttrs attrs, []⟩], none, false⟩ := by
    simp [Builder.step, hn']
  rw [h1]
  show Builder.run (Builder.step _ _) _ = _
  rw [e1, builder_run_append, h.append (Builds.chunk last)]
  simp [Builder.run, Builder.step]

/-- Reading back the text of one element. -/
theorem parseXML_element {inner : List Piece} {kids : List XNode} (last : Chunk) (n : String)
    (attrs : List (String × String)) (hn : (attrs.map Prod.fst).Nodup)
    (hok : piecesOk (element (.raw "") n attrs inner last) = true)
    (h : Builds (pieceTokens inner) kids) :
    parseXML (String.mk (renderPieces (element (.raw "") n attrs inner last)))
      = some (.elem n (sanitizeAttrs attrs) (kids ++ last.nodes)) := by
  simp [parseXML, tokenize_pieces _ hok, build_root last n attrs hn h]


/-! ## The printer writes the expected text -/

section PrinterLemmas

open printer


theorem len_indent : "  ".length = 2 := rfl
theorem len_empty : "".length = 0 := rfl

theorem writeIndent_open (w : String) (d : Nat) (b : Bool) (tags : List Name) :
    writeIndent ⟨w, "  ", "", d, b, true, tags⟩ 1
      = ⟨w ++ "\n" ++ indentTimes "  " d, "  ", "", d + 1, true, true, tags⟩ := by
  simp [writeIndent, len_indent, len_empty, WriteString]

theorem writeIndent_root (w : String) (tags : List Name) :
    writeIndent ⟨w, "  ", "", 0, false, false, tags⟩ 1
      = ⟨w, "  ", "", 1, true, true, tags⟩ := by
  simp [writeIndent, len_indent, len_empty, WriteString, indentTimes]

theorem writeIndent_close_leaf (w : String) (d : Nat) (tags : List Name) :
    writeIndent ⟨w, "  ", "", d + 1, true, true, tags⟩ (-1)
      = ⟨w, "  ", "", d, false, true, tags⟩ := by
  simp [writeIndent, len_indent, len_empty, WriteString]

theorem writeIndent_close_block (w : String) (d : Nat) (tags : List Name) :
    writeIndent ⟨w, "  ", "", d + 1, false, true, tags⟩ (-1)
      = ⟨w ++ "\n" ++ indentTimes "  " d, "  ", "", d, false, true, tags⟩ := by
  simp [writeIndent, len_indent, len_empty, WriteString]

theorem writeAttrs_ok (attrs : List (String × String)) :
    ∀ (p : printer), (∀ a ∈ attrs, a.1 ≠ "") →
    writeAttrs p (attrs.map toAttr) = .ok { p with w := p.w ++ String.mk (attrsChars attrs) } := by
  induction attrs with
  | nil => intro p _; simp [writeAttrs, attrsChars]
  | cons a rest ih =>
    intro p h
    have ha : a.1 ≠ "" := h a (List.mem_cons_self _ _)
    simp only [List.map_cons, writeAttrs, toAttr, ha, if_false, ne_eq, not_true_eq_false]
    rw [show (List.map toAttr rest) = rest.map toAttr from rfl, ih _ (fun x hx => h x (List.mem_cons_of_mem _ hx))]
    simp only [WriteString, EscapeString, escapeText, attrsChars]
    congr 2
    apply String.ext
    simp [String.data_append]



theorem writeStart_ok (w : String) (d : Nat) (b : Bool) (tags : List Name) (n : String)
    (attrs : List (String × String)) (hn : n ≠ "") (ha : ∀ a ∈ attrs, a.1 ≠ "") :
    writeStart ⟨w, "  ", "", d, b, true, tags⟩ { Name := { Local := n }, Attr := attrs.map toAttr }
      = .ok ⟨w ++ String.mk (renderPieces [(.raw ("\n" ++ indentTimes "  " d), .opening n attrs)]),
          "  ", "", d + 1, true, true, tags ++ [{ Local := n }]⟩ := by
  simp only [writeStart, hn, if_false, writeIndent_open, WriteString, ne_eq, not_true_eq_false,
    writeAttrs_ok attrs _ ha]
  congr 2
  apply String.ext
  simp [String.data_append, renderPieces, Chunk.render, Tag.render]

theorem writeStart_root (w : String) (n : String)
    (attrs : List (String × String)) (hn : n ≠ "") (ha : ∀ a ∈ attrs, a.1 ≠ "") :
    writeStart ⟨w, "  ", "", 0, false, false, []⟩ { Name := { Local := n }, Attr := attrs.map toAttr }
      = .ok ⟨w ++ String.mk (renderPieces [(.raw "", .opening n attrs)]),
          "  ", "", 1, true, true, [{ Local := n }]⟩ := by
  simp only [writeStart, hn, if_false, writeIndent_root, WriteString, ne_eq, not_true_eq_false,
    writeAttrs_ok attrs _ ha]
  simp only [List.nil_append]
  congr 2
  apply String.ext
  simp [String.data_append, renderPieces, Chunk.render, Tag.render]

theorem writeEnd_leaf (w : String) (d : Nat) (tags : List Name) (n : String) (hn : n ≠ "") :
    writeEnd ⟨w, "  ", "", d + 1, true, true, tags ++ [{ Local := n }]⟩ { Local := n }
      = .ok ⟨w ++ String.mk (Tag.closing n).render, "  ", "", d, false, true, tags⟩ := by
  have hl : (tags ++ [({ Local := n } : Name)]).getLast? = some { Local := n } := by simp
  simp only [writeEnd, hn, if_false, hl, ne_eq, not_true_eq_false, List.dropLast_concat,
    writeIndent_close_leaf, WriteString]
  congr 2
  apply String.ext
  simp [String.data_append, Tag.render]

theorem writeEnd_block (w : String) (d : Nat) (tags : List Name) (n : String) (hn : n ≠ "") :
    writeEnd ⟨w, "  ", "", d + 1, false, true, tags ++ [{ Local := n }]⟩ { Local := n }
      = .ok ⟨w ++ String.mk (renderPieces [(.raw ("\n" ++ indentTimes "  " d), .closing n)]),
          "  ", "", d, false, true, tags⟩ := by
  have hl : (tags ++ [({ Local := n } : Name)]).getLast? = some { Local := n } := by simp
  simp only [writeEnd, hn, if_false, hl, ne_eq, not_true_eq_false, List.dropLast_concat,
    writeIndent_close_block, WriteString]
  congr 2
  apply String.ext
  simp [String.data_append, Tag.render, renderPieces, Chunk.render]

theorem ind1 : "\n" ++ indentTimes "  " 1 = "\n  " := by decide
theorem ind2 : "\n" ++ indentTimes "  " 2 = "\n    " := by decide
theorem ind0 : "\n" ++ indentTimes "  " 0 = "\n" := by decide

theorem marshalString_ok (w : String) (d : Nat) (b : Bool) (tags : List Name) (n val : String)
    (hn : n ≠ "") :
    marshalString ⟨w, "  ", "", d, b, true, tags⟩ { name := n } val
      = .ok ⟨w ++ String.mk (renderPieces (leafPieces ("\n" ++ indentTimes "  " d) n val)),
          "  ", "", d, false, true, tags⟩ := by
  have h0 := writeStart_ok w d b tags n [] hn (by simp)
  simp only [List.map_nil] at h0
  simp only [marshalString, Bool.false_eq_true, false_and, if_false, h0, EscapeString,
    writeEnd_leaf _ d tags n hn]
  congr 2
  apply String.ext
  simp [String.data_append, renderPieces, leafPieces, element, Chunk.render, escapeText]

theorem marshalString_omit (w : String) (d : Nat) (b : Bool) (tags : List Name) (n val : String)
    (hn : n ≠ "") :
    marshalString ⟨w, "  ", "", d, b, true, tags⟩ { name := n, omitEmpty := true } val
      = .ok ⟨w ++ String.mk (renderPieces (optLeafPieces ("\n" ++ indentTimes "  " d) n val)),
          "  ", "", d, (if val.length = 0 then b else false), true, tags⟩ := by
  by_cases hv : val.length = 0
  · simp [marshalString, hv, optLeafPieces, renderPieces]
  · have h0 := writeStart_ok w d b tags n [] hn (by simp)
    simp only [List.map_nil] at h0
    simp only [marshalString, hv, and_false, if_false, h0, EscapeString, writeEnd_leaf _ d tags n hn,
      optLeafPieces]
    congr 2
    apply String.ext
    simp [String.data_append, renderPieces, leafPieces, element, Chunk.render, escapeText]

theorem marshalSlice_ok {α : Type} (f : printer → α → Except String printer) (g : α → List Piece)
    (d : Nat) (tags : List Name)
    (hf : ∀ w b x, f ⟨w, "  ", "", d, b, true, tags⟩ x
      = .ok ⟨w ++ String.mk (renderPieces (g x)), "  ", "", d, false, true, tags⟩)
    (xs : List α) : ∀ (w : String) (b : Bool),
    marshalSlice f ⟨w, "  ", "", d, b, true, tags⟩ xs
      = .ok ⟨w ++ String.mk (renderPieces (xs.flatMap g)), "  ", "", d,
          (if xs.isEmpty then b else false), true, tags⟩ := by
  induction xs with
  | nil => intro w b; simp [marshalSlice, renderPieces]
  | cons x xs ih =>
    intro w b
    simp only [marshalSlice, hf, ih, List.isEmpty_cons, Bool.false_eq_true, if_false, ite_self]
    congr 2
    apply String.ext
    simp [String.data_append, renderPieces_append]

theorem marshalSitemap_ok (w : String) (b : Bool) (s : Sitemap) :
    marshalSitemap ⟨w, "  ", "", 1, b, true, [{ Local := "sitemapindex" }]⟩ s
      = .ok ⟨w ++ String.mk (renderPieces (sitemapPieces s)), "  ", "", 1, false, true,
          [{ Local := "sitemapindex" }]⟩ := by
  have h0 := writeStart_ok w 1 b [{ Local := "sitemapindex" }] "sitemap" [] (by decide) (by simp)
  have h1 := fun w b v => marshalString_ok w 2 b [{ Local := "sitemapindex" }, { Local := "sitemap" }] "loc" v (by decide)
  have h2 := fun w b v => marshalString_ok w 2 b [{ Local := "sitemapindex" }, { Local := "sitemap" }] "lastmod" v (by decide)
  have h3 := fun w => writeEnd_block w 1 [{ Local := "sitemapindex" }] "sitemap" (by decide)
  simp only [List.map_nil, ind1, ind2, List.singleton_append, List.cons_append, List.nil_append,
    Nat.cast_one, Nat.cast_ofNat, Int.reduceAdd] at h0 h1 h2 h3
  simp only [marshalSitemap, h0, h1, h2, h3]
  congr 2
  apply String.ext
  simp [String.data_append, renderPieces, renderPieces_append, sitemapPieces, element]



theorem marshalAttr_plain (nm : Name) (attrs : List (String × String)) (a v : String) :
    marshalAttr { Name := nm, Attr := attrs.map toAttr } { name := a } v
      = { Name := nm, Attr := (attrs ++ [(a, v)]).map toAttr } := by
  simp [marshalAttr, toAttr]

theorem marshalAttr_omit (nm : Name) (attrs : List (String × String)) (a v : String) :
    marshalAttr { Name := nm, Attr := attrs.map toAttr } { name := a, omitEmpty := true } v
      = { Name := nm, Attr := (attrs ++ optAttr a v).map toAttr } := by
  by_cases hv : v.length = 0 <;> simp [marshalAttr, toAttr, optAttr, hv]

theorem marshalSitemapIndex_ok (v : SitemapIndex) :
    marshalSitemapIndex { indent := "  ", pre := "" } v
      = .ok ⟨String.mk (renderPieces (indexPieces v)), "  ", "", 0, false, true, []⟩ := by
  have ha := marshalAttr_plain { Local := "sitemapindex" } [] "xmlns" v.XMLNS
  have h0 := writeStart_root "" "sitemapindex" [("xmlns", v.XMLNS)] (by decide) (by simp)
  have h1 := marshalSlice_ok marshalSitemap sitemapPieces 1 [{ Local := "sitemapindex" }]
    (fun w b x => by simpa using marshalSitemap_ok w b x) v.Sitemaps
  have h2 := fun w => writeEnd_block w 0 [] "sitemapindex" (by decide)
  have h3 := fun w => writeEnd_leaf w 0 [] "sitemapindex" (by decide)
  simp only [List.map_nil, List.nil_append, Nat.cast_one, Nat.cast_zero, Int.reduceAdd, ind0,
    zero_add] at ha h0 h1 h2 h3
  simp only [marshalSitemapIndex, ha, h0, h1]
  by_cases he : v.Sitemaps.isEmpty = true
  · simp only [he, if_true, h3]
    congr 2
    apply String.ext
    simp [String.data_append, renderPieces, renderPieces_append, indexPieces, element, he, Chunk.render]
  · simp only [he, Bool.false_eq_true, if_false, h2]
    congr 2
    apply String.ext
    simp [String.data_append, renderPieces, renderPieces_append, indexPieces, element, he, Chunk.render]

theorem marshalXHTMLLink_ok (w : String) (b : Bool) (l : XHTMLLink) :
    marshalXHTMLLink ⟨w, "  ", "", 2, b, true, [{ Local := "urlset" }, { Local := "url" }]⟩ l
      = .ok ⟨w ++ String.mk (renderPieces (linkPieces l)), "  ", "", 2, false, true,
          [{ Local := "urlset" }, { Local := "url" }]⟩ := by
  have a1 := marshalAttr_plain { Local := "xhtml:link" } [] "rel" l.Rel
  have a2 := marshalAttr_plain { Local := "xhtml:link" } [("rel", l.Rel)] "hreflang" l.Hreflang
  have a3 := marshalAttr_plain { Local := "xhtml:link" } [("rel", l.Rel), ("hreflang", l.Hreflang)]
    "href" l.Href
  have h0 := writeStart_ok w 2 b [{ Local := "urlset" }, { Local := "url" }] "xhtml:link"
    [("rel", l.Rel), ("hreflang", l.Hreflang), ("href", l.Href)] (by decide) (by simp)
  have h3 := fun w => writeEnd_leaf w 2 [{ Local := "urlset" }, { Local := "url" }] "xhtml:link"
    (by decide)
  simp only [List.map_nil, List.nil_append, List.cons_append, Nat.cast_ofNat, Int.reduceAdd, ind2]
    at a1 a2 a3 h0 h3
  simp only [marshalXHTMLLink, a1, a2, a3, h0, h3]
  congr 2
  apply String.ext
  simp [String.data_append, renderPieces, linkPieces, element, Chunk.render]

theorem marshalURL_ok (w : String) (b : Bool) (u : URL) :
    marshalURL ⟨w, "  ", "", 1, b, true, [{ Local := "urlset" }]⟩ u
      = .ok ⟨w ++ String.mk (renderPieces (urlPieces u)), "  ", "", 1, false, true,
          [{ Local := "urlset" }]⟩ := by
  have h0 := writeStart_ok w 1 b [{ Local := "urlset" }] "url" [] (by decide) (by simp)
  have h1 := fun w b v => marshalString_ok w 2 b [{ Local := "urlset" }, { Local := "url" }] "loc" v (by decide)
  have h2 := fun w b v => marshalString_omit w 2 b [{ Local := "urlset" }, { Local := "url" }] "lastmod" v (by decide)
  have h3 := fun w b v => marshalString_omit w 2 b [{ Local := "urlset" }, { Local := "url" }] "changefreq" v (by decide)
  have h4 := fun w b v => marshalString_omit w 2 b [{ Local := "urlset" }, { Local := "url" }] "priority" v (by decide)
  have h5 := marshalSlice_ok marshalXHTMLLink linkPieces 2 [{ Local := "urlset" }, { Local := "url" }]
    (fun w b x => by simpa using marshalXHTMLLink_ok w b x) u.XHTMLLinks
  have h6 := fun w => writeEnd_block w 1 [{ Local := "urlset" }] "url" (by decide)
  simp only [List.map_nil, ind1, ind2, List.singleton_append, List.cons_append, List.nil_append,
    Nat.cast_one, Nat.cast_ofNat, Int.reduceAdd] at h0 h1 h2 h3 h4 h5 h6
  simp only [marshalURL, h0, h1, h2, h3, h4, h5, ite_self, h6]
  congr 2
  apply String.ext
  simp [String.data_append, renderPieces, renderPieces_append, urlPieces, element]



theorem marshalURLSet_ok (v : URLSet) :
    marshalURLSet { indent := "  ", pre := "" } v
      = .ok ⟨String.mk (renderPieces (urlsetPieces v)), "  ", "", 0, false, true, []⟩ := by
  have a1 := marshalAttr_plain { Local := "urlset" } [] "xmlns" v.XMLNS
  have a2 := fun l => marshalAttr_omit { Local := "urlset" } l "xmlns:news" v.XMLNSNews
  have a3 := fun l => marshalAttr_omit { Local := "urlset" } l "xmlns:xhtml" v.XMLNSXhtml
  have a4 := fun l => marshalAttr_omit { Local := "urlset" } l "xmlns:mobile" v.XMLNSMobile
  have a5 := fun l => marshalAttr_omit { Local := "urlset" } l "xmlns:image" v.XMLNSImage
  have a6 := fun l => marshalAttr_omit { Local := "urlset" } l "xmlns:video" v.XMLNSVideo
  have hattrs : ([("xmlns", v.XMLNS)] ++ optAttr "xmlns:news" v.XMLNSNews ++ optAttr "xmlns:xhtml" v.XMLNSXhtml
      ++ optAttr "xmlns:mobile" v.XMLNSMobile ++ optAttr "xmlns:image" v.XMLNSImage
      ++ optAttr "xmlns:video" v.XMLNSVideo) = urlsetAttrs v := by
    simp [urlsetAttrs]
  have hne : ∀ a ∈ urlsetAttrs v, a.1 ≠ "" := by
    intro a ha
    simp only [urlsetAttrs, optAttr, List.mem_cons, List.mem_append] at ha
    rcases ha with h | h | h | h | h | h
    · subst h; simp
    all_goals
      split at h
      · simp at h
      · simp only [List.mem_singleton] at h; subst h; simp
  have h0 := writeStart_root "" "urlset" (urlsetAttrs v) (by decide) hne
  have h1 := marshalSlice_ok marshalURL urlPieces 1 [{ Local := "urlset" }]
    (fun w b x => by simpa using marshalURL_ok w b x) v.URLs
  have h2 := fun w => writeEnd_block w 0 [] "urlset" (by decide)
  have h3 := fun w => writeEnd_leaf w 0 [] "urlset" (by decide)
  simp only [List.map_nil, List.nil_append, Nat.cast_one, Nat.cast_zero, Int.reduceAdd, ind0,
    zero_add] at a1 h0 h1 h2 h3
  simp only [marshalURLSet, a1, a2, a3, a4, a5, a6, hattrs, h0, h1]
  by_cases he : v.URLs.isEmpty = true
  · simp only [he, if_true, h3]
    congr 2
    apply String.ext
    simp [String.data_append, renderPieces, renderPieces_append, urlsetPieces, element, he, Chunk.render]
  · simp only [he, Bool.false_eq_true, if_false, h2]
    congr 2
    apply String.ext
    simp [String.data_append, renderPieces, renderPieces_append, urlsetPieces, element, he, Chunk.render]

/-- The encoder never fails on a document of the table's types, and writes
the expected text. -/
theorem Encode_ok (d : Document) : Encode d = .ok (documentText d) := by
  cases d with
  | index v => simp [Encode, marshalValue, marshalSitemapIndex_ok, documentText, documentPieces]
  | urlset v => simp [Encode, marshalValue, marshalURLSet_ok, documentText, documentPieces]


end PrinterLemmas

/-! ## Every document reads back as the expected tree -/

theorem piecesOk_element (lead last : Chunk) (n : String) (attrs : List (String × String))
    (inner : List Piece) :
    piecesOk (element lead n attrs inner last)
      = (lead.ok && (validName n && attrs.all (fun a => validName a.1)) && (piecesOk inner && (last.ok && validName n))) := by
  simp [piecesOk, element, Tag.ok, Bool.and_assoc]

theorem piecesOk_flatMap {α : Type} (g : α → List Piece) (xs : List α) (h : ∀ x, piecesOk (g x) = true) :
    piecesOk (xs.flatMap g) = true := by
  induction xs with
  | nil => rfl
  | cons x xs ih => simp [List.flatMap_cons, piecesOk_append, h x, ih]

theorem Builds.flatMap {α : Type} (g : α → List Piece) (k : α → List XNode) (xs : List α)
    (h : ∀ x, Builds (pieceTokens (g x)) (k x)) :
    Builds (pieceTokens (xs.flatMap g)) (xs.flatMap k) := by
  induction xs with
  | nil => exact Builds.nil
  | cons x xs ih =>
    simp only [List.flatMap_cons, pieceTokens_append]
    exact (h x).append ih

theorem piecesOk_leaf (ind n v : String) (hi : (Chunk.raw ind).ok = true) (hn : validName n = true) :
    piecesOk (leafPieces ind n v) = true := by
  have h0 : piecesOk [] = true := rfl
  have h1 : (Chunk.escaped v).ok = true := rfl
  rw [leafPieces, piecesOk_element]
  simp [hi, hn, h0, h1]

theorem piecesOk_optLeaf (ind n v : String) (hi : (Chunk.raw ind).ok = true) (hn : validName n = true) :
    piecesOk (optLeafPieces ind n v) = true := by
  unfold optLeafPieces
  split
  · rfl
  · exact piecesOk_leaf ind n v hi hn

theorem Builds.leaf (n v : String) :
    Builds (pieceTokens (leafPieces "\n    " n v)) [.text "\n    ", leafNode n v] := by
  have h0 : Builds (pieceTokens []) [] := Builds.nil
  have h := Builds.ofElement (.raw "\n    ") (.escaped v) n [] (by simp) h0
  simpa [leafPieces, leafNode, Chunk.nodes, Chunk.value, textNodes, sanitizeAttrs] using h

theorem Builds.optLeaf (n v : String) :
    Builds (pieceTokens (optLeafPieces "\n    " n v)) (optLeafNodes n v) := by
  unfold optLeafPieces optLeafNodes
  split
  · exact Builds.nil
  · exact Builds.leaf n v

theorem ok_ind1 : (Chunk.raw "\n  ").ok = true := by decide
theorem ok_ind2 : (Chunk.raw "\n    ").ok = true := by decide
theorem ok_ind0 : (Chunk.raw "\n").ok = true := by decide
theorem ok_empty : (Chunk.raw "").ok = true := by decide

theorem piecesOk_sitemap (s : Sitemap) : piecesOk (sitemapPieces s) = true := by
  have h1 := piecesOk_leaf "\n    " "loc" s.Loc ok_ind2 (by decide)
  have h2 := piecesOk_leaf "\n    " "lastmod" s.LastMod ok_ind2 (by decide)
  have hn : validName "sitemap" = true := by decide
  have h0 : ([] : List (String × String)).all (fun a => validName a.1) = true := rfl
  rw [sitemapPieces, piecesOk_element, piecesOk_append]
  simp only [h0, h1, h2, ok_ind1, hn, Bool.and_self]

theorem Builds.sitemap (s : Sitemap) :
    Builds (pieceTokens (sitemapPieces s)) [.text "\n  ", sitemapNode s] := by
  have hin := (Builds.leaf "loc" s.Loc).append (Builds.leaf "lastmod" s.LastMod)
  rw [← pieceTokens_append] at hin
  have h := Builds.ofElement (.raw "\n  ") (.raw "\n  ") "sitemap" [] (by simp) hin
  simpa [sitemapPieces, sitemapNode, Chunk.nodes, Chunk.value, sanitizeAttrs] using h

theorem piecesOk_index (v : SitemapIndex) : piecesOk (indexPieces v) = true := by
  have hn : validName "sitemapindex" = true := by decide
  have ha : validName "xmlns" = true := by decide
  have hl : (Chunk.raw (if v.Sitemaps.isEmpty then "" else "\n")).ok = true := by
    split
    · exact ok_empty
    · exact ok_ind0
  rw [indexPieces, piecesOk_element]
  simp only [hl, piecesOk_flatMap _ _ piecesOk_sitemap, hn, ha, ok_empty, List.all_cons, List.all_nil,
    Bool.and_self]

theorem parseXML_index (v : SitemapIndex) :
    parseXML (documentText (.index v)) = some (indexTree v) := by
  have h := parseXML_element (.raw (if v.Sitemaps.isEmpty then "" else "\n")) "sitemapindex"
    [("xmlns", v.XMLNS)] (by simp) (piecesOk_index v)
    (Builds.flatMap sitemapPieces (fun s => [.text "\n  ", sitemapNode s]) v.Sitemaps Builds.sitemap)
  simpa [documentText, documentPieces, indexPieces, indexTree, sanitizeAttrs, Chunk.nodes, Chunk.value,
    textNodes] using h



theorem piecesOk_link (l : XHTMLLink) : piecesOk (linkPieces l) = true := by
  have hn : validName "xhtml:link" = true := by decide
  have h1 : validName "rel" = true := by decide
  have h2 : validName "hreflang" = true := by decide
  have h3 : validName "href" = true := by decide
  have h0 : piecesOk [] = true := rfl
  rw [linkPieces, piecesOk_element]
  simp only [hn, h1, h2, h3, h0, ok_empty, ok_ind2, List.all_cons, List.all_nil, Bool.and_self]

theorem Builds.link (l : XHTMLLink) :
    Builds (pieceTokens (linkPieces l)) [.text "\n    ", linkNode l] := by
  have h0 : Builds (pieceTokens []) [] := Builds.nil
  have h := Builds.ofElement (.raw "\n    ") (.raw "") "xhtml:link"
    [("rel", l.Rel), ("hreflang", l.Hreflang), ("href", l.Href)] (by simp) h0
  simpa [linkPieces, linkNode, Chunk.nodes, Chunk.value, sanitizeAttrs] using h

theorem piecesOk_url (u : URL) : piecesOk (urlPieces u) = true := by
  have h1 := piecesOk_leaf "\n    " "loc" u.Loc ok_ind2 (by decide)
  have h2 := piecesOk_optLeaf "\n    " "lastmod" u.LastMod ok_ind2 (by decide)
  have h3 := piecesOk_optLeaf "\n    " "changefreq" u.ChangeFreq ok_ind2 (by decide)
  have h4 := piecesOk_optLeaf "\n    " "priority" u.Priority ok_ind2 (by decide)
  have h5 := piecesOk_flatMap linkPieces u.XHTMLLinks piecesOk_link
  have hn : validName "url" = true := by decide
  have h0 : ([] : List (String × String)).all (fun a => validName a.1) = true := rfl
  rw [urlPieces, piecesOk_element]
  simp only [piecesOk_append, h0, h1, h2, h3, h4, h5, ok_ind1, hn, Bool.and_self]

theorem Builds.url (u : URL) :
    Builds (pieceTokens (urlPieces u)) [.text "\n  ", urlNode u] := by
  have hin := (Builds.leaf "loc" u.Loc).append ((Builds.optLeaf "lastmod" u.LastMod).append
    ((Builds.optLeaf "changefreq" u.ChangeFreq).append ((Builds.optLeaf "priority" u.Priority).append
    (Builds.flatMap linkPieces (fun l => [.text "\n    ", linkNode l]) u.XHTMLLinks Builds.link))))
  simp only [← pieceTokens_append] at hin
  have h := Builds.ofElement (.raw "\n  ") (.raw "\n  ") "url" [] (by simp) hin
  simpa [urlPieces, urlNode, Chunk.nodes, Chunk.value, sanitizeAttrs] using h

theorem optAttr_valid (n v : String) (hn : validName n = true) :
    (optAttr n v).all (fun a => validName a.1) = true := by
  unfold optAttr
  split <;> simp [hn]

theorem urlsetAttrs_valid (v : URLSet) : (urlsetAttrs v).all (fun a => validName a.1) = true := by
  have h0 : validName "xmlns" = true := by decide
  have h1 := optAttr_valid "xmlns:news" v.XMLNSNews (by decide)
  have h2 := optAttr_valid "xmlns:xhtml" v.XMLNSXhtml (by decide)
  have h3 := optAttr_valid "xmlns:mobile" v.XMLNSMobile (by decide)
  have h4 := optAttr_valid "xmlns:image" v.XMLNSImage (by decide)
  have h5 := optAttr_valid "xmlns:video" v.XMLNSVideo (by decide)
  simp only [urlsetAttrs, List.all_cons, List.all_append, h0, h1, h2, h3, h4, h5, Bool.and_self]

theorem urlsetAttrs_nodup (v : URLSet) : ((urlsetAttrs v).map Prod.fst).Nodup := by
  have hsub : ∀ n x, List.Sublist ((optAttr n x).map Prod.fst) [n] := by
    intro n x
    unfold optAttr
    split <;> simp
  have h : List.Sublist ((urlsetAttrs v).map Prod.fst)
      (["xmlns"] ++ (["xmlns:news"] ++ (["xmlns:xhtml"] ++ (["xmlns:mobile"] ++ (["xmlns:image"] ++ ["xmlns:video"]))))) := by
    simp only [urlsetAttrs, List.map_cons, List.map_append]
    exact (List.Sublist.refl ["xmlns"]).append ((hsub _ _).append ((hsub _ _).append ((hsub _ _).append
      ((hsub _ _).append (hsub _ _)))))
  exact List.Nodup.sublist h (by decide)

theorem piecesOk_urlset (v : URLSet) : piecesOk (urlsetPieces v) = true := by
  have hn : validName "urlset" = true := by decide
  have hl : (Chunk.raw (if v.URLs.isEmpty then "" else "\n")).ok = true := by
    split
    · exact ok_empty
    · exact ok_ind0
  rw [urlsetPieces, piecesOk_element]
  simp only [hl, piecesOk_flatMap _ _ piecesOk_url, hn, urlsetAttrs_valid, ok_empty, Bool.and_self]

theorem parseXML_urlset (v : URLSet) :
    parseXML (documentText (.urlset v)) = some (urlsetTree v) := by
  have h := parseXML_element (.raw (if v.URLs.isEmpty then "" else "\n")) "urlset"
    (urlsetAttrs v) (urlsetAttrs_nodup v) (piecesOk_urlset v)
    (Builds.flatMap urlPieces (fun u => [.text "\n  ", urlNode u]) v.URLs Builds.url)
  simpa [documentText, documentPieces, urlsetPieces, urlsetTree, Chunk.nodes, Chunk.value,
    textNodes] using h

/-- Every document of the table's types is written as text that reads back as
the expected tree. -/
theorem parseXML_document (d : Document) : parseXML (documentText d) = some (documentTree d) := by
  cases d with
  | index v => exact parseXML_index v
  | urlset v => exact parseXML_urlset v


/-! ## The filesystem -/

theorem Extends.refl (fs : FS) : Extends fs fs := fun _ => Or.inl rfl

theorem Extends.trans {a b c : FS} (h1 : Extends a b) (h2 : Extends b c) : Extends a c := by
  intro k
  rcases h1 k with h | ⟨h, h'⟩
  · rcases h2 k with g | ⟨g, g'⟩
    · left; rw [g, h]
    · right; exact ⟨by rw [← h]; exact g, g'⟩
  · rcases h2 k with g | ⟨g, _⟩
    · right; exact ⟨h, by rw [g]; exact h'⟩
    · rw [h'] at g; cases g

theorem Extends.set_dir {fs : FS} {k : List String} (h : fs k = none) : Extends fs (fs.set k .dir) := by
  intro j
  unfold FS.set
  by_cases hj : j = k
  · subst hj; right; simp [h]
  · left; simp [hj]

theorem Extends.lookup {fs fs1 : FS} (h : Extends fs fs1) {k : List String} {n : Node}
    (hk : fs k = some n) : fs1 k = some n := by
  rcases h k with g | ⟨g, _⟩
  · rw [g]; exact hk
  · rw [hk] at g; cases g

/-- The shape of a successful resolution of a non-empty location. -/
theorem stat_cons_ok {fs : FS} {c : String} {parent : List String} {n : Node}
    (h : fs.stat (c :: parent) = .ok n) :
    fs.stat parent = .ok .dir ∧ ((isFixedDir c = true ∧ n = .dir) ∨
      (isFixedDir c = false ∧ fs (c :: parent) = some n)) := by
  unfold FS.stat at h
  split at h
  · cases h
  · cases h
  · rename_i hp
    refine ⟨hp, ?_⟩
    split at h
    · rename_i hf
      left; exact ⟨hf, by cases h; rfl⟩
    · rename_i hf
      right
      split at h
      · rename_i m hm
        cases h
        exact ⟨by simpa using hf, hm⟩
      · cases h

theorem stat_cons_of {fs : FS} {c : String} {parent : List String} {n : Node}
    (hp : fs.stat parent = .ok .dir) (hc : isFixedDir c = false) (hn : fs (c :: parent) = some n) :
    fs.stat (c :: parent) = .ok n := by
  conv_lhs => unfold FS.stat
  simp [hp, hc, hn]

theorem stat_cons_fixed {fs : FS} {c : String} {parent : List String}
    (hp : fs.stat parent = .ok .dir) (hc : isFixedDir c = true) :
    fs.stat (c :: parent) = .ok .dir := by
  conv_lhs => unfold FS.stat
  simp [hp, hc]

theorem stat_mono {fs fs1 : FS} (h : Extends fs fs1) :
    ∀ (k : List String) (n : Node), fs.stat k = .ok n → fs1.stat k = .ok n := by
  intro k
  induction k with
  | nil => intro n hn; simpa [FS.stat] using hn
  | cons c parent ih =>
    intro n hn
    obtain ⟨hp, hc⟩ := stat_cons_ok hn
    have hp1 := ih _ hp
    rcases hc with ⟨hf, rfl⟩ | ⟨hf, hl⟩
    · exact stat_cons_fixed hp1 hf
    · exact stat_cons_of hp1 hf (h.lookup hl)

/-- Writing at a location that does not resolve to a directory leaves every
other successful resolution as it was. -/
theorem stat_set_of_ne {fs : FS} {p : List String} (x : Node) (hp : fs.stat p ≠ .ok .dir) :
    ∀ (k : List String) (n : Node), k ≠ p → fs.stat k = .ok n → (fs.set p x).stat k = .ok n := by
  intro k
  induction k with
  | nil => intro n _ hn; simpa [FS.stat] using hn
  | cons c parent ih =>
    intro n hk hn
    obtain ⟨hq, hc⟩ := stat_cons_ok hn
    have hne : parent ≠ p := by
      rintro rfl
      exact hp hq
    have hq1 := ih _ hne hq
    rcases hc with ⟨hf, rfl⟩ | ⟨hf, hl⟩
    · exact stat_cons_fixed hq1 hf
    · exact stat_cons_of hq1 hf (by simp [FS.set, hk, hl])

theorem cons_ne_self (c : String) (p : List String) : p ≠ c :: p := by
  intro h
  have := congrArg List.length h
  simp at this

/-- After writing a node at a free or file location in a directory, the
location resolves to the node. -/
theorem stat_set_self {fs : FS} {c : String} {parent : List String} (x : Node)
    (hp : fs.stat parent = .ok .dir) (hc : isFixedDir c = false)
    (hk : fs.stat (c :: parent) ≠ .ok .dir) :
    (fs.set (c :: parent) x).stat (c :: parent) = .ok x := by
  have h1 := stat_set_of_ne x hk parent .dir (cons_ne_self c parent) hp
  exact stat_cons_of h1 hc (by simp [FS.set])

theorem mkdir_ok {fs fs1 : FS} {k : List String} (h : fs.mkdir k = .ok fs1) :
    Extends fs fs1 ∧ fs1.stat k = .ok .dir := by
  cases k with
  | nil => simp [FS.mkdir] at h
  | cons c parent =>
    simp only [FS.mkdir] at h
    split at h
    · cases h
    · cases h
    · rename_i hp
      split at h
      · cases h
      · rename_i hf
        have hf' : isFixedDir c = false := by simpa using hf
        split at h
        · cases h
        · rename_i hn
          cases h
          refine ⟨Extends.set_dir hn, ?_⟩
          apply stat_set_self .dir hp hf'
          intro hs
          obtain ⟨_, hc⟩ := stat_cons_ok hs
          rcases hc with ⟨hf2, _⟩ | ⟨_, hl⟩
          · rw [hf'] at hf2; cases hf2
          · rw [hn] at hl; cases hl

theorem mkdirAllKey_spec (k : List String) : ∀ (fs : FS),
    Extends fs (mkdirAllKey k fs).1 ∧
      ((mkdirAllKey k fs).2 = none → (mkdirAllKey k fs).1.stat k = .ok .dir) := by
  induction k with
  | nil => intro fs; simp [mkdirAllKey, Extends.refl, FS.stat]
  | cons c parent ih =>
    intro fs
    unfold mkdirAllKey
    split
    · rename_i hs
      exact ⟨Extends.refl fs, fun _ => hs⟩
    · exact ⟨Extends.refl fs, fun h => by cases h⟩
    · obtain ⟨ih1, ih2⟩ := ih fs
      split
      · rename_i fs1 e he
        rw [he] at ih1
        exact ⟨ih1, fun h => by cases h⟩
      · rename_i fs1 he
        rw [he] at ih1 ih2
        split
        · rename_i fs2 hm
          obtain ⟨h1, h2⟩ := mkdir_ok hm
          exact ⟨ih1.trans h1, fun _ => h2⟩
        · split
          · rename_i hs
            exact ⟨ih1, fun _ => hs⟩
          · exact ⟨ih1, fun h => by cases h⟩

theorem mkdirAllKey_of_dir {k : List String} {fs : FS} (h : fs.stat k = .ok .dir) :
    mkdirAllKey k fs = (fs, none) := by
  cases k with
  | nil => rfl
  | cons c parent =>
    unfold mkdirAllKey
    simp [h]

theorem MkdirAll_spec (path : String) (fs : FS) :
    Extends fs (MkdirAll path fs).1 ∧
      ((MkdirAll path fs).2 = none → path ≠ "" ∧ (MkdirAll path fs).1.stat (pathKey path) = .ok .dir) := by
  unfold MkdirAll
  split
  · exact ⟨Extends.refl fs, fun h => by cases h⟩
  · rename_i hp
    exact ⟨(mkdirAllKey_spec _ fs).1, fun h => ⟨hp, (mkdirAllKey_spec _ fs).2 h⟩⟩

theorem MkdirAll_of_dir {path : String} {fs : FS} (hp : path ≠ "")
    (h : fs.stat (pathKey path) = .ok .dir) : MkdirAll path fs = (fs, none) := by
  simp [MkdirAll, hp, mkdirAllKey_of_dir h]


theorem openTrunc_ok {fs fs1 : FS} {k : List String} (h : fs.openTrunc k = .ok fs1) :
    ∃ c p, k = c :: p ∧ isFixedDir c = false ∧ fs.stat p = .ok .dir ∧ fs (c :: p) ≠ some .dir ∧
      fs1 = fs.set (c :: p) (.file "") := by
  cases k with
  | nil => simp [FS.openTrunc] at h
  | cons c parent =>
    simp only [FS.openTrunc] at h
    split at h
    · cases h
    · cases h
    · rename_i hp
      split at h
      · cases h
      · rename_i hf
        have hf' : isFixedDir c = false := by simpa using hf
        split at h
        · cases h
        · rename_i hn
          cases h
          refine ⟨c, parent, rfl, hf', hp, ?_, rfl⟩
          intro hd
          exact hn hd

theorem openTrunc_of {fs : FS} {c : String} {p : List String} (hf : isFixedDir c = false)
    (hp : fs.stat p = .ok .dir) (hn : fs (c :: p) ≠ some .dir) :
    fs.openTrunc (c :: p) = .ok (fs.set (c :: p) (.file "")) := by
  simp only [FS.openTrunc, hp]
  cases hl : fs (c :: p) with
  | none => simp [hf]
  | some n =>
    cases n with
    | dir => exact absurd hl hn
    | file t => simp [hf]

theorem not_dir_of_lookup {fs : FS} {c : String} {p : List String} (hf : isFixedDir c = false)
    (hn : fs (c :: p) ≠ some .dir) : fs.stat (c :: p) ≠ .ok .dir := by
  intro hs
  obtain ⟨_, hc⟩ := stat_cons_ok hs
  rcases hc with ⟨hf2, _⟩ | ⟨_, hl⟩
  · rw [hf] at hf2; cases hf2
  · exact hn hl

theorem set_set (fs : FS) (k : List String) (a b : Node) : (fs.set k a).set k b = fs.set k b := by
  funext j
  unfold FS.set
  by_cases hj : j = k <;> simp [hj]

theorem write_after_set (fs : FS) (k : List String) (text : String) :
    (fs.set k (.file "")).write k text = fs.set k (.file text) := by
  unfold FS.write
  simp [FS.set, set_set]

/-- What `writeXMLFile` does: it fails exactly when `os.Create` fails, and
then changes nothing; otherwise the file holds the text of the document. -/
theorem writeXMLFile_eq (filePath : String) (content : Document) (fs : FS) :
    writeXMLFile filePath content fs =
      if filePath = "" then (fs, some (PathError.Error ⟨"open", filePath, .ENOENT⟩))
      else
        match fs.openTrunc (pathKey filePath) with
        | .ok _ => (fs.set (pathKey filePath) (.file (documentText content)), none)
        | .error e => (fs, some (PathError.Error ⟨"open", filePath, e⟩)) := by
  unfold writeXMLFile Create
  by_cases hp : filePath = ""
  · simp [hp]
  · simp only [hp, if_false]
    cases ho : fs.openTrunc (pathKey filePath) with
    | error e => simp
    | ok fs1 =>
      obtain ⟨c, p, hk, _, _, _, rfl⟩ := openTrunc_ok ho
      simp only [Encode_ok]
      rw [hk, write_after_set]

theorem writeXMLFile_ok {filePath : String} {content : Document} {fs : FS}
    (h : (writeXMLFile filePath content fs).2 = none) :
    filePath ≠ "" ∧ ∃ c p, pathKey filePath = c :: p ∧ isFixedDir c = false ∧ fs.stat p = .ok .dir ∧
      fs (c :: p) ≠ some .dir ∧
      (writeXMLFile filePath content fs).1 = fs.set (c :: p) (.file (documentText content)) := by
  rw [writeXMLFile_eq] at h ⊢
  by_cases hp : filePath = ""
  · simp [hp] at h
  · simp only [hp, if_false] at h ⊢
    cases ho : fs.openTrunc (pathKey filePath) with
    | error e => simp [ho] at h
    | ok fs1 =>
      obtain ⟨c, p, hk, hf, hs, hn, _⟩ := openTrunc_ok ho
      refine ⟨hp, c, p, hk, hf, hs, hn, ?_⟩
      simp [hk]

theorem writeXMLFile_err {filePath : String} {content : Document} {fs : FS} {e : String}
    (h : (writeXMLFile filePath content fs).2 = some e) :
    (writeXMLFile filePath content fs).1 = fs := by
  rw [writeXMLFile_eq] at h ⊢
  by_cases hp : filePath = ""
  · simp [hp]
  · simp only [hp, if_false] at h ⊢
    cases ho : fs.openTrunc (pathKey filePath) with
    | error e => simp
    | ok fs1 => simp [ho] at h


/-! ## One visit of the loops -/

theorem Sprintf_mkdir (a b : String) :
    Sprintf "failed to create directory %s: %v" [a, b] = "failed to create directory " ++ a ++ ": " ++ b := by
  apply String.ext
  simp [Sprintf, sprintfRunes, String.data_append]

theorem Sprintf_write (a b : String) :
    Sprintf "failed to write file %s: %v" [a, b] = "failed to write file " ++ a ++ ": " ++ b := by
  apply String.ext
  simp [Sprintf, sprintfRunes, String.data_append]

/-- The three outcomes of one visit. -/
theorem visitStep_mkdir_err {v : Visit} {fs : FS} {e : PathError}
    (h : (MkdirAll v.parentDir fs).2 = some e) :
    visitStep v fs = ((MkdirAll v.parentDir fs).1,
      some ("failed to create directory " ++ v.parentDir ++ ": " ++ e.Error)) := by
  unfold visitStep
  rcases hm : MkdirAll v.parentDir fs with ⟨fs1, r⟩
  rw [hm] at h
  simp only at h
  subst h
  simp [Sprintf_mkdir]

theorem visitStep_write_err {v : Visit} {fs : FS} {e : String}
    (h : (MkdirAll v.parentDir fs).2 = none)
    (hw : (writeXMLFile v.filePath v.content (MkdirAll v.parentDir fs).1).2 = some e) :
    visitStep v fs = ((MkdirAll v.parentDir fs).1,
      some ("failed to write file " ++ v.filePath ++ ": " ++ e)) := by
  have hs := writeXMLFile_err hw
  unfold visitStep
  rcases hm : MkdirAll v.parentDir fs with ⟨fs1, r⟩
  rw [hm] at h hw hs
  simp only at h hw hs
  subst h
  rcases hx : writeXMLFile v.filePath v.content fs1 with ⟨fs2, r2⟩
  rw [hx] at hw hs
  simp only at hw hs
  subst hw hs
  simp [Sprintf_write, hx]

theorem visitStep_success {v : Visit} {fs : FS}
    (h : (MkdirAll v.parentDir fs).2 = none)
    (hw : (writeXMLFile v.filePath v.content (MkdirAll v.parentDir fs).1).2 = none) :
    visitStep v fs = ((writeXMLFile v.filePath v.content (MkdirAll v.parentDir fs).1).1, none) := by
  unfold visitStep
  rcases hm : MkdirAll v.parentDir fs with ⟨fs1, r⟩
  rw [hm] at h hw
  simp only at h hw
  subst h
  rcases hx : writeXMLFile v.filePath v.content fs1 with ⟨fs2, r2⟩
  rw [hx] at hw
  simp only at hw
  subst hw
  simp [hx]

/-- A visit fails exactly when its `MkdirAll` or its `writeXMLFile` fails. -/
theorem visitStep_err_iff (v : Visit) (fs : FS) :
    (visitStep v fs).2 ≠ none ↔
      ((MkdirAll v.parentDir fs).2 ≠ none ∨
        (writeXMLFile v.filePath v.content (MkdirAll v.parentDir fs).1).2 ≠ none) := by
  cases hm : (MkdirAll v.parentDir fs).2 with
  | some e => simp [visitStep_mkdir_err hm]
  | none =>
    cases hw : (writeXMLFile v.filePath v.content (MkdirAll v.parentDir fs).1).2 with
    | some e => simp [visitStep_write_err hm hw]
    | none => simp [visitStep_success hm hw]

/-- A failed visit leaves everything that resolved before as it was. -/
theorem visitStep_fail_preserves {v : Visit} {fs : FS} (h : (visitStep v fs).2 ≠ none)
    (k : List String) (n : Node) (hk : fs.stat k = .ok n) : (visitStep v fs).1.stat k = .ok n := by
  have hext := (MkdirAll_spec v.parentDir fs).1
  cases hm : (MkdirAll v.parentDir fs).2 with
  | some e => rw [visitStep_mkdir_err hm]; exact stat_mono hext k n hk
  | none =>
    cases hw : (writeXMLFile v.filePath v.content (MkdirAll v.parentDir fs).1).2 with
    | some e => rw [visitStep_write_err hm hw]; exact stat_mono hext k n hk
    | none => rw [visitStep_success hm hw] at h; simp at h

/-- A successful visit: the shape of the state it leaves. -/
theorem visitStep_ok {v : Visit} {fs : FS} (h : (visitStep v fs).2 = none) :
    ∃ fs1 c p, Extends fs fs1 ∧ v.parentDir ≠ "" ∧ v.filePath ≠ "" ∧
      fs1.stat (pathKey v.parentDir) = .ok .dir ∧ pathKey v.filePath = c :: p ∧
      isFixedDir c = false ∧ fs1.stat p = .ok .dir ∧ fs1 (c :: p) ≠ some .dir ∧
      (visitStep v fs).1 = fs1.set (c :: p) (.file (documentText v.content)) := by
  have hiff := visitStep_err_iff v fs
  have hm : (MkdirAll v.parentDir fs).2 = none := by
    by_contra hc
    exact (hiff.mpr (Or.inl hc)) h
  have hw : (writeXMLFile v.filePath v.content (MkdirAll v.parentDir fs).1).2 = none := by
    by_contra hc
    exact (hiff.mpr (Or.inr hc)) h
  obtain ⟨hext, hdir⟩ := MkdirAll_spec v.parentDir fs
  obtain ⟨hpd, hst⟩ := hdir hm
  obtain ⟨hfp, c, p, hk, hf, hs, hn, heq⟩ := writeXMLFile_ok hw
  refine ⟨(MkdirAll v.parentDir fs).1, c, p, hext, hpd, hfp, hst, hk, hf, hs, hn, ?_⟩
  rw [visitStep_success hm hw, heq]

theorem lookup_set_ne {fs : FS} {k j : List String} (x : Node) (h : j ≠ k) : (fs.set k x) j = fs j := by
  simp [FS.set, h]

theorem lookup_set_self (fs : FS) (k : List String) (x : Node) : (fs.set k x) k = some x := by
  simp [FS.set]

theorem stat_set_dir {fs : FS} {p k : List String} (x : Node) (hp : fs.stat p ≠ .ok .dir)
    (hk : fs.stat k = .ok .dir) : (fs.set p x).stat k = .ok .dir := by
  apply stat_set_of_ne x hp k .dir _ hk
  rintro rfl
  exact hp hk

/-- After a successful visit the state holds the file of the visit. -/
theorem Holds_of_visit {v : Visit} {fs : FS} (h : (visitStep v fs).2 = none) :
    Holds v (visitStep v fs).1 := by
  obtain ⟨fs1, c, p, _, hpd, hfp, hst, hk, hf, hs, hn, heq⟩ := visitStep_ok h
  have hnd := not_dir_of_lookup hf hn
  rw [heq]
  refine ⟨⟨hpd, hfp, stat_set_dir _ hnd hst, c, p, documentText v.content, hk, hf,
    stat_set_dir _ hnd hs, ?_⟩, ?_⟩
  · exact lookup_set_self _ _ _
  · rw [hk]; exact lookup_set_self _ _ _

/-- Writing a regular file over a regular file elsewhere keeps a state ready. -/
theorem Ready_set {pd fp : String} {fs : FS} {k : List String} (t : String)
    (h : Ready pd fp fs) (hk : fs.stat k ≠ .ok .dir) (hne : pathKey fp ≠ k) :
    Ready pd fp (fs.set k (.file t)) := by
  obtain ⟨h1, h2, h3, c, p, old, h4, h5, h6, h7⟩ := h
  refine ⟨h1, h2, stat_set_dir _ hk h3, c, p, old, h4, h5, stat_set_dir _ hk h6, ?_⟩
  rw [lookup_set_ne _ (by rw [← h4]; exact hne)]
  exact h7

theorem Ready_extends {pd fp : String} {fs fs1 : FS} (h : Ready pd fp fs) (he : Extends fs fs1) :
    Ready pd fp fs1 := by
  obtain ⟨h1, h2, h3, c, p, old, h4, h5, h6, h7⟩ := h
  exact ⟨h1, h2, stat_mono he _ _ h3, c, p, old, h4, h5, stat_mono he _ _ h6, he.lookup h7⟩

/-- A successful visit of another file keeps what the state holds. -/
theorem Holds_preserved {u v : Visit} {fs : FS} (hu : Holds u fs) (h : (visitStep v fs).2 = none)
    (hne : pathKey u.filePath ≠ pathKey v.filePath) : Holds u (visitStep v fs).1 := by
  obtain ⟨fs1, c, p, hext, _, _, _, hk, hf, _, hn, heq⟩ := visitStep_ok h
  have hnd := not_dir_of_lookup hf hn
  rw [heq]
  refine ⟨Ready_set _ (Ready_extends hu.1 hext) hnd (by rw [← hk]; exact hne), ?_⟩
  rw [lookup_set_ne _ (by rw [← hk]; exact hne)]
  exact hext.lookup hu.2

/-- In a ready state a visit succeeds and only rewrites its file. -/
theorem visitStep_of_ready {v : Visit} {fs : FS} (h : Ready v.parentDir v.filePath fs) :
    visitStep v fs = (fs.set (pathKey v.filePath) (.file (documentText v.content)), none) := by
  obtain ⟨h1, h2, h3, c, p, old, h4, h5, h6, h7⟩ := h
  have hm := MkdirAll_of_dir h1 h3
  have hn : fs (c :: p) ≠ some .dir := by rw [h7]; simp
  have ho := openTrunc_of h5 h6 hn
  have hw : writeXMLFile v.filePath v.content fs
      = (fs.set (pathKey v.filePath) (.file (documentText v.content)), none) := by
    rw [writeXMLFile_eq]
    simp [h2, h4, ho]
  unfold visitStep
  rw [hm]
  simp only [hw]

theorem Ready_not_dir {pd fp : String} {fs : FS} (h : Ready pd fp fs) :
    fs.stat (pathKey fp) ≠ .ok .dir := by
  obtain ⟨_, _, _, c, p, old, h4, h5, _, h7⟩ := h
  rw [h4]
  exact not_dir_of_lookup h5 (by rw [h7]; simp)

/-- The file a state holds can be read. -/
theorem Holds.readFile {v : Visit} {fs : FS} (h : Holds v fs) :
    fs.readFile v.filePath = some (documentText v.content) := by
  obtain ⟨⟨_, _, _, c, p, old, h4, h5, h6, _⟩, h8⟩ := h
  unfold FS.readFile
  rw [h4] at h8 ⊢
  rw [stat_cons_of h6 h5 h8]


/-! ## Paths -/

theorem splitSlash_ne_nil (s : List Char) : splitSlash s ≠ [] := by
  cases s with
  | nil => simp [splitSlash]
  | cons c cs =>
    unfold splitSlash
    split
    · simp
    · split <;> simp

theorem splitSlash_append_slash (a b : List Char) :
    splitSlash (a ++ '/' :: b) = splitSlash a ++ splitSlash b := by
  induction a with
  | nil => simp [splitSlash]
  | cons c a ih =>
    by_cases hc : c = '/'
    · simp [splitSlash, hc, ih]
    · simp only [List.cons_append, splitSlash, hc, if_false]
      have ih2 : splitSlash (a.append ('/' :: b)) = splitSlash a ++ splitSlash b := ih
      rw [ih2]
      cases hs : splitSlash a with
      | nil => exact absurd hs (splitSlash_ne_nil a)
      | cons h t => simp

theorem splitSlash_no_slash (name : List Char) (h : '/' ∉ name) : splitSlash name = [name] := by
  induction name with
  | nil => rfl
  | cons c cs ih =>
    have hc : c ≠ '/' := fun e => h (by simp [e])
    have hcs : '/' ∉ cs := fun e => h (by simp [e])
    simp [splitSlash, hc, ih hcs]

theorem splitSlash_endsWith {s name : List Char} (h : EndsWithName s name) (hn : '/' ∉ name) :
    ∃ cs, splitSlash s = cs ++ [name] := by
  rcases h with rfl | ⟨q, rfl⟩
  · exact ⟨[], by simp [splitSlash_no_slash _ hn]⟩
  · exact ⟨splitSlash q, by rw [splitSlash_append_slash, splitSlash_no_slash _ hn]⟩

theorem joinSlash_cons_cons (x y : String) (l : List String) :
    (joinSlash (x :: y :: l)).data = x.data ++ '/' :: (joinSlash (y :: l)).data := by
  simp [joinSlash, String.data_append]

theorem joinSlash_concat (l : List String) (n : String) :
    EndsWithName (joinSlash (l ++ [n])).data n.data := by
  induction l with
  | nil => left; rfl
  | cons x l ih =>
    right
    cases l with
    | nil => exact ⟨x.data, by simp [joinSlash, String.data_append]⟩
    | cons y l =>
      have e : x :: y :: l ++ [n] = x :: y :: (l ++ [n]) := rfl
      have e2 : y :: l ++ [n] = y :: (l ++ [n]) := rfl
      rw [e, joinSlash_cons_cons]
      rw [e2] at ih
      rcases ih with h | ⟨q, h⟩
      · exact ⟨x.data, by rw [h]⟩
      · exact ⟨x.data ++ '/' :: q, by rw [h]; simp⟩

theorem EndsWithName.prepend {s name : List Char} (h : EndsWithName s name) (c : Char) (hc : c = '/') :
    EndsWithName (c :: s) name := by
  subst hc
  rcases h with rfl | ⟨q, rfl⟩
  · exact Or.inr ⟨[], rfl⟩
  · exact Or.inr ⟨'/' :: q, rfl⟩

/-- A name that `filepath.Clean` keeps as it is. -/
theorem cleanStep_name (r : Bool) (st : List String) (n : String) (h1 : n ≠ "") (h2 : n ≠ ".")
    (h3 : n ≠ "..") : cleanStep r st n = n :: st := by
  simp [cleanStep, h1, h2, h3]

/-- The last element of a cleaned path is the last element of the path, when
that is a name. -/
theorem Clean_endsWith {X : String} {name : String} (h : EndsWithName X.data name.data)
    (hs : '/' ∉ name.data) (h1 : name ≠ "") (h2 : name ≠ ".") (h3 : name ≠ "..") :
    EndsWithName (Clean X).data name.data := by
  obtain ⟨cs, hcs⟩ := splitSlash_endsWith h hs
  have hst : cleanStack X = name :: (cs.map String.mk).foldl (cleanStep (isRooted X)) [] := by
    simp only [cleanStack, components, hcs, List.map_append, List.map_cons, List.map_nil,
      List.foldl_append, List.foldl_cons, List.foldl_nil]
    exact cleanStep_name _ _ _ h1 h2 h3
  have hj := joinSlash_concat ((cs.map String.mk).foldl (cleanStep (isRooted X)) []).reverse name
  unfold Clean
  rw [hst]
  simp only [List.reverse_cons, List.isEmpty_cons, Bool.false_eq_true, if_false]
  split
  · have : ("/" ++ joinSlash (((cs.map String.mk).foldl (cleanStep (isRooted X)) []).reverse ++ [name])).data
        = '/' :: (joinSlash (((cs.map String.mk).foldl (cleanStep (isRooted X)) []).reverse ++ [name])).data := by
      simp [String.data_append]
    rw [this]
    exact hj.prepend '/' rfl
  · exact hj

/-- The location of a path whose last element is a name starts with that
name. -/
theorem pathKey_endsWith {Y : String} {name : String} (h : EndsWithName Y.data name.data)
    (hs : '/' ∉ name.data) (h1 : name ≠ "") (h2 : name ≠ ".") :
    ∃ rest, pathKey Y = name :: rest := by
  obtain ⟨cs, hcs⟩ := splitSlash_endsWith h hs
  refine ⟨((cs.map String.mk).filter (fun c => c ≠ "" ∧ c ≠ ".")).reverse
    ++ (if isRooted Y then ["/"] else []), ?_⟩
  simp [pathKey, components, hcs, List.filter_append, h1, h2]

theorem Join_endsWith (D f name : String) (hf : EndsWithName f.data name.data) (hfne : f ≠ "")
    (hs : '/' ∉ name.data) (h1 : name ≠ "") (h2 : name ≠ ".") (h3 : name ≠ "..") :
    EndsWithName (Join [D, f]).data name.data := by
  by_cases hD : D = ""
  · simp only [Join, hD, if_true, hfne, if_false, joinSlash]
    exact Clean_endsWith hf hs h1 h2 h3
  · simp only [Join, hD, if_false, joinSlash]
    apply Clean_endsWith _ hs h1 h2 h3
    rcases hf with h | ⟨q, h⟩
    · right; exact ⟨D.data, by simp [String.data_append, h]⟩
    · right; exact ⟨D.data ++ '/' :: q, by simp [String.data_append, h]⟩

/-- The two file paths of the table name different locations. -/
theorem entry_keys_ne (outputDir : String) :
    pathKey (entryPath outputDir "crunchyroll" "sitemap.xml")
      ≠ pathKey (entryPath outputDir "crunchyroll" "series/S.xml") := by
  have e1 := Join_endsWith (Join [outputDir, "crunchyroll"]) "sitemap.xml" "sitemap.xml"
    (Or.inl rfl) (by decide) (by decide) (by decide) (by decide) (by decide)
  have e2 := Join_endsWith (Join [outputDir, "crunchyroll"]) "series/S.xml" "S.xml"
    (Or.inr ⟨"series".data, rfl⟩) (by decide) (by decide) (by decide) (by decide) (by decide)
  obtain ⟨r1, h1⟩ := pathKey_endsWith e1 (by decide) (by decide) (by decide)
  obtain ⟨r2, h2⟩ := pathKey_endsWith e2 (by decide) (by decide) (by decide)
  unfold entryPath
  rw [h1, h2]
  intro h
  have := (List.cons.inj h).1
  revert this
  decide


/-! ## The loops as a list of visits -/

theorem rangeMap_single {α : Type} (seed : Nat) (a : α) : rangeMap seed [a] = [a] := by
  simp [rangeMap, List.permutations', List.permutations'Aux]

theorem rangeMap_pair {α : Type} (seed : Nat) (a b : α) :
    rangeMap seed [a, b] = [a, b] ∨ rangeMap seed [a, b] = [b, a] := by
  have hp : [a, b].permutations' = [[a, b], [b, a]] := by
    simp [List.permutations', List.permutations'Aux]
  unfold rangeMap
  rw [hp]
  have h2 : seed % 2 = 0 ∨ seed % 2 = 1 := by omega
  rcases h2 with h | h
  · left; simp [h]
  · right; simp [h]

/-- Every order of a two-element map is chosen by some seed. -/
theorem rangeMap_pair_seed {α : Type} (a b : α) :
    rangeMap 0 [a, b] = [a, b] ∧ rangeMap 1 [a, b] = [b, a] := by
  simp [rangeMap, List.permutations', List.permutations'Aux]

theorem runVisits_append (a b : List Visit) (fs : FS) :
    runVisits (a ++ b) fs =
      match runVisits a fs with
      | (fs1, some e) => (fs1, some e)
      | (fs1, none) => runVisits b fs1 := by
  induction a generalizing fs with
  | nil => simp [runVisits]
  | cons v a ih =>
    simp only [List.cons_append, runVisits]
    rcases hv : visitStep v fs with ⟨fs1, r⟩
    cases r with
    | some e => simp
    | none => simp [ih]

theorem filesLoop_eq (domainDir : String) (files : List (String × Document)) (fs : FS) :
    filesLoop domainDir files fs
      = runVisits (files.map (fun f =>
          { filePath := Join [domainDir, f.1], parentDir := Dir (Join [domainDir, f.1]),
            content := f.2 })) fs := by
  induction files generalizing fs with
  | nil => rfl
  | cons f files ih =>
    obtain ⟨name, doc⟩ := f
    simp only [filesLoop, List.map_cons, runVisits, visitStep]
    rcases hm : MkdirAll (Dir (Join [domainDir, name])) fs with ⟨fs1, r⟩
    cases r with
    | some e => simp
    | none =>
      simp only
      rcases hw : writeXMLFile (Join [domainDir, name]) doc fs1 with ⟨fs2, r2⟩
      cases r2 with
      | some e => simp
      | none => simp [ih]

theorem domainsLoop_eq (outputDir : String) (ord : RangeOrder)
    (data : List (String × List (String × Document))) (fs : FS) :
    domainsLoop outputDir ord data fs
      = runVisits (data.flatMap (fun d =>
          (rangeMap (ord.inner d.1) d.2).map (fun f =>
            { filePath := Join [Join [outputDir, d.1], f.1],
              parentDir := Dir (Join [Join [outputDir, d.1], f.1]),
              content := f.2 }))) fs := by
  induction data generalizing fs with
  | nil => rfl
  | cons d data ih =>
    obtain ⟨domain, files⟩ := d
    simp only [domainsLoop, List.flatMap_cons, runVisits_append, filesLoop_eq]
    rcases hr : runVisits _ fs with ⟨fs1, r⟩
    cases r with
    | some e => simp
    | none => simp [ih]

/-- The function is its visits, run in order up to the first error. -/
theorem generateSitemaps_eq (outputDir host : String) (tIndex tSet : Time) (ord : RangeOrder)
    (fs : FS) :
    generateSitemaps outputDir host tIndex tSet ord fs
      = runVisits (visits outputDir host tIndex tSet ord) fs := by
  simp [generateSitemaps, visits, domainsLoop_eq]

/-- The visits of the table: the two files of `crunchyroll`, in one order or
the other. -/
theorem visits_cases (outputDir host : String) (tIndex tSet : Time) (ord : RangeOrder) :
    visits outputDir host tIndex tSet ord
        = [indexVisit outputDir host tIndex, urlsetVisit outputDir host tSet]
      ∨ visits outputDir host tIndex tSet ord
        = [urlsetVisit outputDir host tSet, indexVisit outputDir host tIndex] := by
  unfold visits sitemapData
  rw [rangeMap_single]
  simp only [List.flatMap_cons, List.flatMap_nil, List.append_nil]
  rcases rangeMap_pair (ord.inner "crunchyroll")
    (("sitemap.xml", indexDocument host tIndex) : String × Document)
    ("series/S.xml", urlsetDocument host tSet) with h | h
  · left
    simp only [indexDocument, urlsetDocument] at h
    rw [h]
    rfl
  · right
    simp only [indexDocument, urlsetDocument] at h
    rw [h]
    rfl


/-! ## What the expected trees contain -/

theorem sanitize_of_safe {s : String} (h : xmlSafe s = true) : sanitize s = s := by
  unfold xmlSafe at h
  unfold sanitize
  have : s.data.map sanitizeRune = s.data := by
    have hall : ∀ c ∈ s.data, isInCharacterRange c = true := by simpa using h
    calc s.data.map sanitizeRune = s.data.map id := by
          apply List.map_congr_left
          intro c hc
          simp [sanitizeRune, hall c hc]
      _ = s.data := by simp
  rw [this]

theorem textOf_leafNode (n v : String) : (leafNode n v).textOf = sanitize v := by
  unfold leafNode XNode.textOf XNode.children textNodes
  by_cases h : (sanitize v).data = []
  · have : sanitize v = "" := String.ext h
    simp [h, this, String.join]
  · simp [h, String.join]

theorem elems_flatMap_text {α : Type} (ws : String) (f : α → XNode) (hf : ∀ x, (f x).tag?.isSome = true)
    (xs : List α) (tail : List XNode) :
    (xs.flatMap (fun x => [XNode.text ws, f x]) ++ tail).filter (fun c => c.tag?.isSome)
      = xs.map f ++ tail.filter (fun c => c.tag?.isSome) := by
  induction xs with
  | nil => simp
  | cons x xs ih =>
    simp only [List.flatMap_cons, List.cons_append, List.nil_append, List.map_cons]
    rw [List.filter_cons_of_neg (by simp [XNode.tag?]),
      List.filter_cons_of_pos (p := fun (c : XNode) => c.tag?.isSome) (hf x), ih]

theorem named_flatMap_text {α : Type} (ws name : String) (f : α → XNode)
    (hf : ∀ x, (f x).tag? = some name) (xs : List α) (tail : List XNode) :
    (xs.flatMap (fun x => [XNode.text ws, f x]) ++ tail).filter (fun c => c.tag? = some name)
      = xs.map f ++ tail.filter (fun c => c.tag? = some name) := by
  induction xs with
  | nil => simp
  | cons x xs ih =>
    simp only [List.flatMap_cons, List.cons_append, List.nil_append, List.map_cons]
    rw [List.filter_cons_of_neg (by simp [XNode.tag?]),
      List.filter_cons_of_pos (p := fun (c : XNode) => decide (c.tag? = some name)) (by simp [hf x]), ih]

theorem textNodes_filter_named (s name : String) :
    (textNodes s).filter (fun c => c.tag? = some name) = [] := by
  unfold textNodes
  split <;> simp [XNode.tag?]

theorem textNodes_filter_elems (s : String) :
    (textNodes s).filter (fun c => c.tag?.isSome) = [] := by
  unfold textNodes
  split <;> simp [XNode.tag?]

theorem elems_urlsetTree (v : URLSet) : (urlsetTree v).elems = v.URLs.map urlNode := by
  unfold urlsetTree XNode.elems XNode.children
  simp only
  rw [elems_flatMap_text "\n  " urlNode (fun _ => rfl), textNodes_filter_elems, List.append_nil]

theorem named_indexTree (v : SitemapIndex) :
    (indexTree v).elemsNamed "sitemap" = v.Sitemaps.map sitemapNode := by
  unfold indexTree XNode.elemsNamed XNode.children
  simp only
  rw [named_flatMap_text "\n  " "sitemap" sitemapNode (fun _ => rfl), textNodes_filter_named,
    List.append_nil]

theorem locs_sitemapNode (s : Sitemap) :
    ((sitemapNode s).elemsNamed "loc").map XNode.textOf = [sanitize s.Loc] := by
  have : (sitemapNode s).elemsNamed "loc" = [leafNode "loc" s.Loc] := by
    simp [sitemapNode, XNode.elemsNamed, XNode.children, XNode.tag?, leafNode]
  rw [this]
  simp [textOf_leafNode]

/-- The `loc` values read back from a sitemap index: the `Loc` of each entry,
sanitized, in order. -/
theorem sitemapLocs_indexTree (v : SitemapIndex) :
    sitemapLocs (indexTree v) = v.Sitemaps.map (fun s => sanitize s.Loc) := by
  unfold sitemapLocs
  rw [named_indexTree]
  induction v.Sitemaps with
  | nil => rfl
  | cons s ss ih => simp [List.flatMap_cons, locs_sitemapNode, ih]

theorem Sprintf_index_loc (h : String) :
    Sprintf "http://%s/sitemaps/crunchyroll/series/S.xml" [h]
      = "http://" ++ h ++ "/sitemaps/crunchyroll/series/S.xml" := by
  apply String.ext
  simp [Sprintf, sprintfRunes, String.data_append]

theorem Sprintf_url_loc (h : String) :
    Sprintf "http://%s/pages/crunchyroll/series/spy_x_family.html" [h]
      = "http://" ++ h ++ "/pages/crunchyroll/series/spy_x_family.html" := by
  apply String.ext
  simp [Sprintf, sprintfRunes, String.data_append]

theorem writeXMLFile_readFile {filePath : String} {content : Document} {fs : FS}
    (h : (writeXMLFile filePath content fs).2 = none) :
    (writeXMLFile filePath content fs).1.readFile filePath = some (documentText content) := by
  obtain ⟨_, c, p, hk, hf, hs, hn, heq⟩ := writeXMLFile_ok h
  rw [heq]
  unfold FS.readFile
  rw [hk, stat_set_self _ hs hf (not_dir_of_lookup hf hn)]

/-- Two visits of different files that both succeed: the state holds both
files. -/
theorem runVisits_two_ok {a b : Visit} {fs : FS} (h : (runVisits [a, b] fs).2 = none)
    (hne : pathKey a.filePath ≠ pathKey b.filePath) :
    Holds a (runVisits [a, b] fs).1 ∧ Holds b (runVisits [a, b] fs).1 := by
  simp only [runVisits] at h ⊢
  rcases ha : visitStep a fs with ⟨fs1, r1⟩
  rw [ha] at h
  cases r1 with
  | some e => simp at h
  | none =>
    simp only at h ⊢
    rcases hb : visitStep b fs1 with ⟨fs2, r2⟩
    rw [hb] at h
    cases r2 with
    | some e => simp at h
    | none =>
      simp only
      have ha2 : (visitStep a fs).2 = none := by rw [ha]
      have hb2 : (visitStep b fs1).2 = none := by rw [hb]
      have h1 := Holds_of_visit ha2
      rw [ha] at h1
      have h2 := Holds_preserved h1 hb2 hne
      have h3 := Holds_of_visit hb2
      rw [hb] at h2 h3
      exact ⟨h2, h3⟩

/-- After a run without error the state holds both files of the table. -/
theorem generateSitemaps_ok_holds {outputDir host : String} {tIndex tSet : Time} {ord : RangeOrder}
    {fs : FS} (h : (generateSitemaps outputDir host tIndex tSet ord fs).2 = none) :
    Holds (indexVisit outputDir host tIndex) (generateSitemaps outputDir host tIndex tSet ord fs).1 ∧
    Holds (urlsetVisit outputDir host tSet) (generateSitemaps outputDir host tIndex tSet ord fs).1 := by
  rw [generateSitemaps_eq] at h ⊢
  rcases visits_cases outputDir host tIndex tSet ord with hv | hv
  · rw [hv] at h ⊢
    exact runVisits_two_ok h (entry_keys_ne outputDir)
  · rw [hv] at h ⊢
    exact (runVisits_two_ok h (entry_keys_ne outputDir).symm).symm

/-- The entries of the literal table. -/
theorem sitemapData_entries {host : String} {tIndex tSet : Time} {domain filename : String}
    {files : List (String × Document)} {doc : Document}
    (hd : (domain, files) ∈ sitemapData host tIndex tSet) (hf : (filename, doc) ∈ files) :
    domain = "crunchyroll" ∧
      ((filename = "sitemap.xml" ∧ doc = indexDocument host tIndex) ∨
       (filename = "series/S.xml" ∧ doc = urlsetDocument host tSet)) := by
  simp only [sitemapData, List.mem_singleton, Prod.mk.injEq] at hd
  obtain ⟨rfl, rfl⟩ := hd
  simp only [List.mem_cons, Prod.mk.injEq, List.mem_singleton, List.not_mem_nil, or_false] at hf
  refine ⟨rfl, ?_⟩
  rcases hf with ⟨rfl, rfl⟩ | ⟨rfl, rfl⟩
  · left; exact ⟨rfl, rfl⟩
  · right; exact ⟨rfl, rfl⟩


/-! ## A run that fails -/

theorem runVisits_stop {vs pre post : List Visit} {v : Visit} {fs fs1 : FS}
    (hvs : vs = pre ++ v :: post) (hpre : runVisits pre fs = (fs1, none))
    (hv : (visitStep v fs1).2 ≠ none) : runVisits vs fs = visitStep v fs1 := by
  subst hvs
  rw [runVisits_append, hpre]
  simp only [runVisits]
  rcases hs : visitStep v fs1 with ⟨fs2, r⟩
  rw [hs] at hv
  cases r with
  | some e => rfl
  | none => exact absurd rfl hv

theorem runVisits_err_split (vs : List Visit) : ∀ (fs : FS), (runVisits vs fs).2 ≠ none →
    ∃ pre v post fs1, vs = pre ++ v :: post ∧ runVisits pre fs = (fs1, none) ∧
      (visitStep v fs1).2 ≠ none := by
  induction vs with
  | nil => intro fs h; simp [runVisits] at h
  | cons v rest ih =>
    intro fs h
    simp only [runVisits] at h
    rcases hs : visitStep v fs with ⟨fs1, r⟩
    rw [hs] at h
    cases r with
    | some e => exact ⟨[], v, rest, fs, rfl, rfl, by rw [hs]; simp⟩
    | none =>
      simp only at h
      obtain ⟨pre, w, post, fs2, h1, h2, h3⟩ := ih fs1 h
      refine ⟨v :: pre, w, post, fs2, by rw [h1]; rfl, ?_, h3⟩
      simp only [runVisits, hs, h2]

/-- A run reports an error exactly when some visit fails after those before it
succeeded. -/
theorem runVisits_err_iff (vs : List Visit) (fs : FS) :
    (runVisits vs fs).2 ≠ none ↔
      ∃ pre v post fs1, vs = pre ++ v :: post ∧ runVisits pre fs = (fs1, none) ∧
        (visitStep v fs1).2 ≠ none := by
  constructor
  · exact runVisits_err_split vs fs
  · rintro ⟨pre, v, post, fs1, h1, h2, h3⟩
    rw [runVisits_stop h1 h2 h3]
    exact h3

theorem Holds.stat {v : Visit} {fs : FS} (h : Holds v fs) :
    fs.stat (pathKey v.filePath) = .ok (.file (documentText v.content)) := by
  obtain ⟨⟨_, _, _, c, p, old, h4, h5, h6, _⟩, h8⟩ := h
  rw [h4] at h8 ⊢
  exact stat_cons_of h6 h5 h8

theorem readFile_of_stat {fs : FS} {path text : String}
    (h : fs.stat (pathKey path) = .ok (.file text)) : fs.readFile path = some text := by
  simp [FS.readFile, h]

/-- The visits before a failing one, in this table: none or one, and its file
is still there after the failure. -/
theorem earlier_files_remain {outputDir host : String} {tIndex tSet : Time} {ord : RangeOrder}
    {pre post : List Visit} {v : Visit} {fs fs1 : FS}
    (hvs : visits outputDir host tIndex tSet ord = pre ++ v :: post)
    (hpre : runVisits pre fs = (fs1, none)) (hv : (visitStep v fs1).2 ≠ none) :
    ∀ u ∈ pre, (visitStep v fs1).1.readFile u.filePath = some (documentText u.content) := by
  intro u hu
  have hlen : pre.length + 1 + post.length = 2 := by
    have := congrArg List.length hvs
    rcases visits_cases outputDir host tIndex tSet ord with e | e <;> rw [e] at this <;>
      simp at this <;> omega
  match pre, hu, hpre, hlen with
  | [w], hu, hpre, _ =>
    simp only [List.mem_singleton] at hu
    subst hu
    simp only [runVisits] at hpre
    rcases hs : visitStep u fs with ⟨fs2, r⟩
    rw [hs] at hpre
    cases r with
    | some e => simp at hpre
    | none =>
      simp only [Prod.mk.injEq, and_true] at hpre
      subst hpre
      have hs2 : (visitStep u fs).2 = none := by rw [hs]
      have hh := Holds_of_visit hs2
      rw [hs] at hh
      exact readFile_of_stat (visitStep_fail_preserves hv _ _ hh.stat)
  | _ :: _ :: _, _, _, hlen => simp at hlen; omega


/-! ## A file in the way of the output directory -/

theorem parentDir_index_sitemaps :
    Dir (entryPath "sitemaps" "crunchyroll" "sitemap.xml") = "sitemaps/crunchyroll" := by decide

theorem parentDir_urlset_sitemaps :
    Dir (entryPath "sitemaps" "crunchyroll" "series/S.xml") = "sitemaps/crunchyroll/series" := by decide

/-- When a regular file stands at `sitemaps`, neither parent directory can be
created. -/
theorem MkdirAll_under_file {fs : FS} {c : String} (h : fs ["sitemaps"] = some (.file c)) :
    (MkdirAll "sitemaps/crunchyroll" fs).2 ≠ none ∧
    (MkdirAll "sitemaps/crunchyroll/series" fs).2 ≠ none := by
  have k1 : pathKey "sitemaps/crunchyroll" = ["crunchyroll", "sitemaps"] := by decide
  have k2 : pathKey "sitemaps/crunchyroll/series" = ["series", "crunchyroll", "sitemaps"] := by decide
  have f1 : isFixedDir "sitemaps" = false := by decide
  have s0 : fs.stat ["sitemaps"] = .ok (.file c) := stat_cons_of (by simp [FS.stat]) f1 h
  have s1 : fs.stat ["crunchyroll", "sitemaps"] = .error .ENOTDIR := by
    conv_lhs => unfold FS.stat
    simp [s0]
  have s2 : fs.stat ["series", "crunchyroll", "sitemaps"] = .error .ENOTDIR := by
    conv_lhs => unfold FS.stat
    simp [s1]
  have m0 : mkdirAllKey ["sitemaps"] fs = (fs, some ⟨"mkdir", keyPath ["sitemaps"], .ENOTDIR⟩) := by
    conv_lhs => unfold mkdirAllKey
    simp [s0]
  have m1 : mkdirAllKey ["crunchyroll", "sitemaps"] fs
      = (fs, some ⟨"mkdir", keyPath ["sitemaps"], .ENOTDIR⟩) := by
    conv_lhs => unfold mkdirAllKey
    simp [s1, m0]
  have m2 : mkdirAllKey ["series", "crunchyroll", "sitemaps"] fs
      = (fs, some ⟨"mkdir", keyPath ["sitemaps"], .ENOTDIR⟩) := by
    conv_lhs => unfold mkdirAllKey
    simp [s2, m1]
  constructor
  · simp [MkdirAll, k1, m1]
  · simp [MkdirAll, k2, m2]

/-- When a regular file stands at `sitemaps`, generation into `sitemaps`
returns an error. -/
theorem generateSitemaps_under_file {fs : FS} {c : String} (h : fs ["sitemaps"] = some (.file c))
    (host : String) (tIndex tSet : Time) (ord : RangeOrder) :
    (generateSitemaps "sitemaps" host tIndex tSet ord fs).2 ≠ none := by
  obtain ⟨h1, h2⟩ := MkdirAll_under_file h
  rw [generateSitemaps_eq, runVisits_err_iff]
  rcases visits_cases "sitemaps" host tIndex tSet ord with e | e
  · refine ⟨[], _, _, fs, e, rfl, (visitStep_err_iff _ _).mpr (Or.inl ?_)⟩
    simp only [indexVisit, parentDir_index_sitemaps]
    exact h1
  · refine ⟨[], _, _, fs, e, rfl, (visitStep_err_iff _ _).mpr (Or.inl ?_)⟩
    simp only [urlsetVisit, parentDir_urlset_sitemaps]
    exact h2

theorem Sprintf_failed (e : String) :
    Sprintf "Failed to generate sitemaps: %v\n" [e] = "Failed to generate sitemaps: " ++ e ++ "\n" := by
  apply String.ext
  simp [Sprintf, sprintfRunes, String.data_append]


/-! ## Dates -/

/-- The characters of a formatted date: decimal digits and `-`. -/
theorem digitChar_mem (k : Nat) (h : k < 10) :
    Nat.digitChar k ∈ ['0', '1', '2', '3', '4', '5', '6', '7', '8', '9'] := by
  interval_cases k <;> decide

theorem toDigitsCore_mem (fuel : Nat) : ∀ (n : Nat) (ds : List Char) (c : Char),
    c ∈ Nat.toDigitsCore 10 fuel n ds →
      c ∈ ds ∨ c ∈ ['0', '1', '2', '3', '4', '5', '6', '7', '8', '9'] := by
  induction fuel with
  | zero => intro n ds c h; left; simpa [Nat.toDigitsCore] using h
  | succ fuel ih =>
    intro n ds c h
    simp only [Nat.toDigitsCore] at h
    split at h
    · rcases List.mem_cons.mp h with rfl | h
      · right; exact digitChar_mem _ (Nat.mod_lt _ (by decide))
      · left; exact h
    · rcases ih _ _ _ h with h | h
      · rcases List.mem_cons.mp h with rfl | h
        · right; exact digitChar_mem _ (Nat.mod_lt _ (by decide))
        · left; exact h
      · right; exact h

theorem appendInt_mem (n width : Nat) (c : Char) (h : c ∈ (appendInt n width).data) :
    c ∈ ['0', '1', '2', '3', '4', '5', '6', '7', '8', '9'] := by
  simp only [appendInt, String.data_append, List.mem_append, List.mem_replicate] at h
  rcases h with ⟨_, rfl⟩ | h
  · decide
  · have : (toString n).data = Nat.toDigitsCore 10 (n + 1) n [] := rfl
    rw [this] at h
    rcases toDigitsCore_mem _ _ _ _ h with h | h
    · simp at h
    · exact h

theorem Format_mem (t : Time) (c : Char) (h : c ∈ t.Format.data) :
    c ∈ ['0', '1', '2', '3', '4', '5', '6', '7', '8', '9', '-'] := by
  simp only [Time.Format, String.data_append, List.mem_append] at h
  have hd : ∀ c, c ∈ ['0', '1', '2', '3', '4', '5', '6', '7', '8', '9'] →
      c ∈ ['0', '1', '2', '3', '4', '5', '6', '7', '8', '9', '-'] := by
    intro c hc
    simp only [List.mem_cons, List.mem_singleton, List.not_mem_nil, or_false] at hc ⊢
    tauto
  rcases h with (((h | h) | h) | h) | h
  · exact hd c (appendInt_mem _ _ c h)
  · have : c = '-' := by simpa using h
    subst this; decide
  · exact hd c (appendInt_mem _ _ c h)
  · have : c = '-' := by simpa using h
    subst this; decide
  · exact hd c (appendInt_mem _ _ c h)

theorem escapeRunes_of_plain (cs : List Char) (h : ∀ c ∈ cs, escapeRune c = [c]) :
    escapeRunes cs = cs := by
  induction cs with
  | nil => rfl
  | cons c cs ih =>
    simp only [escapeRunes, h c (List.mem_cons_self _ _), List.singleton_append]
    rw [ih (fun x hx => h x (List.mem_cons_of_mem _ hx))]

/-- A formatted date is written as it is: no character of it is escaped. -/
theorem escapeText_Format (t : Time) : escapeText t.Format = t.Format := by
  unfold escapeText
  rw [escapeRunes_of_plain]
  intro c hc
  have := Format_mem t c hc
  revert c
  have : ∀ c ∈ ['0', '1', '2', '3', '4', '5', '6', '7', '8', '9', '-'], escapeRune c = [c] := by decide
  intro c _ hc
  exact this c hc

theorem Format_ne_empty (t : Time) : t.Format.length ≠ 0 := by
  simp only [Time.Format, String.length_append]
  have : "-".length = 1 := rfl
  omega


/-! ## A second run -/

/-- Two visits of different files in a state that is ready for both: both
succeed, and only the two files are rewritten. -/
theorem runVisits_two_ready {a b : Visit} {fs : FS}
    (ha : Ready a.parentDir a.filePath fs) (hb : Ready b.parentDir b.filePath fs)
    (hne : pathKey a.filePath ≠ pathKey b.filePath) :
    runVisits [a, b] fs
      = ((fs.set (pathKey a.filePath) (.file (documentText a.content))).set
          (pathKey b.filePath) (.file (documentText b.content)), none) := by
  have hb2 := Ready_set (documentText a.content) hb (Ready_not_dir ha) hne.symm
  simp only [runVisits, visitStep_of_ready ha, visitStep_of_ready hb2]

theorem set_comm {fs : FS} {j k : List String} (x y : Node) (h : j ≠ k) :
    (fs.set j x).set k y = (fs.set k y).set j x := by
  funext i
  unfold FS.set
  by_cases h1 : i = j
  · subst h1
    simp [h]
  · by_cases h2 : i = k
    · subst h2
      simp [h1]
    · simp [h1, h2]

/-- A second run in a state that holds both files (written for any dates)
succeeds and only rewrites the two files. -/
theorem generateSitemaps_again {outputDir host : String} {t1 t2 : Time} {fs : FS}
    (h1 : Holds (indexVisit outputDir host t1) fs) (h2 : Holds (urlsetVisit outputDir host t2) fs)
    (tIndex tSet : Time) (ord : RangeOrder) :
    generateSitemaps outputDir host tIndex tSet ord fs
      = ((fs.set (pathKey (entryPath outputDir "crunchyroll" "sitemap.xml"))
            (.file (documentText (indexDocument host tIndex)))).set
          (pathKey (entryPath outputDir "crunchyroll" "series/S.xml"))
            (.file (documentText (urlsetDocument host tSet))), none) := by
  have r1 : Ready (indexVisit outputDir host tIndex).parentDir
      (indexVisit outputDir host tIndex).filePath fs := h1.1
  have r2 : Ready (urlsetVisit outputDir host tSet).parentDir
      (urlsetVisit outputDir host tSet).filePath fs := h2.1
  rw [generateSitemaps_eq]
  rcases visits_cases outputDir host tIndex tSet ord with e | e
  · rw [e, runVisits_two_ready r1 r2 (entry_keys_ne outputDir)]
    rfl
  · rw [e, runVisits_two_ready r2 r1 (entry_keys_ne outputDir).symm]
    simp only [indexVisit, urlsetVisit]
    rw [set_comm _ _ (entry_keys_ne outputDir).symm]

theorem set_same {fs : FS} {k : List String} {x : Node} (h : fs k = some x) : fs.set k x = fs := by
  funext i
  unfold FS.set
  by_cases hi : i = k
  · subst hi; simp [h]
  · simp [hi]

/-- The text of the sitemap index is the same for all dates, but for the
date itself. -/
theorem indexText_date (host : String) :
    ∃ pre post : String, ∀ t : Time,
      documentText (indexDocument host t) = pre ++ t.Format ++ post := by
  refine ⟨String.mk (renderPieces [(.raw "", .opening "sitemapindex"
      [("xmlns", "http://www.sitemaps.org/schemas/sitemap/0.9")]),
      (.raw "\n  ", .opening "sitemap" []), (.raw "\n    ", .opening "loc" []),
      (.escaped (Sprintf "http://%s/sitemaps/crunchyroll/series/S.xml" [host]), .closing "loc"),
      (.raw "\n    ", .opening "lastmod" [])]),
    String.mk (renderPieces [(.raw "", .closing "lastmod"), (.raw "\n  ", .closing "sitemap"),
      (.raw "\n", .closing "sitemapindex")]), ?_⟩
  intro t
  conv_rhs => rw [← escapeText_Format t]
  apply String.ext
  simp [documentText, documentPieces, indexDocument, indexPieces, sitemapPieces, leafPieces, element,
    renderPieces, Chunk.render, String.data_append, escapeText]

theorem urlsetText_date (host : String) :
    ∃ pre post : String, ∀ t : Time,
      documentText (urlsetDocument host t) = pre ++ t.Format ++ post := by
  refine ⟨String.mk (renderPieces [(.raw "", .opening "urlset"
      [("xmlns", "http://www.sitemaps.org/schemas/sitemap/0.9"),
       ("xmlns:xhtml", "http://www.w3.org/1999/xhtml")]),
      (.raw "\n  ", .opening "url" []), (.raw "\n    ", .opening "loc" []),
      (.escaped (Sprintf "http://%s/pages/crunchyroll/series/spy_x_family.html" [host]), .closing "loc"),
      (.raw "\n    ", .opening "lastmod" [])]),
    String.mk (renderPieces [(.raw "", .closing "lastmod"), (.raw "\n    ", .opening "changefreq" []),
      (.escaped "daily", .closing "changefreq"), (.raw "\n  ", .closing "url"),
      (.raw "\n", .closing "urlset")]), ?_⟩
  intro t
  conv_rhs => rw [← escapeText_Format t]
  have hl : t.Format.length ≠ 0 := Format_ne_empty t
  have h1 : "".length = 0 := rfl
  have h2 : "http://www.w3.org/1999/xhtml".length ≠ 0 := by decide
  have h3 : "daily".length ≠ 0 := by decide
  apply String.ext
  simp [documentText, documentPieces, urlsetDocument, urlsetPieces, urlsetAttrs, optAttr, urlPieces,
    leafPieces, optLeafPieces, element, renderPieces, Chunk.render, String.data_append, escapeText,
    hl, h1, h2, h3]


/-! ## URLs -/

theorem spanUntil_append (stop : List Char) (a : List Char) (c : Char) (b : List Char)
    (ha : ∀ x ∈ a, x ∉ stop) (hc : c ∈ stop) :
    spanUntil stop (a ++ c :: b) = (a, c :: b) := by
  induction a with
  | nil => simp [spanUntil, hc]
  | cons x a ih =>
    have hx : x ∉ stop := ha x (List.mem_cons_self _ _)
    have ih2 := ih (fun y hy => ha y (List.mem_cons_of_mem _ hy))
    simp [spanUntil, hx, ih2]

theorem noDelims_mem {h : String} (hh : noDelims h = true) :
    ∀ x ∈ h.data, x ∉ ['/', '?', '#'] := by
  intro x hx
  unfold noDelims at hh
  have := (List.all_eq_true.mp hh) x hx
  simp only [Bool.and_eq_true, bne_iff_ne, ne_eq] at this
  simp only [List.mem_cons, List.mem_singleton, List.not_mem_nil, or_false, not_or]
  exact ⟨this.1.1, this.1.2, this.2⟩

/-- The components of `http://<host><path>` for a host without delimiters and
a path that starts with a slash and has neither `?` nor `#`. -/
theorem splitURL_http (h path : String) (hh : noDelims h = true) (rest : List Char)
    (hp : path.data = '/' :: rest) (hr : spanUntil ['?', '#'] path.data = (path.data, [])) :
    splitURL ("http://" ++ h ++ path)
      = { scheme := some "http", authority := some h, path := path, query := none,
          fragment := none } := by
  have hd : ("http://" ++ h ++ path).data
      = 'h' :: 't' :: 't' :: 'p' :: ':' :: '/' :: '/' :: (h.data ++ '/' :: rest) := by
    simp [String.data_append, hp]
  have h0 : spanUntil [':', '/', '?', '#'] ('h' :: 't' :: 't' :: 'p' :: ':' :: '/' :: '/' :: (h.data ++ '/' :: rest))
      = (['h', 't', 't', 'p'], ':' :: '/' :: '/' :: (h.data ++ '/' :: rest)) := by
    simp [spanUntil]
  have h1 := spanUntil_append ['/', '?', '#'] h.data '/' rest (noDelims_mem hh) (by simp)
  rw [hp] at hr
  unfold splitURL
  simp only [hd, h0, List.isEmpty_cons, Bool.false_eq_true, if_false, h1, hr]
  have e : (String.mk ('/' :: rest)) = path := String.ext hp.symm
  rw [e]


/-! ## The children of the entries -/

theorem length_eq_zero_iff (s : String) : s.length = 0 ↔ s = "" := by
  constructor
  · intro h
    apply String.ext
    have : s.data.length = 0 := h
    exact List.length_eq_zero.mp this
  · rintro rfl; rfl

theorem optLeafNodes_elems (n v : String) :
    ((optLeafNodes n v).filter (fun c => c.tag?.isSome)).map XNode.tag?
      = if v = "" then [] else [some n] := by
  unfold optLeafNodes
  by_cases h : v = ""
  · simp [h]
  · have : ¬ v.length = 0 := fun e => h ((length_eq_zero_iff v).mp e)
    simp [h, this, XNode.tag?, leafNode]

/-- The child elements of a `url` element, by name and in order. -/
theorem urlNode_child_tags (u : URL) :
    (urlNode u).elems.map XNode.tag?
      = [some "loc"] ++ ((if u.LastMod = "" then [] else [some "lastmod"])
        ++ ((if u.ChangeFreq = "" then [] else [some "changefreq"])
        ++ ((if u.Priority = "" then [] else [some "priority"])
        ++ List.replicate u.XHTMLLinks.length (some "xhtml:link")))) := by
  have hl : ((u.XHTMLLinks.flatMap (fun l => [XNode.text "\n    ", linkNode l]) ++ [XNode.text "\n  "]).filter
      (fun c => c.tag?.isSome)).map XNode.tag?
      = List.replicate u.XHTMLLinks.length (some "xhtml:link") := by
    rw [elems_flatMap_text "\n    " linkNode (fun _ => rfl)]
    have : ([XNode.text "\n  "]).filter (fun c => c.tag?.isSome) = [] := by simp [XNode.tag?]
    rw [this, List.append_nil, List.map_map]
    induction u.XHTMLLinks with
    | nil => rfl
    | cons l ls ih => simp [List.replicate_succ, ih, linkNode, XNode.tag?]
  unfold urlNode XNode.elems XNode.children
  simp only [List.cons_append, List.nil_append]
  rw [List.filter_cons_of_neg (by simp [XNode.tag?]),
    List.filter_cons_of_pos (by simp [XNode.tag?, leafNode]),
    List.filter_append, List.filter_append, List.filter_append]
  simp only [List.map_cons, List.map_append, optLeafNodes_elems, hl]
  rfl

theorem noDelims_localhost (port : String) (h : noDelims port = true) :
    noDelims ("localhost:" ++ port) = true := by
  unfold noDelims at *
  simp only [String.data_append, List.all_append, h, Bool.and_true]
  decide

/-- The locations of the documents of the table. -/
theorem table_locs {host : String} {tIndex tSet : Time} {domain filename loc : String}
    {files : List (String × Document)} {doc : Document}
    (hd : (domain, files) ∈ sitemapData host tIndex tSet) (hf : (filename, doc) ∈ files)
    (hl : loc ∈ doc.locs) :
    loc = "http://" ++ host ++ "/sitemaps/crunchyroll/series/S.xml" ∨
    loc = "http://" ++ host ++ "/pages/crunchyroll/series/spy_x_family.html" := by
  obtain ⟨_, ⟨_, rfl⟩ | ⟨_, rfl⟩⟩ := sitemapData_entries hd hf
  · left
    simpa [indexDocument, Document.locs, Sprintf_index_loc] using hl
  · right
    simpa [urlsetDocument, Document.locs, Sprintf_url_loc] using hl

theorem splitURL_index_loc (host : String) (h : noDelims host = true) :
    splitURL ("http://" ++ host ++ "/sitemaps/crunchyroll/series/S.xml")
      = { scheme := some "http", authority := some host,
          path := "/sitemaps/crunchyroll/series/S.xml", query := none, fragment := none } :=
  splitURL_http host _ h "sitemaps/crunchyroll/series/S.xml".data rfl (by decide)

theorem splitURL_url_loc (host : String) (h : noDelims host = true) :
    splitURL ("http://" ++ host ++ "/pages/crunchyroll/series/spy_x_family.html")
      = { scheme := some "http", authority := some host,
          path := "/pages/crunchyroll/series/spy_x_family.html", query := none, fragment := none } :=
  splitURL_http host _ h "pages/crunchyroll/series/spy_x_family.html".data rfl (by decide)


/-! ## `filepath.Join` is associative on the paths of the loops -/

theorem dotsBelow_tail {x : String} {rest : List String} (h : dotsBelow (x :: rest)) :
    dotsBelow rest := h.2

theorem CleanInv.empty (r : Bool) : CleanInv r [] := by
  refine ⟨by simp, by simp, trivial⟩

theorem CleanInv.tail {r : Bool} {x : String} {rest : List String} (h : CleanInv r (x :: rest)) :
    CleanInv r rest :=
  ⟨fun e he => h.1 e (List.mem_cons_of_mem _ he),
   fun hr hm => h.2.1 hr (List.mem_cons_of_mem _ hm), h.2.2.2⟩

/-- One step of `filepath.Clean` keeps the stack well formed. -/
theorem CleanInv.step {r : Bool} {st : List String} (h : CleanInv r st) (p : String)
    (hp : '/' ∉ p.data) : CleanInv r (cleanStep r st p) := by
  unfold cleanStep
  split
  · exact h
  · rename_i hne
    have hne' : p ≠ "" ∧ p ≠ "." := by
      constructor
      · exact fun e => hne (Or.inl e)
      · exact fun e => hne (Or.inr e)
    split
    · rename_i hdd
      cases st with
      | nil =>
        simp only
        cases r with
        | true => simpa using CleanInv.empty true
        | false =>
          simp only [Bool.false_eq_true, if_false]
          refine ⟨?_, by simp, ?_⟩
          · intro e he
            simp only [List.mem_singleton] at he
            subst he
            decide
          · exact ⟨fun _ => by simp, trivial⟩
      | cons top rest =>
        simp only
        split
        · rename_i htop
          refine ⟨?_, ?_, ?_⟩
          · intro e he
            rcases List.mem_cons.mp he with rfl | he
            · decide
            · exact h.1 e he
          · intro hr hm
            exact h.2.1 hr (by rw [htop]; exact List.mem_cons_self _ _)
          · refine ⟨fun _ y hy => ?_, h.2.2⟩
            rcases List.mem_cons.mp hy with rfl | hy
            · exact htop
            · exact h.2.2.1 htop y hy
        · exact h.tail
    · rename_i hdd
      refine ⟨?_, ?_, ?_⟩
      · intro e he
        rcases List.mem_cons.mp he with rfl | he
        · exact ⟨hne'.1, hne'.2, hp⟩
        · exact h.1 e he
      · intro hr hm
        rcases List.mem_cons.mp hm with e | hm
        · exact hdd e.symm
        · exact h.2.1 hr hm
      · exact ⟨fun e => absurd e hdd, h.2.2⟩

theorem CleanInv.foldl {r : Bool} (ps : List String) : ∀ (st : List String), CleanInv r st →
    (∀ p ∈ ps, '/' ∉ p.data) → CleanInv r (ps.foldl (cleanStep r) st) := by
  induction ps with
  | nil => intro st h _; exact h
  | cons p ps ih =>
    intro st h hp
    exact ih _ (h.step p (hp p (List.mem_cons_self _ _)))
      (fun q hq => hp q (List.mem_cons_of_mem _ hq))

/-- A decimal port has none of the characters that end the authority. -/
theorem noDelims_of_digits (port : String) (h : port.data.all Char.isDigit = true) :
    noDelims port = true := by
  unfold noDelims
  rw [List.all_eq_true] at h ⊢
  intro c hc
  have hd := h c hc
  have h1 : c ≠ '/' := by rintro rfl; exact absurd hd (by decide)
  have h2 : c ≠ '?' := by rintro rfl; exact absurd hd (by decide)
  have h3 : c ≠ '#' := by rintro rfl; exact absurd hd (by decide)
  simp [h1, h2, h3]


/-! ## The claims -/

/-- C1. For every host, the document built for `crunchyroll/sitemap.xml` is a
sitemap index with exactly one entry, whose `loc` is `http://` followed by the
host and `/sitemaps/crunchyroll/series/S.xml`; for the host `localhost:8080`
the text written for it reads back with exactly that `loc`. -/
theorem C1_index_has_one_sitemap_entry (h : String) (tIndex tSet : Time) :
    (∃ idx : SitemapIndex,
      lookupDocument (sitemapData h tIndex tSet) "crunchyroll" "sitemap.xml" = some (.index idx)
      ∧ idx.Sitemaps.length = 1
      ∧ idx.Sitemaps.map Sitemap.Loc = ["http://" ++ h ++ "/sitemaps/crunchyroll/series/S.xml"])
    ∧ (∃ doc text root,
      lookupDocument (sitemapData "localhost:8080" tIndex tSet) "crunchyroll" "sitemap.xml" = some doc
      ∧ Encode doc = .ok text ∧ parseXML text = some root
      ∧ sitemapLocs root = ["http://localhost:8080/sitemaps/crunchyroll/series/S.xml"]) := by
  refine ⟨⟨_, rfl, rfl, ?_⟩, ?_⟩
  · simp [Sprintf_index_loc]
  · refine ⟨_, _, _, rfl, Encode_ok _, parseXML_document _, ?_⟩
    simp only [documentTree, sitemapLocs_indexTree, List.map_cons, List.map_nil]
    have hs : xmlSafe (Sprintf "http://%s/sitemaps/crunchyroll/series/S.xml" ["localhost:8080"]) = true := by
      decide
    rw [sanitize_of_safe hs]
    decide

/-- C4. `generateSitemaps` runs its visits in order (`visits`, `runVisits`).
It returns an error exactly when, after the visits before it succeeded, some
visit fails to create its parent directory or to write its file. At that
visit the function returns at once: its result is the state left by that
visit's `MkdirAll` (which only adds directories to the state the earlier
visits left, so that no later entry is created or written) together with the
message `failed to create directory <parentDir>: <cause>` or
`failed to write file <filePath>: <cause>`; and the file of every earlier
visit is still there with the text that was encoded for it. -/
theorem C4_first_error_aborts (outputDir host : String) (tIndex tSet : Time) (ord : RangeOrder)
    (fs : FS) :
    generateSitemaps outputDir host tIndex tSet ord fs
      = runVisits (visits outputDir host tIndex tSet ord) fs
    ∧ ((generateSitemaps outputDir host tIndex tSet ord fs).2 ≠ none ↔
      ∃ pre v post fs1, visits outputDir host tIndex tSet ord = pre ++ v :: post ∧
        runVisits pre fs = (fs1, none) ∧
        ((MkdirAll v.parentDir fs1).2 ≠ none ∨
          (writeXMLFile v.filePath v.content (MkdirAll v.parentDir fs1).1).2 ≠ none))
    ∧ (∀ pre v post fs1, visits outputDir host tIndex tSet ord = pre ++ v :: post →
        runVisits pre fs = (fs1, none) →
        (∀ e, (MkdirAll v.parentDir fs1).2 = some e →
          generateSitemaps outputDir host tIndex tSet ord fs
            = ((MkdirAll v.parentDir fs1).1,
               some ("failed to create directory " ++ v.parentDir ++ ": " ++ e.Error)))
        ∧ (∀ e, (MkdirAll v.parentDir fs1).2 = none →
          (writeXMLFile v.filePath v.content (MkdirAll v.parentDir fs1).1).2 = some e →
          generateSitemaps outputDir host tIndex tSet ord fs
            = ((MkdirAll v.parentDir fs1).1,
               some ("failed to write file " ++ v.filePath ++ ": " ++ e)))
        ∧ Extends fs1 (MkdirAll v.parentDir fs1).1
        ∧ (((MkdirAll v.parentDir fs1).2 ≠ none ∨
            (writeXMLFile v.filePath v.content (MkdirAll v.parentDir fs1).1).2 ≠ none) →
          ∀ u ∈ pre, ∃ text, Encode u.content = .ok text ∧
            (generateSitemaps outputDir host tIndex tSet ord fs).1.readFile u.filePath
              = some text)) := by
  refine ⟨generateSitemaps_eq _ _ _ _ _ _, ?_, ?_⟩
  · rw [generateSitemaps_eq, runVisits_err_iff]
    constructor
    · rintro ⟨pre, v, post, fs1, h1, h2, h3⟩
      exact ⟨pre, v, post, fs1, h1, h2, (visitStep_err_iff v fs1).mp h3⟩
    · rintro ⟨pre, v, post, fs1, h1, h2, h3⟩
      exact ⟨pre, v, post, fs1, h1, h2, (visitStep_err_iff v fs1).mpr h3⟩
  · intro pre v post fs1 hvs hpre
    refine ⟨?_, ?_, (MkdirAll_spec v.parentDir fs1).1, ?_⟩
    · intro e he
      have hv : (visitStep v fs1).2 ≠ none := (visitStep_err_iff v fs1).mpr (Or.inl (by rw [he]; simp))
      rw [generateSitemaps_eq, runVisits_stop hvs hpre hv, visitStep_mkdir_err he]
    · intro e hm he
      have hv : (visitStep v fs1).2 ≠ none := (visitStep_err_iff v fs1).mpr (Or.inr (by rw [he]; simp))
      rw [generateSitemaps_eq, runVisits_stop hvs hpre hv, visitStep_write_err hm he]
    · intro hfail u hu
      have hv : (visitStep v fs1).2 ≠ none := (visitStep_err_iff v fs1).mpr hfail
      refine ⟨_, Encode_ok _, ?_⟩
      rw [generateSitemaps_eq, runVisits_stop hvs hpre hv]
      exact earlier_files_remain hvs hpre hv u hu

set_option maxRecDepth 100000 in
/-- C4 at a concrete input: when a regular file stands at `sitemaps`, the
first visit cannot create its parent directory, and the function returns the
wrapped error without visiting the second entry. -/
theorem C4_first_error_aborts_witness :
    (generateSitemaps "sitemaps" "localhost:8080" ⟨2026, 11, 2⟩ ⟨2026, 11, 2⟩ {} fileAtSitemaps).2
      = some "failed to create directory sitemaps/crunchyroll: mkdir sitemaps: not a directory" := by
  have h := ((C4_first_error_aborts "sitemaps" "localhost:8080" ⟨2026, 11, 2⟩ ⟨2026, 11, 2⟩ {}
    fileAtSitemaps).2.2 [] (indexVisit "sitemaps" "localhost:8080" ⟨2026, 11, 2⟩)
    [urlsetVisit "sitemaps" "localhost:8080" ⟨2026, 11, 2⟩] fileAtSitemaps (by decide) rfl).1
    ⟨"mkdir", "sitemaps", .ENOTDIR⟩ (by decide)
  rw [h]
  decide

/-- C5. In every run of `main`: a `ListenAndServe` step occurs only when the
configuration was loaded and `generateSitemaps` returned no error, and then it
comes after the generation step; when `generateSitemaps` returns an error,
`main` prints `Failed to generate sitemaps: <error>` and returns, with no
`ListenAndServe` step; and when a regular file stands at `sitemaps`,
generation does return an error, so that the server is not started. -/
theorem C5_server_starts_only_after_generation (env : Env) (tIndex tSet : Time) (ord : RangeOrder)
    (fs : FS) :
    (∀ addr routes, Event.listenAndServe addr routes ∈ (main env tIndex tSet ord fs).2 →
      env.loadErr = none
      ∧ (generateSitemaps "sitemaps" ("localhost:" ++ env.SERVER_PORT) tIndex tSet ord fs).2 = none
      ∧ (main env tIndex tSet ord fs).2
          = [Event.generated "sitemaps" ("localhost:" ++ env.SERVER_PORT) none,
             Event.stdout ("Server running at " ++ env.SERVER_PORT ++ "\n"),
             Event.listenAndServe addr routes])
    ∧ (∀ e, env.loadErr = none →
      (generateSitemaps "sitemaps" ("localhost:" ++ env.SERVER_PORT) tIndex tSet ord fs).2 = some e →
      (main env tIndex tSet ord fs).2
        = [Event.generated "sitemaps" ("localhost:" ++ env.SERVER_PORT) (some e),
           Event.stdout ("Failed to generate sitemaps: " ++ e ++ "\n")])
    ∧ (∀ c, fs ["sitemaps"] = some (.file c) →
      (generateSitemaps "sitemaps" ("localhost:" ++ env.SERVER_PORT) tIndex tSet ord fs).2 ≠ none
      ∧ ∀ addr routes, Event.listenAndServe addr routes ∉ (main env tIndex tSet ord fs).2) := by
  have hmain : ∀ addr routes, Event.listenAndServe addr routes ∈ (main env tIndex tSet ord fs).2 →
      env.loadErr = none
      ∧ (generateSitemaps "sitemaps" ("localhost:" ++ env.SERVER_PORT) tIndex tSet ord fs).2 = none
      ∧ (main env tIndex tSet ord fs).2
          = [Event.generated "sitemaps" ("localhost:" ++ env.SERVER_PORT) none,
             Event.stdout ("Server running at " ++ env.SERVER_PORT ++ "\n"),
             Event.listenAndServe addr routes] := by
    intro addr routes hmem
    unfold main at hmem ⊢
    cases hl : env.loadErr with
    | some x => simp [hl] at hmem
    | none =>
      simp only [hl] at hmem ⊢
      rcases hg : generateSitemaps "sitemaps" ("localhost:" ++ env.SERVER_PORT) tIndex tSet ord fs
        with ⟨fs1, r⟩
      rw [hg] at hmem
      cases r with
      | some e => simp at hmem
      | none =>
        simp only [List.mem_cons, List.mem_singleton, List.not_mem_nil, or_false,
          reduceCtorEq, false_or, Event.listenAndServe.injEq] at hmem
        obtain ⟨rfl, rfl⟩ := hmem
        exact ⟨trivial, rfl, rfl⟩
  refine ⟨hmain, ?_, ?_⟩
  · intro e hl hg
    unfold main
    rcases hg2 : generateSitemaps "sitemaps" ("localhost:" ++ env.SERVER_PORT) tIndex tSet ord fs
      with ⟨fs1, r⟩
    rw [hg2] at hg
    simp only at hg
    subst hg
    simp [hl, Sprintf_failed, hg2]
  · intro c hc
    have hfail := generateSitemaps_under_file hc ("localhost:" ++ env.SERVER_PORT) tIndex tSet ord
    refine ⟨hfail, ?_⟩
    intro addr routes hmem
    exact hfail (hmain addr routes hmem).2.1


set_option maxRecDepth 100000 in
/-- C5 at a concrete input: when a regular file stands at `sitemaps`, `main`
reports the failure and does not start the server. -/
theorem C5_server_starts_only_after_generation_witness :
    (main { loadErr := none, SERVER_PORT := "8080" } ⟨2026, 11, 2⟩ ⟨2026, 11, 2⟩ {} fileAtSitemaps).2
      = [Event.generated "sitemaps" ("localhost:" ++ "8080")
           (some "failed to create directory sitemaps/crunchyroll: mkdir sitemaps: not a directory"),
         Event.stdout ("Failed to generate sitemaps: "
           ++ "failed to create directory sitemaps/crunchyroll: mkdir sitemaps: not a directory"
           ++ "\n")]
    ∧ ∀ addr routes, Event.listenAndServe addr routes
        ∉ (main { loadErr := none, SERVER_PORT := "8080" } ⟨2026, 11, 2⟩ ⟨2026, 11, 2⟩ {}
            fileAtSitemaps).2 :=
  ⟨(C5_server_starts_only_after_generation { loadErr := none, SERVER_PORT := "8080" } ⟨2026, 11, 2⟩
      ⟨2026, 11, 2⟩ {} fileAtSitemaps).2.1 _ rfl (by decide),
   ((C5_server_starts_only_after_generation { loadErr := none, SERVER_PORT := "8080" } ⟨2026, 11, 2⟩
      ⟨2026, 11, 2⟩ {} fileAtSitemaps).2.2 "not a directory" rfl).2⟩

/-- C6. When `generateSitemaps` has succeeded, a second run with the same
output directory and host on the filesystem it left succeeds too, whatever
the order of either run and whatever the dates. After it each generated file
holds the document encoded with the second run's date; the text of each
document is the same for all dates but for the formatted date itself, so the
files of the two runs differ in the `lastmod` dates only; when the formatted
dates are the same, the second run leaves the filesystem exactly as the first
run left it; and in any case nothing but the two files is changed. -/
theorem C6_second_run_succeeds_same_output (outputDir host : String) (tIndex tSet : Time)
    (ord : RangeOrder) (fs : FS)
    (h : (generateSitemaps outputDir host tIndex tSet ord fs).2 = none)
    (tIndex2 tSet2 : Time) (ord2 : RangeOrder) :
    (generateSitemaps outputDir host tIndex2 tSet2 ord2
        (generateSitemaps outputDir host tIndex tSet ord fs).1).2 = none
    ∧ (generateSitemaps outputDir host tIndex tSet ord fs).1.readFile
        (entryPath outputDir "crunchyroll" "sitemap.xml")
        = some (documentText (indexDocument host tIndex))
    ∧ (generateSitemaps outputDir host tIndex tSet ord fs).1.readFile
        (entryPath outputDir "crunchyroll" "series/S.xml")
        = some (documentText (urlsetDocument host tSet))
    ∧ (generateSitemaps outputDir host tIndex2 tSet2 ord2
        (generateSitemaps outputDir host tIndex tSet ord fs).1).1.readFile
        (entryPath outputDir "crunchyroll" "sitemap.xml")
        = some (documentText (indexDocument host tIndex2))
    ∧ (generateSitemaps outputDir host tIndex2 tSet2 ord2
        (generateSitemaps outputDir host tIndex tSet ord fs).1).1.readFile
        (entryPath outputDir "crunchyroll" "series/S.xml")
        = some (documentText (urlsetDocument host tSet2))
    ∧ (∃ pre post : String, ∀ t : Time,
        documentText (indexDocument host t) = pre ++ t.Format ++ post)
    ∧ (∃ pre post : String, ∀ t : Time,
        documentText (urlsetDocument host t) = pre ++ t.Format ++ post)
    ∧ (tIndex2.Format = tIndex.Format → tSet2.Format = tSet.Format →
        (generateSitemaps outputDir host tIndex2 tSet2 ord2
          (generateSitemaps outputDir host tIndex tSet ord fs).1).1
        = (generateSitemaps outputDir host tIndex tSet ord fs).1)
    ∧ (∀ k, k ≠ pathKey (entryPath outputDir "crunchyroll" "sitemap.xml") →
        k ≠ pathKey (entryPath outputDir "crunchyroll" "series/S.xml") →
        (generateSitemaps outputDir host tIndex2 tSet2 ord2
          (generateSitemaps outputDir host tIndex tSet ord fs).1).1 k
        = (generateSitemaps outputDir host tIndex tSet ord fs).1 k) := by
  obtain ⟨h1, h2⟩ := generateSitemaps_ok_holds h
  have hrun := generateSitemaps_again h1 h2 tIndex2 tSet2 ord2
  have hok2 : (generateSitemaps outputDir host tIndex2 tSet2 ord2
      (generateSitemaps outputDir host tIndex tSet ord fs).1).2 = none := by rw [hrun]
  obtain ⟨g1, g2⟩ := generateSitemaps_ok_holds hok2
  refine ⟨hok2, h1.readFile, h2.readFile, g1.readFile, g2.readFile, indexText_date host,
    urlsetText_date host, ?_, ?_⟩
  · intro e1 e2
    obtain ⟨p1, q1, hp1⟩ := indexText_date host
    obtain ⟨p2, q2, hp2⟩ := urlsetText_date host
    have d1 : documentText (indexDocument host tIndex2) = documentText (indexDocument host tIndex) := by
      rw [hp1, hp1, e1]
    have d2 : documentText (urlsetDocument host tSet2) = documentText (urlsetDocument host tSet) := by
      rw [hp2, hp2, e2]
    rw [hrun, d1, d2]
    simp only
    have k1 : (generateSitemaps outputDir host tIndex tSet ord fs).1
        (pathKey (entryPath outputDir "crunchyroll" "sitemap.xml"))
        = some (.file (documentText (indexDocument host tIndex))) := h1.2
    have k2 : (generateSitemaps outputDir host tIndex tSet ord fs).1
        (pathKey (entryPath outputDir "crunchyroll" "series/S.xml"))
        = some (.file (documentText (urlsetDocument host tSet))) := h2.2
    rw [set_same k1, set_same k2]
  · intro k hk1 hk2
    rw [hrun]
    simp only
    rw [lookup_set_ne _ hk2, lookup_set_ne _ hk1]

set_option maxRecDepth 100000 in
/-- C6 at a concrete input: a first run on the empty filesystem, then a second
run on the next day, in the other order. -/
theorem C6_second_run_succeeds_same_output_witness :
    (generateSitemaps "sitemaps" "localhost:8080" ⟨2026, 11, 2⟩ ⟨2026, 11, 2⟩ {} emptyFS).2 = none
    ∧ (generateSitemaps "sitemaps" "localhost:8080" ⟨2026, 11, 3⟩ ⟨2026, 11, 3⟩
        { inner := fun _ => 1 }
        (generateSitemaps "sitemaps" "localhost:8080" ⟨2026, 11, 2⟩ ⟨2026, 11, 2⟩ {} emptyFS).1).2
      = none :=
  ⟨by decide,
   (C6_second_run_succeeds_same_output "sitemaps" "localhost:8080" ⟨2026, 11, 2⟩ ⟨2026, 11, 2⟩ {}
      emptyFS (by decide) ⟨2026, 11, 3⟩ ⟨2026, 11, 3⟩ { inner := fun _ => 1 }).1⟩


/-- C7. For every `URLSet`, the text written reads back as a tree whose
child elements are one `url` element per entry, in order, and the child
elements of each are: `loc`; `lastmod` exactly when `LastMod` is not empty;
`changefreq` exactly when `ChangeFreq` is not empty; `priority` exactly when
`Priority` is not empty; and one `xhtml:link` per element of `XHTMLLinks`;
nothing else. The generated `series/S.xml` has `loc`, `lastmod` and
`changefreq`, and neither `priority` nor `xhtml:link`. -/
theorem C7_optional_fields_omitted_when_empty (v : URLSet) :
    (∃ text root, Encode (.urlset v) = .ok text ∧ parseXML text = some root
      ∧ root.elems.map (fun e => (e.tag?, e.elems.map XNode.tag?))
        = v.URLs.map (fun u => (some "url",
            [some "loc"] ++ ((if u.LastMod = "" then [] else [some "lastmod"])
              ++ ((if u.ChangeFreq = "" then [] else [some "changefreq"])
              ++ ((if u.Priority = "" then [] else [some "priority"])
              ++ List.replicate u.XHTMLLinks.length (some "xhtml:link")))))))
    ∧ (∀ (host : String) (tIndex tSet : Time), ∃ doc text root,
        lookupDocument (sitemapData host tIndex tSet) "crunchyroll" "series/S.xml" = some doc
        ∧ Encode doc = .ok text ∧ parseXML text = some root
        ∧ root.elems.map (fun e => (e.tag?, e.elems.map XNode.tag?))
          = [(some "url", [some "loc", some "lastmod", some "changefreq"])]) := by
  constructor
  · refine ⟨_, _, Encode_ok _, parseXML_document _, ?_⟩
    simp only [documentTree, elems_urlsetTree, List.map_map]
    apply List.map_congr_left
    intro u _
    simp only [Function.comp, urlNode_child_tags]
    rfl
  · intro host tIndex tSet
    refine ⟨_, _, _, rfl, Encode_ok _, parseXML_document _, ?_⟩
    have hf : tSet.Format ≠ "" := fun e => Format_ne_empty tSet ((length_eq_zero_iff _).mpr e)
    simp only [documentTree, elems_urlsetTree, List.map_map, List.map_cons, List.map_nil,
      Function.comp, urlNode_child_tags, hf, if_false]
    simp [urlNode, XNode.tag?]

/-- C9, as stated, fails: with `SERVER_PORT` set to `1/2` the host is
`localhost:1/2`, and the authority of the sitemap location is `localhost:1`,
not the configured host. -/
theorem C9_authority_differs_from_host :
    ∃ loc ∈ (indexDocument ("localhost:" ++ "1/2") ⟨2026, 11, 2⟩).locs,
      (splitURL loc).authority = some "localhost:1"
      ∧ (splitURL loc).authority ≠ some ("localhost:" ++ "1/2") := by
  refine ⟨_, List.mem_cons_self _ _, ?_, ?_⟩ <;> decide

/-- C9, amended. For every host string that has none of the characters `/`,
`?` and `#` (the host `localhost:` followed by `SERVER_PORT` is one whenever
`SERVER_PORT` has none of them, the empty string included), every location of
the generated documents splits, by the generic URI syntax, into the scheme
`http`, the host as its authority, a path that starts with `/`, and neither
query nor fragment. -/
theorem C9_locations_are_absolute_urls (host : String) (tIndex tSet : Time)
    (hh : noDelims host = true) :
    (∀ domain files filename doc loc,
      (domain, files) ∈ sitemapData host tIndex tSet → (filename, doc) ∈ files → loc ∈ doc.locs →
      (splitURL loc).scheme = some "http" ∧ (splitURL loc).authority = some host
      ∧ (splitURL loc).path.data.head? = some '/'
      ∧ (splitURL loc).query = none ∧ (splitURL loc).fragment = none)
    ∧ (∀ port, noDelims port = true → noDelims ("localhost:" ++ port) = true)
    ∧ noDelims ("localhost:" ++ "") = true := by
  refine ⟨?_, noDelims_localhost, by decide⟩
  intro domain files filename doc loc hd hf hl
  rcases table_locs hd hf hl with rfl | rfl
  · rw [splitURL_index_loc host hh]
    exact ⟨rfl, rfl, rfl, rfl, rfl⟩
  · rw [splitURL_url_loc host hh]
    exact ⟨rfl, rfl, rfl, rfl, rfl⟩

/-- C9, amended, at a concrete input: the host `localhost:8080`. -/
theorem C9_locations_are_absolute_urls_witness :
    noDelims "localhost:8080" = true ∧
    (∀ domain files filename doc loc,
      (domain, files) ∈ sitemapData "localhost:8080" ⟨2026, 11, 2⟩ ⟨2026, 11, 2⟩ →
      (filename, doc) ∈ files → loc ∈ doc.locs →
      (splitURL loc).scheme = some "http" ∧ (splitURL loc).authority = some "localhost:8080"
      ∧ (splitURL loc).path.data.head? = some '/'
      ∧ (splitURL loc).query = none ∧ (splitURL loc).fragment = none) :=
  ⟨by decide, (C9_locations_are_absolute_urls "localhost:8080" ⟨2026, 11, 2⟩ ⟨2026, 11, 2⟩
    (by decide)).1⟩

/-- C10. With the configuration of `main` (output directory `sitemaps`, host
`localhost:` and the port, the two routes of `main`, the server listening on
`:` and the port), for every port on which a server can listen, that is a
port that has none of the characters `/`, `?` and `#`, as every decimal port:
the path of the sitemap location of the generated index is taken by the
`/sitemaps/` handler, which opens `sitemaps/crunchyroll/series/S.xml`, the
path `generateSitemaps` computes for `series/S.xml`, and after a run without
error that file holds the URL-set document; the path of the URL location of
the generated URL set is taken by the `/pages/` handler, which opens
`pages/crunchyroll/series/spy_x_family.html`. When `main` starts the server,
it is with these routes, on the address `:` and the port. -/
theorem C10_builder_and_server_agree (port : String) (tIndex tSet : Time) (ord : RangeOrder)
    (fs : FS) (hp : noDelims port = true) :
    (∀ loc ∈ (indexDocument ("localhost:" ++ port) tIndex).locs,
      muxHandler muxRoutes (splitURL loc).path
        = some { pattern := "/sitemaps/", strip := "/sitemaps/", root := "sitemaps" }
      ∧ servedFile muxRoutes (splitURL loc).path
        = some (entryPath "sitemaps" "crunchyroll" "series/S.xml"))
    ∧ entryPath "sitemaps" "crunchyroll" "series/S.xml" = "sitemaps/crunchyroll/series/S.xml"
    ∧ ((generateSitemaps "sitemaps" ("localhost:" ++ port) tIndex tSet ord fs).2 = none →
      (generateSitemaps "sitemaps" ("localhost:" ++ port) tIndex tSet ord fs).1.readFile
          "sitemaps/crunchyroll/series/S.xml"
        = some (documentText (urlsetDocument ("localhost:" ++ port) tSet)))
    ∧ (∀ loc ∈ (urlsetDocument ("localhost:" ++ port) tSet).locs,
      muxHandler muxRoutes (splitURL loc).path
        = some { pattern := "/pages/", strip := "/pages/", root := "pages" }
      ∧ servedFile muxRoutes (splitURL loc).path
        = some "pages/crunchyroll/series/spy_x_family.html")
    ∧ ((generateSitemaps "sitemaps" ("localhost:" ++ port) tIndex tSet ord fs).2 = none →
      Event.listenAndServe (":" ++ port) muxRoutes
        ∈ (main { loadErr := none, SERVER_PORT := port } tIndex tSet ord fs).2)
    ∧ (∀ p : String, p.data.all Char.isDigit = true → noDelims p = true) := by
  have hh := noDelims_localhost port hp
  have e1 : entryPath "sitemaps" "crunchyroll" "series/S.xml" = "sitemaps/crunchyroll/series/S.xml" := by
    decide
  refine ⟨?_, e1, ?_, ?_, ?_, noDelims_of_digits⟩
  · intro loc hl
    have : loc = "http://" ++ ("localhost:" ++ port) ++ "/sitemaps/crunchyroll/series/S.xml" := by
      simpa [indexDocument, Document.locs, Sprintf_index_loc] using hl
    subst this
    rw [splitURL_index_loc _ hh, e1]
    refine ⟨?_, ?_⟩ <;> dsimp only <;> decide
  · intro hok
    have h2 := (generateSitemaps_ok_holds hok).2.readFile
    simp only [urlsetVisit, e1] at h2
    exact h2
  · intro loc hl
    have : loc = "http://" ++ ("localhost:" ++ port) ++ "/pages/crunchyroll/series/spy_x_family.html" := by
      simpa [urlsetDocument, Document.locs, Sprintf_url_loc] using hl
    subst this
    rw [splitURL_url_loc _ hh]
    refine ⟨?_, ?_⟩ <;> dsimp only <;> decide
  · intro hok
    unfold main
    rcases hg : generateSitemaps "sitemaps" ("localhost:" ++ port) tIndex tSet ord fs with ⟨fs1, r⟩
    rw [hg] at hok
    simp only at hok
    subst hok
    simp [hg]

set_option maxRecDepth 100000 in
/-- C10 at a concrete input: the port `8080` and the empty filesystem. -/
theorem C10_builder_and_server_agree_witness :
    noDelims "8080" = true ∧
    (generateSitemaps "sitemaps" ("localhost:" ++ "8080") ⟨2026, 11, 2⟩ ⟨2026, 11, 2⟩ {} emptyFS).2
      = none ∧
    (generateSitemaps "sitemaps" ("localhost:" ++ "8080") ⟨2026, 11, 2⟩ ⟨2026, 11, 2⟩ {}
        emptyFS).1.readFile "sitemaps/crunchyroll/series/S.xml"
      = some (documentText (urlsetDocument ("localhost:" ++ "8080") ⟨2026, 11, 2⟩)) :=
  ⟨by decide, by decide,
   (C10_builder_and_server_agree "8080" ⟨2026, 11, 2⟩ ⟨2026, 11, 2⟩ {} emptyFS (by decide)).2.2.1
     (by decide)⟩


end Uwurl
